import Mathlib

/-!
# Relational-algebra DAG builder and binder

A shallow embedding of `QueryEngine/RelAlgAbstractInterpreter.cpp`.

* A `CHECK` failure, an uncaught exception and a failed rapidjson assertion all
  abort the build; every fallible function returns `Option`, `none` being the abort.
* A `RelAlgNode*` is the position of the node in `nodes_`: every node is created by
  `RaAbstractInterp::run` and appended to `nodes_`, and is never moved afterwards.
* Declarations of `RelAlgAbstractInterpreter.h`, `sqldefs.h` and `sqltypes.h` are not
  part of the sources; the decoders `to_sql_type`, `to_sql_op`, `to_agg_kind` and the
  catalog are parameters (`Env`), the class layouts follow the data model of the
  specification.
-/

namespace RelAlg

/-! ## JSON values (rapidjson) -/

/-- A double as carried by a JSON document: only moved around, never computed with. -/
structure JsonDouble where
  bits : Nat
deriving DecidableEq, Repr

/-- A parsed JSON value. `int` is a number written without fraction or exponent. -/
inductive Json where
  | null
  | bool (b : Bool)
  | int (i : Int)
  | double (d : JsonDouble)
  | str (s : String)
  | arr (elems : List Json)
  | obj (members : List (String × Json))
deriving Repr

namespace Json

def IsObject : Json → Bool
  | obj _ => true
  | _ => false

def IsArray : Json → Bool
  | arr _ => true
  | _ => false

/-- The first member with the given name (`FindMember`). -/
def FindMember : Json → String → Option Json
  | obj members, name => members.lookup name
  | _, _ => none

def HasMember (v : Json) (name : String) : Bool :=
  (v.FindMember name).isSome

def MemberCount : Json → Nat
  | obj members => members.length
  | _ => 0

mutual

/-- The nesting depth of a value: how many arrays and objects enclose its innermost part. -/
def depth : Json → Nat
  | arr elems => depth_elems elems + 1
  | obj members => depth_members members + 1
  | _ => 0

def depth_elems : List Json → Nat
  | [] => 0
  | e :: es => max e.depth (depth_elems es)

def depth_members : List (String × Json) → Nat
  | [] => 0
  | m :: ms => max (depth_member m) (depth_members ms)

def depth_member : String × Json → Nat
  | (_, v) => v.depth

end

end Json

/-- A `const char*` read as a `std::string`: the characters before the first NUL. -/
def c_str (s : String) : String :=
  ⟨s.data.takeWhile (fun c => c != Char.ofNat 0)⟩

/-- Checked json field retrieval. -/
def field (obj : Json) (name : String) : Option Json :=
  if obj.IsObject then obj.FindMember name else none

def json_i64 : Json → Option Int
  | .int i => if -2 ^ 63 ≤ i ∧ i < 2 ^ 63 then some i else none
  | _ => none

def json_str : Json → Option String
  | .str s => some (c_str s)
  | _ => none

def json_bool : Json → Option Bool
  | .bool b => some b
  | _ => none

def json_double : Json → Option JsonDouble
  | .double d => some d
  | _ => none

/-! ## `std::stoi` -/

def isspace (c : Char) : Bool :=
  c == ' ' || (9 ≤ c.toNat && c.toNat ≤ 13)

def digits_value (ds : List Char) : Nat :=
  ds.foldl (fun acc c => 10 * acc + (c.toNat - 48)) 0

/-- The function `std::stoi(str)` in base 10: leading white space, an optional sign, the
longest run of digits; no digit at all or a value outside `int` throws. -/
def stoi (str : String) : Option Int :=
  let cs := str.data.dropWhile isspace
  let signed : Bool × List Char :=
    match cs with
    | '-' :: rest => (true, rest)
    | '+' :: rest => (false, rest)
    | _ => (false, cs)
  let ds := signed.2.takeWhile Char.isDigit
  if ds.isEmpty then none
  else
    let v : Int := if signed.1 then -(digits_value ds : Int) else (digits_value ds : Int)
    if -2 ^ 31 ≤ v ∧ v < 2 ^ 31 then some v else none

/-- Conversion of an `int` to `unsigned`. -/
def to_unsigned (v : Int) : Nat := (v % 2 ^ 32).toNat

/-- Conversion of an `int` to `size_t`. -/
def to_size_t (v : Int) : Nat := (v % 2 ^ 64).toNat

def node_id (ra_node : Json) : Option Nat :=
  (field ra_node "id").bind fun id =>
  ((json_str id).bind stoi).map to_unsigned

/-! ## Enumerations and catalog -/

/-- Enumerators of `SQLTypes` (sqltypes.h). -/
inductive SQLTypes where
  | kNULLT | kBOOLEAN | kCHAR | kVARCHAR | kNUMERIC | kDECIMAL | kINT | kSMALLINT
  | kFLOAT | kDOUBLE | kTIME | kTIMESTAMP | kBIGINT | kTEXT | kDATE | kARRAY | kTINYINT
deriving DecidableEq, Repr

/-- Enumerators of `SQLOps` (sqldefs.h). -/
inductive SQLOps where
  | kEQ | kNE | kLT | kGT | kLE | kGE | kAND | kOR | kNOT | kMINUS | kPLUS | kMULTIPLY
  | kDIVIDE | kUMINUS | kISNULL
deriving DecidableEq, Repr

/-- Enumerators of `SQLAgg` (sqldefs.h). -/
inductive SQLAgg where
  | kAVG | kMIN | kMAX | kSUM | kCOUNT
deriving DecidableEq, Repr

/-- Modelled from the spec: the catalog oracle resolves a table name to a table descriptor
with its column count; `Catalog.h` declares the name and the id only. -/
structure TableDescriptor where
  tableName : String
  tableId : Int
  nColumns : Nat
deriving DecidableEq, Repr

/-- The declarations the translation unit takes from headers that are not part of the
sources, and the catalog it is run against; `none` is the fatal failure, for the catalog
the null pointer. -/
structure Env where
  to_sql_type : String → Option SQLTypes
  to_sql_op : String → Option SQLOps
  to_agg_kind : String → Option SQLAgg
  getMetadataForTable : String → Option TableDescriptor

/-! ## Scalar expressions -/

/-- The payload of a literal: `boost::variant<int64_t, double, std::string, bool, void*>`. -/
inductive LiteralValue where
  | i64 (v : Int)
  | dbl (v : JsonDouble)
  | str (v : String)
  | bool (v : Bool)
  | null
deriving DecidableEq, Repr

structure RexLiteral where
  literal : LiteralValue
  type : SQLTypes
  scale : Int
  precision : Int
  type_scale : Int
  type_precision : Int
deriving DecidableEq, Repr

/-- Modelled from the spec: the default constructor `RexLiteral()` builds the untyped
null literal. -/
def RexLiteral.untyped_null : RexLiteral :=
  { literal := .null, type := .kNULLT, scale := 0, precision := 0, type_scale := 0,
    type_precision := 0 }

structure RexAgg where
  agg : SQLAgg
  distinct : Bool
  type : SQLTypes
  nullable : Bool
  operands : List Nat
deriving DecidableEq, Repr

/-- The resolved reference `RexInput(node, in_index)`. -/
structure RexInput where
  node : Nat
  in_index : Int
deriving DecidableEq, Repr

/-- Modelled from the spec: a scalar expression is one of AbstractInput, Input, Literal,
Operator, Agg. -/
inductive RexScalar where
  | abstractInput (in_index : Int)
  | input (i : RexInput)
  | literal (l : RexLiteral)
  | operator (op : SQLOps) (operands : List RexScalar)
  | agg (a : RexAgg)
deriving Repr

def parse_abstract_input (expr : Json) : Option RexScalar :=
  (field expr "input").bind fun input =>
  (json_i64 input).map RexScalar.abstractInput

def parse_literal (env : Env) (expr : Json) : Option RexLiteral :=
  if expr.IsObject = false then none else
  (field expr "literal").bind fun literal =>
  (((field expr "type").bind json_str).bind env.to_sql_type).bind fun type =>
  ((field expr "scale").bind json_i64).bind fun scale =>
  ((field expr "precision").bind json_i64).bind fun precision =>
  ((field expr "type_scale").bind json_i64).bind fun type_scale =>
  ((field expr "type_precision").bind json_i64).bind fun type_precision =>
  match type with
  | .kDECIMAL =>
    (json_i64 literal).map fun v =>
      ⟨.i64 v, type, scale, precision, type_scale, type_precision⟩
  | .kDOUBLE =>
    (json_double literal).map fun v =>
      ⟨.dbl v, type, scale, precision, type_scale, type_precision⟩
  | .kTEXT =>
    (json_str literal).map fun v =>
      ⟨.str v, type, scale, precision, type_scale, type_precision⟩
  | .kBOOLEAN =>
    (json_bool literal).map fun v =>
      ⟨.bool v, type, scale, precision, type_scale, type_precision⟩
  | .kNULLT => some RexLiteral.untyped_null
  | _ => none

/-- The function `parse_operator`, its reader of the operands given as `scalar_reader`. -/
def parse_operator_with (env : Env) (scalar_reader : Json → Option RexScalar) (expr : Json) :
    Option RexScalar :=
  (((field expr "op").bind json_str).bind env.to_sql_op).bind fun op =>
  (field expr "operands").bind fun operators_json_arr =>
  match operators_json_arr with
  | .arr elems => (elems.mapM' scalar_reader).map (RexScalar.operator op)
  | _ => none

/-- The function `parse_scalar_expr` with a bound on the nesting depth it descends;
`none` with no fuel left. -/
def parse_scalar_expr_fuel (env : Env) : Nat → Json → Option RexScalar
  | 0, _ => none
  | fuel + 1, expr =>
    if expr.IsObject = false then none
    else if expr.IsObject && expr.HasMember "input" then parse_abstract_input expr
    else if expr.IsObject && expr.HasMember "literal" then
      (parse_literal env expr).map RexScalar.literal
    else if expr.IsObject && expr.HasMember "op" then
      parse_operator_with env (parse_scalar_expr_fuel env fuel) expr
    else none

/-- The function `parse_scalar_expr`: the recursion descends into the value, so the
nesting depth of the value bounds it. -/
def parse_scalar_expr (env : Env) (expr : Json) : Option RexScalar :=
  parse_scalar_expr_fuel env (expr.depth + 1) expr

def parse_operator (env : Env) (expr : Json) : Option RexScalar :=
  parse_operator_with env (parse_scalar_expr env) expr

def strings_from_json_array (json_str_arr : Json) : Option (List String) :=
  match json_str_arr with
  | .arr elems => elems.mapM' json_str
  | _ => none

def json_index : Json → Option Nat
  | .int i => if -2 ^ 31 ≤ i ∧ i < 2 ^ 31 ∧ 0 ≤ i then some i.toNat else none
  | _ => none

def indices_from_json_array (json_idx_arr : Json) : Option (List Nat) :=
  match json_idx_arr with
  | .arr elems => elems.mapM' json_index
  | _ => none

def parse_aggregate_expr (env : Env) (expr : Json) : Option RexAgg :=
  (((field expr "agg").bind json_str).bind env.to_agg_kind).bind fun agg =>
  ((field expr "distinct").bind json_bool).bind fun distinct =>
  (field expr "type").bind fun type_json =>
  if (type_json.IsObject && type_json.MemberCount == 2) = false then none else
  (((field type_json "type").bind json_str).bind env.to_sql_type).bind fun type =>
  ((field type_json "nullable").bind json_bool).bind fun nullable =>
  ((field expr "operands").bind indices_from_json_array).map fun operands =>
  ⟨agg, distinct, type, nullable, operands⟩

inductive RelJoinType where
  | INNER
  | LEFT
deriving DecidableEq, Repr

def to_join_type (join_type_name : String) : Option RelJoinType :=
  if join_type_name = "inner" then some .INNER
  else if join_type_name = "left" then some .LEFT
  else none

/-! ## Relational nodes -/

structure RelScan where
  td : TableDescriptor
  field_names : List String
deriving Repr

structure RelProject where
  scalar_exprs : List RexScalar
  fields : List String
  input : Nat
deriving Repr

structure RelFilter where
  condition : RexScalar
  input : Nat
deriving Repr

structure RelAggregate where
  group_indices : List Nat
  agg_exprs : List RexAgg
  fields : List String
  input : Nat
deriving Repr

structure RelJoin where
  lhs : Nat
  rhs : Nat
  condition : RexScalar
  join_type : RelJoinType
deriving Repr

/-- Modelled from the spec: a relational node is one of Scan, Project, Filter, Aggregate,
Join; an input is the position of the input node in the node list. -/
inductive RelAlgNode where
  | scan (n : RelScan)
  | project (n : RelProject)
  | filter (n : RelFilter)
  | aggregate (n : RelAggregate)
  | join (n : RelJoin)
deriving Repr

/-- Modelled from the spec: the arity of a Scan is the column count of its table. -/
def RelScan.size (n : RelScan) : Nat := n.td.nColumns

/-- Modelled from the spec: the arity of a Project is its expression count. -/
def RelProject.size (n : RelProject) : Nat := n.scalar_exprs.length

/-- Modelled from the spec: the arity of an Aggregate is its group-key count plus its
aggregate count. -/
def RelAggregate.size (n : RelAggregate) : Nat := n.group_indices.length + n.agg_exprs.length

def RexScalar.isInput : RexScalar → Bool
  | .input _ => true
  | _ => false

/-- Modelled from the spec: a Project is simple when it is a pure column selection or
rename, with no computed expression. -/
def RelProject.isSimple (n : RelProject) : Bool := n.scalar_exprs.all RexScalar.isInput

/-- The inputs of a node, in order (`getInput(0)`, `getInput(1)`). -/
def RelAlgNode.inputs : RelAlgNode → List Nat
  | .scan _ => []
  | .project n => [n.input]
  | .filter n => [n.input]
  | .aggregate n => [n.input]
  | .join n => [n.lhs, n.rhs]

/-! ## Output-schema resolver -/

/-- Creates an output with n columns. -/
def n_outputs (node : Nat) (n : Nat) : List RexInput :=
  (List.range n).map fun (i : Nat) => (⟨node, (i : Int)⟩ : RexInput)

abbrev RANodeOutput := List RexInput

/-- The function `get_node_output` with a bound on the depth of the recursion through
the inputs; `none` with no fuel left. -/
def get_node_output_fuel (nodes : List RelAlgNode) : Nat → Nat → Option RANodeOutput
  | 0, _ => none
  | fuel + 1, ra_node =>
    match nodes[ra_node]? with
    | none => none
    | some (.scan scan_node) => some (n_outputs ra_node scan_node.size)
    | some (.project project_node) => some (n_outputs ra_node project_node.size)
    | some (.filter filter_node) =>
      match get_node_output_fuel nodes fuel filter_node.input with
      | none => none
      | some prev_out => some (n_outputs ra_node prev_out.length)
    | some (.aggregate aggregate_node) => some (n_outputs ra_node aggregate_node.size)
    | some (.join join_node) =>
      match get_node_output_fuel nodes fuel join_node.lhs with
      | none => none
      | some lhs_out =>
        match get_node_output_fuel nodes fuel join_node.rhs with
        | none => none
        | some rhs_out => some (lhs_out ++ rhs_out)

/-- The function `get_node_output` on the node at position `ra_node` of `nodes`: a chain
of inputs that each lie before their node is never longer than the list. -/
def get_node_output (nodes : List RelAlgNode) (ra_node : Nat) : Option RANodeOutput :=
  get_node_output_fuel nodes nodes.length ra_node

/-! ## Input binder -/

mutual

def disambiguate_rex (rex_scalar : RexScalar) (ra_output : Nat) : Option RexScalar :=
  match rex_scalar with
  | .abstractInput in_index => some (.input ⟨ra_output, in_index⟩)
  | .operator op operands =>
    match disambiguate_operands operands ra_output with
    | none => none
    | some disambiguated_operands => some (.operator op disambiguated_operands)
  | .literal rex_literal => some (.literal rex_literal)
  | .input _ => none
  | .agg _ => none

/-- The loop `for (i = 0; i < size(); ++i) out.push_back(disambiguate_rex(at(i), ra_output))`. -/
def disambiguate_operands (operands : List RexScalar) (ra_output : Nat) :
    Option (List RexScalar) :=
  match operands with
  | [] => some []
  | e :: rest =>
    match disambiguate_rex e ra_output with
    | none => none
    | some r =>
      match disambiguate_operands rest ra_output with
      | none => none
      | some rs => some (r :: rs)

end

/-- One iteration of the loop of `bind_inputs`. -/
def bind_node (ra_node : RelAlgNode) : Option RelAlgNode :=
  match ra_node with
  | .filter filter_node =>
    match disambiguate_rex filter_node.condition filter_node.input with
    | none => none
    | some disambiguated_condition =>
      some (.filter { filter_node with condition := disambiguated_condition })
  | .project project_node =>
    match disambiguate_operands project_node.scalar_exprs project_node.input with
    | none => none
    | some disambiguated_exprs =>
      some (.project { project_node with scalar_exprs := disambiguated_exprs })
  | other => some other

def bind_inputs (nodes : List RelAlgNode) : Option (List RelAlgNode) :=
  match nodes with
  | [] => some []
  | ra_node :: rest =>
    match bind_node ra_node with
    | none => none
    | some bound =>
      match bind_inputs rest with
      | none => none
      | some bound_rest => some (bound :: bound_rest)

/-! ## Node coalescer -/

inductive CoalesceState where
  | Initial
  | Filter
  | FirstProject
  | Aggregate
deriving DecidableEq, Repr

def RelAlgNode.isFilter : RelAlgNode → Bool
  | .filter _ => true
  | _ => false

def RelAlgNode.isProject : RelAlgNode → Bool
  | .project _ => true
  | _ => false

def RelAlgNode.isAggregate : RelAlgNode → Bool
  | .aggregate _ => true
  | _ => false

def RelAlgNode.isSimpleProject : RelAlgNode → Bool
  | .project n => n.isSimple
  | _ => false

/-- The statement `decltype(crt_pattern)().swap(crt_pattern)`: the pattern is dropped. -/
def swap_empty (_crt_pattern : List Nat) : List Nat := []

/-- One iteration of the loop of `coalesce_nodes`, on the node at position `i`: the next
state and pattern, `none` when the check of state `Filter` fails. -/
def coalesce_step (crt_state : CoalesceState) (crt_pattern : List Nat) (i : Nat)
    (ra_node : RelAlgNode) : Option (CoalesceState × List Nat) :=
  match crt_state with
  | .Initial =>
    if ra_node.isFilter then some (.Filter, crt_pattern ++ [i])
    else if ra_node.isProject then some (.FirstProject, crt_pattern ++ [i])
    else some (.Initial, crt_pattern)
  | .Filter =>
    if ra_node.isProject then some (.FirstProject, crt_pattern ++ [i]) else none
  | .FirstProject =>
    if ra_node.isAggregate then some (.Aggregate, crt_pattern ++ [i])
    else some (.Initial, swap_empty crt_pattern)
  | .Aggregate =>
    let pushed := if ra_node.isSimpleProject then crt_pattern ++ [i] else crt_pattern
    some (.Initial, swap_empty pushed)

/-- The loop of `coalesce_nodes` from position `i` on, `rest` being the nodes from there. -/
def coalesce_loop (rest : List RelAlgNode) (i : Nat) (crt_state : CoalesceState)
    (crt_pattern : List Nat) : Option (CoalesceState × List Nat) :=
  match rest with
  | [] => some (crt_state, crt_pattern)
  | ra_node :: tail =>
    match coalesce_step crt_state crt_pattern i ra_node with
    | none => none
    | some next => coalesce_loop tail (i + 1) next.1 next.2

/-- The function `coalesce_nodes`: the node list after the call, `none` on a failed check. -/
def coalesce_nodes (nodes : List RelAlgNode) : Option (List RelAlgNode) :=
  match coalesce_loop nodes 0 .Initial [] with
  | none => none
  | some _ => some nodes

/-! ## Builder -/

def getTableFromScanNode (env : Env) (scan_ra : Json) : Option TableDescriptor :=
  (field scan_ra "table").bind fun table_json =>
  match table_json with
  | .arr [_, _, .str name] => env.getMetadataForTable (c_str name)
  | _ => none

def getFieldNamesFromScanNode (scan_ra : Json) : Option (List String) :=
  (field scan_ra "fieldNames").bind strings_from_json_array

def dispatchTableScan (env : Env) (scan_ra : Json) : Option RelScan :=
  if scan_ra.IsObject = false then none else
  (getTableFromScanNode env scan_ra).bind fun td =>
  (getFieldNamesFromScanNode scan_ra).map fun field_names =>
  ⟨td, field_names⟩

/-- The member `prev`: the last node built so far, which must be the one just before the
declared id. -/
def prev (nodes_ : List RelAlgNode) (crt_node : Json) : Option Nat :=
  (node_id crt_node).bind fun id =>
  if id = 0 then none
  else if id ≠ nodes_.length then none
  else some (nodes_.length - 1)

def dispatchProject (env : Env) (nodes_ : List RelAlgNode) (proj_ra : Json) :
    Option RelProject :=
  (field proj_ra "exprs").bind fun exprs_json =>
  match exprs_json with
  | .arr elems =>
    (elems.mapM' (parse_scalar_expr env)).bind fun exprs =>
    (field proj_ra "fields").bind fun fields =>
    (strings_from_json_array fields).bind fun names =>
    (prev nodes_ proj_ra).map fun input =>
    ⟨exprs, names, input⟩
  | _ => none

def dispatchFilter (env : Env) (nodes_ : List RelAlgNode) (filter_ra : Json) :
    Option RelFilter :=
  (node_id filter_ra).bind fun id =>
  if id = 0 then none else
  ((field filter_ra "condition").bind (parse_operator env)).bind fun condition =>
  (prev nodes_ filter_ra).map fun input =>
  ⟨condition, input⟩

def dispatchAggregate (env : Env) (nodes_ : List RelAlgNode) (agg_ra : Json) :
    Option RelAggregate :=
  ((field agg_ra "fields").bind strings_from_json_array).bind fun fields =>
  ((field agg_ra "group").bind indices_from_json_array).bind fun group =>
  (field agg_ra "aggs").bind fun aggs_json_arr =>
  match aggs_json_arr with
  | .arr elems =>
    (elems.mapM' (parse_aggregate_expr env)).bind fun aggs =>
    (prev nodes_ agg_ra).map fun input =>
    ⟨group, aggs, fields, input⟩
  | _ => none

def dispatchJoin (env : Env) (nodes_ : List RelAlgNode) (join_ra : Json) :
    Option RelJoin :=
  (((field join_ra "joinType").bind json_str).bind to_join_type).bind fun join_type =>
  ((field join_ra "condition").bind (parse_scalar_expr env)).bind fun filter_rex =>
  ((field join_ra "inputs").bind strings_from_json_array).bind fun str_input_indices =>
  match str_input_indices with
  | [str_index0, str_index1] =>
    (stoi str_index0).bind fun index0 =>
    (stoi str_index1).bind fun index1 =>
    if to_size_t index0 < nodes_.length ∧ to_size_t index1 < nodes_.length then
      some ⟨to_size_t index0, to_size_t index1, filter_rex, join_type⟩
    else none
  | _ => none

/-- The dispatch of `run` on the discriminator "relOp". -/
def dispatch (env : Env) (nodes_ : List RelAlgNode) (rel_op : String) (crt_node : Json) :
    Option RelAlgNode :=
  if rel_op = "LogicalTableScan" then (dispatchTableScan env crt_node).map RelAlgNode.scan
  else if rel_op = "LogicalProject" then
    (dispatchProject env nodes_ crt_node).map RelAlgNode.project
  else if rel_op = "LogicalFilter" then
    (dispatchFilter env nodes_ crt_node).map RelAlgNode.filter
  else if rel_op = "LogicalAggregate" then
    (dispatchAggregate env nodes_ crt_node).map RelAlgNode.aggregate
  else if rel_op = "LogicalJoin" then (dispatchJoin env nodes_ crt_node).map RelAlgNode.join
  else none

/-- The body of the loop of `run` on one entry of "rels": the node list with the new
node appended. -/
def run_step (env : Env) (nodes_ : List RelAlgNode) (crt_node : Json) :
    Option (List RelAlgNode) :=
  (node_id crt_node).bind fun id =>
  if id ≠ nodes_.length then none
  else if crt_node.IsObject = false then none
  else
    ((field crt_node "relOp").bind json_str).bind fun rel_op =>
    (dispatch env nodes_ rel_op crt_node).map fun ra_node =>
    nodes_ ++ [ra_node]

/-- The loop of `run` over the entries of "rels" still to read. -/
def run_loop (env : Env) (rels : List Json) (nodes_ : List RelAlgNode) :
    Option (List RelAlgNode) :=
  match rels with
  | [] => some nodes_
  | crt_node :: rest =>
    match run_step env nodes_ crt_node with
    | none => none
    | some nodes_next => run_loop env rest nodes_next

/-- What a completed `run` leaves: the member `nodes_` and the returned root
`nodes_.back()`, as a position in `nodes_`. -/
structure RunResult where
  nodes_ : List RelAlgNode
  root : Nat
deriving Repr

/-- The factory part of `run`: the node list built from "rels", before binding. -/
def build_nodes (env : Env) (query_ast : Json) : Option (List RelAlgNode) :=
  (field query_ast "rels").bind fun rels =>
  match rels with
  | .arr entries => run_loop env entries []
  | _ => none

def run (env : Env) (query_ast : Json) : Option RunResult :=
  (build_nodes env query_ast).bind fun nodes_ =>
  if nodes_.isEmpty then none else
  (bind_inputs nodes_).bind fun bound =>
  (coalesce_nodes bound).map fun coalesced =>
  ⟨coalesced, coalesced.length - 1⟩

/-! ## Well-formed node lists -/

/-- Every input of a node lies strictly before the node in the list. -/
def BackwardEdges (nodes : List RelAlgNode) : Prop :=
  ∀ k (h : k < nodes.length), ∀ i ∈ (nodes.get ⟨k, h⟩).inputs, i < k

instance (nodes : List RelAlgNode) : Decidable (BackwardEdges nodes) := by
  unfold BackwardEdges
  exact inferInstance

/-- The arity of a node that defines a fresh schema (Scan, Project, Aggregate); `none` for
a Filter and for a Join. -/
def RelAlgNode.fresh_size : RelAlgNode → Option Nat
  | .scan n => some n.size
  | .project n => some n.size
  | .aggregate n => some n.size
  | _ => none

def RelAlgNode.isJoin : RelAlgNode → Bool
  | .join _ => true
  | _ => false

/-- The scalar expressions a node owns: the predicate of a Filter, the expressions of a
Project, the condition of a Join. -/
def RelAlgNode.exprs : RelAlgNode → List RexScalar
  | .filter n => [n.condition]
  | .project n => n.scalar_exprs
  | .join n => [n.condition]
  | _ => []

/-- The subexpression at a path: the path `k :: p` goes to operand `k` of an Operator and
on from there along `p`. -/
def RexScalar.subexpr : List Nat → RexScalar → Option RexScalar
  | [], e => some e
  | k :: p, .operator _ operands => (operands[k]?).bind (RexScalar.subexpr p)
  | _ :: _, _ => none

mutual

/-- Whether an AbstractInput occurs in the expression, at any depth. -/
def RexScalar.hasAbstractInput : RexScalar → Bool
  | .abstractInput _ => true
  | .operator _ operands => RexScalar.anyAbstractInput operands
  | _ => false

def RexScalar.anyAbstractInput : List RexScalar → Bool
  | [] => false
  | e :: rest => e.hasAbstractInput || RexScalar.anyAbstractInput rest

end

/-- Whether an AbstractInput is reachable from the node. -/
def RelAlgNode.hasAbstractInput (node : RelAlgNode) : Bool :=
  RexScalar.anyAbstractInput node.exprs

mutual

/-- Whether the expression is built only from AbstractInput, Operator and Literal. -/
def RexScalar.unbound_only : RexScalar → Bool
  | .abstractInput _ => true
  | .literal _ => true
  | .operator _ operands => RexScalar.all_unbound_only operands
  | _ => false

def RexScalar.all_unbound_only : List RexScalar → Bool
  | [] => true
  | e :: rest => e.unbound_only && RexScalar.all_unbound_only rest

end

mutual

/-- Whether `e2` has the shape of `e1` rewritten against the node `ra_output`: an
AbstractInput of index `i` became the Input `(ra_output, i)`, an Operator kept its tag and
has as many operands, each of the shape of the operand at the same place, a Literal is
equal. -/
def RexScalar.same_shape (ra_output : Nat) : RexScalar → RexScalar → Bool
  | .abstractInput i, .input r => decide (r = ⟨ra_output, i⟩)
  | .literal l1, .literal l2 => decide (l1 = l2)
  | .operator op1 operands1, .operator op2 operands2 =>
    decide (op1 = op2) && RexScalar.all_same_shape ra_output operands1 operands2
  | _, _ => false

def RexScalar.all_same_shape (ra_output : Nat) : List RexScalar → List RexScalar → Bool
  | [], [] => true
  | e1 :: rest1, e2 :: rest2 =>
    RexScalar.same_shape ra_output e1 e2 && RexScalar.all_same_shape ra_output rest1 rest2
  | _, _ => false

end

/-- A path of one or more input edges from the node at position `a` down to the node at
position `b`. -/
inductive InputPath (nodes : List RelAlgNode) : Nat → Nat → Prop where
  | edge (a b : Nat) (node : RelAlgNode) (ha : nodes[a]? = some node)
      (hb : b ∈ node.inputs) : InputPath nodes a b
  | step (a b c : Nat) (node : RelAlgNode) (ha : nodes[a]? = some node)
      (hb : b ∈ node.inputs) (rest : InputPath nodes b c) : InputPath nodes a c

mutual

/-- Whether a resolved Input occurs in the expression, at any depth. -/
def RexScalar.hasInput : RexScalar → Bool
  | .input _ => true
  | .operator _ operands => RexScalar.anyInput operands
  | _ => false

def RexScalar.anyInput : List RexScalar → Bool
  | [] => false
  | e :: rest => e.hasInput || RexScalar.anyInput rest

end

mutual

/-- The number of AbstractInput leaves of the expression. -/
def RexScalar.countAbstractInput : RexScalar → Nat
  | .abstractInput _ => 1
  | .operator _ operands => RexScalar.countAbstractInputs operands
  | _ => 0

def RexScalar.countAbstractInputs : List RexScalar → Nat
  | [] => 0
  | e :: rest => e.countAbstractInput + RexScalar.countAbstractInputs rest

end

mutual

/-- The number of Input leaves of the expression. -/
def RexScalar.countInput : RexScalar → Nat
  | .input _ => 1
  | .operator _ operands => RexScalar.countInputs operands
  | _ => 0

def RexScalar.countInputs : List RexScalar → Nat
  | [] => 0
  | e :: rest => e.countInput + RexScalar.countInputs rest

end

/-! ## Fixtures -/

/-- An environment to evaluate the builder in: a few type, operator and aggregate names,
and a catalog with the one table `test`, of two columns. -/
def sample_env : Env where
  to_sql_type := fun s =>
    if s = "DECIMAL" then some .kDECIMAL else if s = "BIGINT" then some .kBIGINT
    else if s = "DOUBLE" then some .kDOUBLE else if s = "TEXT" then some .kTEXT
    else if s = "BOOLEAN" then some .kBOOLEAN else if s = "NULL" then some .kNULLT
    else none
  to_sql_op := fun s =>
    if s = "=" then some .kEQ else if s = ">" then some .kGT else if s = "AND" then some .kAND
    else none
  to_agg_kind := fun s => if s = "COUNT" then some .kCOUNT else none
  getMetadataForTable := fun s => if s = "test" then some ⟨"test", 1, 2⟩ else none

/-- The entry `{"id": id, "relOp": "LogicalTableScan", "table": ["CATALOG", "mapd", "test"],
"fieldNames": ["a", "b"]}`. -/
def scan_json (id : String) : Json :=
  .obj [("id", .str id), ("relOp", .str "LogicalTableScan"),
    ("table", .arr [.str "CATALOG", .str "mapd", .str "test"]),
    ("fieldNames", .arr [.str "a", .str "b"])]

/-- The expression `{"input": i}`. -/
def input_json (i : Int) : Json := .obj [("input", .int i)]

/-- The expression `{"op": "=", "operands": [{"input": i}, {"input": j}]}`. -/
def eq_json (i j : Int) : Json :=
  .obj [("op", .str "="), ("operands", .arr [input_json i, input_json j])]

/-- The entry `{"id": id, "relOp": "LogicalFilter", "condition": condition}`. -/
def filter_json (id : String) (condition : Json) : Json :=
  .obj [("id", .str id), ("relOp", .str "LogicalFilter"), ("condition", condition)]

/-- The entry `{"id": id, "relOp": "LogicalProject", "exprs": exprs, "fields": fields}`. -/
def project_json (id : String) (exprs : List Json) (fields : List String) : Json :=
  .obj [("id", .str id), ("relOp", .str "LogicalProject"), ("exprs", .arr exprs),
    ("fields", .arr (fields.map Json.str))]

/-- The entry `{"id": id, "relOp": "LogicalJoin", "joinType": "inner",
"condition": condition, "inputs": [lhs, rhs]}`. -/
def join_json (id : String) (condition : Json) (lhs rhs : String) : Json :=
  .obj [("id", .str id), ("relOp", .str "LogicalJoin"), ("joinType", .str "inner"),
    ("condition", condition), ("inputs", .arr [.str lhs, .str rhs])]

/-- The plan `{"rels": entries}`. -/
def plan_json (entries : List Json) : Json := .obj [("rels", .arr entries)]

/-- The Scan node every `scan_json` builds in `sample_env`. -/
def test_scan : RelAlgNode := .scan ⟨⟨"test", 1, 2⟩, ["a", "b"]⟩

/-- The plan Scan(0), Filter(1) on `$0 = $1`. -/
def plan_scan_filter : Json := plan_json [scan_json "0", filter_json "1" (eq_json 0 1)]

/-- The node list of `plan_scan_filter` after the build. -/
def nodes_scan_filter : List RelAlgNode :=
  [test_scan, .filter ⟨.operator .kEQ [.input ⟨0, 0⟩, .input ⟨0, 1⟩], 0⟩]

/-- The plan Scan(0), Scan(1), Join(2) of the two on `$0 = $2`. -/
def plan_scan_scan_join : Json :=
  plan_json [scan_json "0", scan_json "1", join_json "2" (eq_json 0 2) "0" "1"]

/-- The node list of `plan_scan_scan_join` after the build. -/
def nodes_scan_scan_join : List RelAlgNode :=
  [test_scan, test_scan,
    .join ⟨0, 1, .operator .kEQ [.abstractInput 0, .abstractInput 2], .INNER⟩]

/-- The literal `{"literal": 42, "type": type_name, "scale": 0, "precision": 10,
"type_scale": 0, "type_precision": 10}`. -/
def literal_42_json (type_name : String) : Json :=
  .obj [("literal", .int 42), ("type", .str type_name), ("scale", .int 0),
    ("precision", .int 10), ("type_scale", .int 0), ("type_precision", .int 10)]

/-- The object `{"input": 1, "literal": 42, "op": "=", "operands": []}`, with all three
discriminating fields. -/
def all_three_json : Json :=
  .obj [("op", .str "="), ("operands", .arr []), ("literal", .int 42), ("input", .int 1)]

/-- The plan Scan(0), Join(1) of the Scan with itself on the bare condition `$0`. -/
def plan_self_join : Json := plan_json [scan_json "0", join_json "1" (input_json 0) "0" "0"]

/-- The node list of `plan_self_join` after the build. -/
def nodes_self_join : List RelAlgNode :=
  [test_scan, .join ⟨0, 0, .abstractInput 0, .INNER⟩]

/-- The plan Scan(0), Join(1) of the Scan with itself, Project(2) of `$0`. -/
def plan_join_project : Json :=
  plan_json [scan_json "0", join_json "1" (eq_json 0 2) "0" "0",
    project_json "2" [input_json 0] ["x"]]

/-- The node list of `plan_join_project` after the build. -/
def nodes_join_project : List RelAlgNode :=
  [test_scan, .join ⟨0, 0, .operator .kEQ [.abstractInput 0, .abstractInput 2], .INNER⟩,
    .project ⟨[.input ⟨1, 0⟩], ["x"], 1⟩]

/-- The plan Scan(0), Project(1) of `$1`, Filter(2) on `$0 = $0`. -/
def plan_scan_project_filter : Json :=
  plan_json [scan_json "0", project_json "1" [input_json 1] ["x"],
    filter_json "2" (eq_json 0 0)]

/-- The node list of `plan_scan_project_filter` before binding. -/
def nodes_scan_project_filter : List RelAlgNode :=
  [test_scan, .project ⟨[.abstractInput 1], ["x"], 0⟩,
    .filter ⟨.operator .kEQ [.abstractInput 0, .abstractInput 0], 1⟩]

/-- The node list of `plan_scan_project_filter` after the build. -/
def bound_scan_project_filter : List RelAlgNode :=
  [test_scan, .project ⟨[.input ⟨0, 1⟩], ["x"], 0⟩,
    .filter ⟨.operator .kEQ [.input ⟨1, 0⟩, .input ⟨1, 0⟩], 1⟩]

/-- The plan whose single entry, a Scan, declares the id 1 at position 0. -/
def plan_wrong_id : Json := plan_json [scan_json "1"]

/-- The object `{"literal": 42, "type": "DECIMAL", "scale": 0, "precision": 10}`, of exactly
these four fields. -/
def literal_four_fields_json : Json :=
  .obj [("literal", .int 42), ("type", .str "DECIMAL"), ("scale", .int 0),
    ("precision", .int 10)]

/-- The object `{"literal": 42, "type": "DECIMAL", "scale": 0, "precision": 10,
"type_scale": type_scale, "type_precision": type_precision}`. -/
def decimal_42_json (type_scale type_precision : Int) : Json :=
  .obj [("literal", .int 42), ("type", .str "DECIMAL"), ("scale", .int 0),
    ("precision", .int 10), ("type_scale", .int type_scale),
    ("type_precision", .int type_precision)]

/-- The object `{"literal": null, "type": "NULL"}`. -/
def null_literal_json : Json := .obj [("literal", .null), ("type", .str "NULL")]

/-- The object `{"literal": literal, "type": "NULL", "scale": 0, "precision": 0,
"type_scale": 0, "type_precision": 0}`. -/
def null_literal_full_json (literal : Json) : Json :=
  .obj [("literal", literal), ("type", .str "NULL"), ("scale", .int 0), ("precision", .int 0),
    ("type_scale", .int 0), ("type_precision", .int 0)]

/-- The aggregate `{"agg": "COUNT", "distinct": false, "type": {"type": "BIGINT",
"nullable": false}, "operands": operands}`. -/
def count_json (operands : List Json) : Json :=
  .obj [("agg", .str "COUNT"), ("distinct", .bool false),
    ("type", .obj [("type", .str "BIGINT"), ("nullable", .bool false)]),
    ("operands", .arr operands)]

/-- The entry `{"id": id, "relOp": "LogicalJoin", "joinType": join_type,
"condition": {"input": 0}, "inputs": inputs}`. -/
def join_json_of (id join_type : String) (inputs : List String) : Json :=
  .obj [("id", .str id), ("relOp", .str "LogicalJoin"), ("joinType", .str join_type),
    ("condition", input_json 0), ("inputs", .arr (inputs.map Json.str))]

/-- The entry `{"id": id, "relOp": "LogicalAggregate", "fields": ["n"], "group": [],
"aggs": [COUNT()]}`. -/
def count_aggregate_json (id : String) : Json :=
  .obj [("id", .str id), ("relOp", .str "LogicalAggregate"), ("fields", .arr [.str "n"]),
    ("group", .arr []), ("aggs", .arr [count_json []])]

/-- The plan Scan(0), Join(1) of the Scan with itself, of join type "INNER" in capitals. -/
def plan_join_capitals : Json :=
  plan_json [scan_json "0", join_json_of "1" "INNER" ["0", "0"]]

/-- The plan Scan(0), Join(1) of the Scan with itself, whose "joinType" is the eleven
characters "inner", NUL, "OUTER" (in JSON text: "inner\u0000OUTER"). -/
def plan_join_inner_nul : Json :=
  plan_json [scan_json "0", join_json_of "1" "inner\x00OUTER" ["0", "0"]]

/-- The plan Scan(0), Join(1) of the Scan with itself, whose "joinType" is the five
characters "left", NUL. -/
def plan_join_left_nul : Json :=
  plan_json [scan_json "0", join_json_of "1" "left\x00" ["0", "0"]]

/-- The plan whose first entry is a Project. -/
def plan_project_first : Json := plan_json [project_json "0" [] []]

/-- The plan Scan(0), Project(1) of `$k`, Filter(2) on `$0 = $0`, Aggregate(3) counting. -/
def plan_scan_project_filter_aggregate (k : Int) : Json :=
  plan_json [scan_json "0", project_json "1" [input_json k] ["x"],
    filter_json "2" (eq_json 0 0), count_aggregate_json "3"]

/-- The node list of `plan_scan_project_filter_aggregate k` after the build. -/
def nodes_scan_project_filter_aggregate (k : Int) : List RelAlgNode :=
  [test_scan, .project ⟨[.input ⟨0, k⟩], ["x"], 0⟩,
    .filter ⟨.operator .kEQ [.input ⟨1, 0⟩, .input ⟨1, 0⟩], 1⟩,
    .aggregate ⟨[], [⟨.kCOUNT, false, .kBIGINT, false, []⟩], ["n"], 2⟩]

/-- The node list of `plan_scan_project_filter_aggregate k` as the factory builds it,
before binding. -/
def built_scan_project_filter_aggregate (k : Int) : List RelAlgNode :=
  [test_scan, .project ⟨[.abstractInput k], ["x"], 0⟩,
    .filter ⟨.operator .kEQ [.abstractInput 0, .abstractInput 0], 1⟩,
    .aggregate ⟨[], [⟨.kCOUNT, false, .kBIGINT, false, []⟩], ["n"], 2⟩]

/-- A Filter on `$0 = $1` of the node at position `input`, bound. -/
def sample_filter (input : Nat) : RelFilter :=
  ⟨.operator .kEQ [.input ⟨input, 0⟩, .input ⟨input, 1⟩], input⟩

/-- A Project of column 0 of the node at position `input`, bound: a simple Project. -/
def sample_project (input : Nat) : RelProject := ⟨[.input ⟨input, 0⟩], ["x"], input⟩

/-- An Aggregate counting the rows of the node at position `input`. -/
def sample_aggregate (input : Nat) : RelAggregate :=
  ⟨[], [⟨.kCOUNT, false, .kBIGINT, false, []⟩], ["n"], input⟩

/-- The node list Filter, Project, Aggregate, Project whose last Project is simple. -/
def nodes_fpap : List RelAlgNode :=
  [.filter (sample_filter 0), .project (sample_project 0), .aggregate (sample_aggregate 1),
    .project (sample_project 2)]

/-- The plan Scan(0), Filter(1), Project(2), Aggregate(3), Project(4). -/
def plan_scan_fpap : Json :=
  plan_json [scan_json "0", filter_json "1" (eq_json 0 1),
    project_json "2" [input_json 0] ["x"], count_aggregate_json "3",
    project_json "4" [input_json 0] ["x"]]

/-- The node list of `plan_scan_fpap` after the build. -/
def nodes_scan_fpap : List RelAlgNode :=
  [test_scan, .filter (sample_filter 0), .project (sample_project 1),
    .aggregate (sample_aggregate 2), .project (sample_project 3)]

/-- The node list Project, Project, Aggregate. -/
def nodes_ppa : List RelAlgNode :=
  [.project (sample_project 0), .project (sample_project 0), .aggregate (sample_aggregate 1)]

/-- The node list Scan, Project, Filter, Aggregate, bound: the Filter follows a Project and
is followed by an Aggregate. -/
def nodes_spfa : List RelAlgNode := nodes_scan_project_filter_aggregate 1

/-- The node list Scan, Filter, Aggregate, bound: the Filter starts a pattern and is
followed by an Aggregate. -/
def nodes_sfa : List RelAlgNode :=
  [test_scan, .filter (sample_filter 0), .aggregate (sample_aggregate 1)]

/-- The plan Scan(0), Project(1) of `$5`, a column the Scan does not have. -/
def plan_project_out_of_range : Json :=
  plan_json [scan_json "0", project_json "1" [input_json 5] ["x"]]

/-- The node list of `plan_project_out_of_range` as the factory builds it. -/
def built_project_out_of_range : List RelAlgNode :=
  [test_scan, .project ⟨[.abstractInput 5], ["x"], 0⟩]

/-- The node list of `plan_project_out_of_range` after the build. -/
def nodes_project_out_of_range : List RelAlgNode :=
  [test_scan, .project ⟨[.input ⟨0, 5⟩], ["x"], 0⟩]

/-- The condition `{"input": 1, "op": "=", "operands": [{"input": 0}, {"input": 1}]}`, with
both an "input" and an "op". -/
def input_and_op_json : Json :=
  .obj [("input", .int 1), ("op", .str "="),
    ("operands", .arr [input_json 0, input_json 1])]

/-- The plan Scan(0), Filter(1) on the bare condition `{"input": 0}`. -/
def plan_filter_bare_input : Json :=
  plan_json [scan_json "0", filter_json "1" (input_json 0)]

/-! ## Facts about the readers -/

/-- A string without a NUL character is read whole. -/
theorem c_str_of_no_nul (s : String) (h : Char.ofNat 0 ∉ s.data) : c_str s = s := by
  unfold c_str
  have hall : s.data.takeWhile (fun c => c != Char.ofNat 0) = s.data := by
    rw [List.takeWhile_eq_self_iff]
    intro c hc
    simp only [bne_iff_ne, ne_eq]
    intro h0
    exact h (h0 ▸ hc)
  rw [hall]

theorem mapM'_option_congr {α β : Type} (f g : α → Option β) (l : List α)
    (h : ∀ x ∈ l, f x = g x) : l.mapM' f = l.mapM' g := by
  induction l with
  | nil => rfl
  | cons a l ih =>
    simp only [List.mapM'_cons]
    rw [h a (List.mem_cons_self a l), ih (fun x hx => h x (List.mem_cons_of_mem a hx))]

theorem mapM'_option_length {α β : Type} (f : α → Option β) :
    ∀ (l : List α) (r : List β), l.mapM' f = some r → r.length = l.length := by
  intro l
  induction l with
  | nil =>
    intro r h
    simp only [List.mapM'_nil, Option.pure_def, Option.some.injEq] at h
    subst h
    rfl
  | cons a l ih =>
    intro r h
    simp only [List.mapM'_cons, Option.pure_def, Option.bind_eq_bind] at h
    cases hf : f a with
    | none => rw [hf] at h; simp at h
    | some b =>
      cases hl : l.mapM' f with
      | none => rw [hf, hl] at h; simp at h
      | some bs =>
        rw [hf, hl] at h
        simp only [Option.some_bind, Option.some.injEq] at h
        subst h
        simp [ih bs hl]

theorem depth_lookup_le (name : String) (members : List (String × Json)) (v : Json)
    (h : members.lookup name = some v) : v.depth ≤ Json.depth_members members := by
  induction members with
  | nil => simp [List.lookup] at h
  | cons m ms ih =>
    obtain ⟨k, w⟩ := m
    simp only [List.lookup] at h
    rw [Json.depth_members, Json.depth_member]
    split at h
    · cases h
      exact le_max_left _ _
    · exact le_trans (ih h) (le_max_right _ _)

theorem field_depth_lt (e : Json) (name : String) (v : Json) (h : field e name = some v) :
    v.depth < e.depth := by
  cases e <;> simp [field, Json.IsObject, Json.FindMember] at h
  rename_i ms
  have := depth_lookup_le name ms v h
  rw [Json.depth]
  omega

theorem elem_depth_le (elems : List Json) (x : Json) (hx : x ∈ elems) :
    x.depth ≤ Json.depth_elems elems := by
  induction elems with
  | nil => simp at hx
  | cons e es ih =>
    rw [Json.depth_elems]
    rcases List.mem_cons.mp hx with h | h
    · subst h
      exact le_max_left _ _
    · exact le_trans (ih h) (le_max_right _ _)

theorem parse_operator_with_congr (env : Env) (r1 r2 : Json → Option RexScalar) (expr : Json)
    (h : ∀ elems, field expr "operands" = some (.arr elems) → ∀ x ∈ elems, r1 x = r2 x) :
    parse_operator_with env r1 expr = parse_operator_with env r2 expr := by
  unfold parse_operator_with
  cases hop : ((field expr "op").bind json_str).bind env.to_sql_op with
  | none => rfl
  | some op =>
    cases hf : field expr "operands" with
    | none => rfl
    | some a =>
      cases a with
      | arr elems =>
        simp only [Option.some_bind]
        rw [mapM'_option_congr r1 r2 elems (h elems hf)]
      | _ => rfl

theorem parse_scalar_expr_fuel_succ (env : Env) :
    ∀ (n : Nat) (e : Json), e.depth < n →
      parse_scalar_expr_fuel env (n + 1) e = parse_scalar_expr_fuel env n e := by
  intro n
  induction n with
  | zero => intro e h; omega
  | succ k ih =>
    intro e h
    rw [parse_scalar_expr_fuel, parse_scalar_expr_fuel]
    rw [parse_operator_with_congr env (parse_scalar_expr_fuel env (k + 1))
      (parse_scalar_expr_fuel env k) e]
    intro elems hf x hx
    have h1 := field_depth_lt e _ _ hf
    have h2 := elem_depth_le elems x hx
    rw [Json.depth] at h1
    exact ih x (by omega)

theorem parse_scalar_expr_fuel_ge (env : Env) (e : Json) (n : Nat) (h : e.depth < n) :
    parse_scalar_expr_fuel env n e = parse_scalar_expr env e := by
  unfold parse_scalar_expr
  induction n with
  | zero => omega
  | succ k ih =>
    rcases Nat.lt_or_ge e.depth k with hlt | hge
    · rw [parse_scalar_expr_fuel_succ env k e hlt]
      exact ih hlt
    · have : k = e.depth := by omega
      rw [this]

/-- The recursion equation of `parse_scalar_expr`, as the source has it. -/
theorem parse_scalar_expr_eq (env : Env) (expr : Json) :
    parse_scalar_expr env expr =
      if expr.IsObject = false then none
      else if expr.IsObject && expr.HasMember "input" then parse_abstract_input expr
      else if expr.IsObject && expr.HasMember "literal" then
        (parse_literal env expr).map RexScalar.literal
      else if expr.IsObject && expr.HasMember "op" then parse_operator env expr
      else none := by
  rw [parse_scalar_expr, parse_scalar_expr_fuel, parse_operator]
  rw [parse_operator_with_congr env (parse_scalar_expr_fuel env expr.depth)
    (parse_scalar_expr env) expr]
  intro elems hf x hx
  have h1 := field_depth_lt expr _ _ hf
  have h2 := elem_depth_le elems x hx
  rw [Json.depth] at h1
  exact parse_scalar_expr_fuel_ge env x _ (by omega)

theorem json_i64_int (i : Int) (hlo : -2 ^ 63 ≤ i) (hhi : i < 2 ^ 63) :
    json_i64 (.int i) = some i := by
  rw [json_i64, if_pos ⟨hlo, hhi⟩]

theorem parse_literal_decimal (env : Env) (expr literal : Json)
    (scale precision type_scale type_precision : Int)
    (hobj : expr.IsObject = true)
    (hl : field expr "literal" = some literal)
    (ht : ((field expr "type").bind json_str).bind env.to_sql_type = some .kDECIMAL)
    (hs : (field expr "scale").bind json_i64 = some scale)
    (hp : (field expr "precision").bind json_i64 = some precision)
    (hts : (field expr "type_scale").bind json_i64 = some type_scale)
    (htp : (field expr "type_precision").bind json_i64 = some type_precision) :
    parse_literal env expr =
      (json_i64 literal).map fun v =>
        ⟨.i64 v, .kDECIMAL, scale, precision, type_scale, type_precision⟩ := by
  simp [parse_literal, hobj, hl, ht, hs, hp, hts, htp]

theorem parse_literal_nullt (env : Env) (expr literal : Json)
    (scale precision type_scale type_precision : Int)
    (hobj : expr.IsObject = true)
    (hl : field expr "literal" = some literal)
    (ht : ((field expr "type").bind json_str).bind env.to_sql_type = some .kNULLT)
    (hs : (field expr "scale").bind json_i64 = some scale)
    (hp : (field expr "precision").bind json_i64 = some precision)
    (hts : (field expr "type_scale").bind json_i64 = some type_scale)
    (htp : (field expr "type_precision").bind json_i64 = some type_precision) :
    parse_literal env expr = some RexLiteral.untyped_null := by
  simp [parse_literal, hobj, hl, ht, hs, hp, hts, htp]

/-- Without an int64 "scale", "precision", "type_scale" or "type_precision" a literal is
refused, whatever its type. -/
theorem parse_literal_missing (env : Env) (expr : Json)
    (h : (field expr "scale").bind json_i64 = none ∨
      (field expr "precision").bind json_i64 = none ∨
      (field expr "type_scale").bind json_i64 = none ∨
      (field expr "type_precision").bind json_i64 = none) :
    parse_literal env expr = none := by
  unfold parse_literal
  split
  · rfl
  · cases hl : field expr "literal" with
    | none => rfl
    | some literal =>
      cases ht : ((field expr "type").bind json_str).bind env.to_sql_type with
      | none => simp [ht]
      | some t =>
        simp only [Option.some_bind, ht]
        cases hs : (field expr "scale").bind json_i64 with
        | none => rfl
        | some scale =>
          cases hp : (field expr "precision").bind json_i64 with
          | none => rfl
          | some precision =>
            cases hts : (field expr "type_scale").bind json_i64 with
            | none => rfl
            | some type_scale =>
              cases htp : (field expr "type_precision").bind json_i64 with
              | none => rfl
              | some type_precision =>
                rw [hs, hp, hts, htp] at h
                simp at h

theorem mapM'_option_getElem? {α β : Type} (f : α → Option β) :
    ∀ (l : List α) (r : List β), l.mapM' f = some r →
      ∀ (k : Nat) (a : α), l[k]? = some a → ∃ b, r[k]? = some b ∧ f a = some b := by
  intro l
  induction l with
  | nil =>
    intro r _ k a hk
    simp at hk
  | cons x l ih =>
    intro r h k a hk
    simp only [List.mapM'_cons, Option.pure_def, Option.bind_eq_bind] at h
    cases hf : f x with
    | none => rw [hf] at h; simp at h
    | some b =>
      cases hl : l.mapM' f with
      | none => rw [hf, hl] at h; simp at h
      | some bs =>
        rw [hf, hl] at h
        simp only [Option.some_bind, Option.some.injEq] at h
        subst h
        cases k with
        | zero =>
          simp only [List.getElem?_cons_zero, Option.some.injEq] at hk
          subst hk
          exact ⟨b, by simp, hf⟩
        | succ k =>
          simp only [List.getElem?_cons_succ] at hk ⊢
          exact ih bs hl k a hk

theorem json_bool_some (v : Json) (b : Bool) (h : json_bool v = some b) : v = .bool b := by
  cases v <;> simp [json_bool] at h
  rw [h]

theorem json_index_some (v : Json) (i : Nat) (h : json_index v = some i) :
    v = .int (i : Int) ∧ (i : Int) < 2 ^ 31 := by
  cases v <;> simp only [json_index] at h
  case int j =>
    split at h
    · rename_i hr
      simp only [Option.some.injEq] at h
      subst h
      rw [Int.toNat_of_nonneg hr.2.2]
      exact ⟨rfl, hr.2.1⟩
    · simp at h
  all_goals simp at h

/-- What a successful `parse_aggregate_expr` has read. -/
theorem parse_aggregate_expr_some (env : Env) (expr : Json) (a : RexAgg)
    (h : parse_aggregate_expr env expr = some a) :
    ∃ type_json elems,
      field expr "type" = some type_json ∧
      type_json.IsObject = true ∧ type_json.MemberCount = 2 ∧
      ((field expr "agg").bind json_str).bind env.to_agg_kind = some a.agg ∧
      field expr "distinct" = some (.bool a.distinct) ∧
      ((field type_json "type").bind json_str).bind env.to_sql_type = some a.type ∧
      field type_json "nullable" = some (.bool a.nullable) ∧
      field expr "operands" = some (.arr elems) ∧
      a.operands.length = elems.length ∧
      ∀ (k : Nat) (e : Json), elems[k]? = some e →
        ∃ i : Nat, e = .int (i : Int) ∧ (i : Int) < 2 ^ 31 ∧ a.operands[k]? = some i := by
  unfold parse_aggregate_expr at h
  cases hagg : ((field expr "agg").bind json_str).bind env.to_agg_kind with
  | none => rw [hagg] at h; simp at h
  | some agg =>
    rw [hagg] at h
    simp only [Option.some_bind] at h
    cases hd : field expr "distinct" with
    | none => rw [hd] at h; simp at h
    | some dv =>
      rw [hd] at h
      simp only [Option.some_bind] at h
      cases hdb : json_bool dv with
      | none => rw [hdb] at h; simp at h
      | some distinct =>
        rw [hdb] at h
        simp only [Option.some_bind] at h
        cases ht : field expr "type" with
        | none => rw [ht] at h; simp at h
        | some type_json =>
          rw [ht] at h
          simp only [Option.some_bind] at h
          split at h
          · simp at h
          · rename_i hshape
            simp only [Bool.and_eq_false_imp, beq_eq_false_iff_ne, ne_eq, Classical.not_imp,
              Decidable.not_not] at hshape
            cases hty : ((field type_json "type").bind json_str).bind env.to_sql_type with
            | none => rw [hty] at h; simp at h
            | some type =>
              rw [hty] at h
              simp only [Option.some_bind] at h
              cases hn : field type_json "nullable" with
              | none => rw [hn] at h; simp at h
              | some nv =>
                rw [hn] at h
                simp only [Option.some_bind] at h
                cases hnb : json_bool nv with
                | none => rw [hnb] at h; simp at h
                | some nullable =>
                  rw [hnb] at h
                  simp only [Option.some_bind] at h
                  cases ho : field expr "operands" with
                  | none => rw [ho] at h; simp at h
                  | some ov =>
                    rw [ho] at h
                    simp only [Option.some_bind] at h
                    cases ov with
                    | arr elems =>
                      simp only [indices_from_json_array] at h
                      cases hm : elems.mapM' json_index with
                      | none => rw [hm] at h; simp at h
                      | some operands =>
                        rw [hm] at h
                        simp only [Option.map_some', Option.some.injEq] at h
                        subst h
                        refine ⟨type_json, elems, rfl, hshape.1, hshape.2, rfl, ?_, hty, ?_,
                          rfl, mapM'_option_length _ _ _ hm, ?_⟩
                        · rw [json_bool_some dv distinct hdb]
                        · rw [hn, json_bool_some nv nullable hnb]
                        · intro k e hk
                          obtain ⟨i, hi, hji⟩ := mapM'_option_getElem? _ _ _ hm k e hk
                          obtain ⟨h1, h2⟩ := json_index_some e i hji
                          exact ⟨i, h1, h2, hi⟩
                    | _ => simp [indices_from_json_array] at h

/-! ## Facts about well-formed node lists -/

theorem BackwardEdges.lt {nodes : List RelAlgNode} (hwf : BackwardEdges nodes) {k : Nat}
    {node : RelAlgNode} (hk : nodes[k]? = some node) {i : Nat} (hi : i ∈ node.inputs) :
    i < k := by
  obtain ⟨hlt, heq⟩ := List.getElem?_eq_some.mp hk
  have := hwf k hlt i
  rw [List.get_eq_getElem, heq] at this
  exact this hi

/-! ## Facts about the output-schema resolver -/

theorem n_outputs_length (node n : Nat) : (n_outputs node n).length = n := by
  simp [n_outputs]

theorem n_outputs_getElem? (node n i : Nat) (h : i < n) :
    (n_outputs node n)[i]? = some ⟨node, (i : Int)⟩ := by
  simp [n_outputs, List.getElem?_map, List.getElem?_range h]

theorem n_outputs_node (node n : Nat) (e : RexInput) (he : e ∈ n_outputs node n) :
    e.node = node := by
  simp only [n_outputs, List.mem_map] at he
  obtain ⟨i, _, rfl⟩ := he
  rfl

theorem get_node_output_fuel_succ (nodes : List RelAlgNode) :
    ∀ (fuel ra_node : Nat) (out : RANodeOutput),
      get_node_output_fuel nodes fuel ra_node = some out →
      get_node_output_fuel nodes (fuel + 1) ra_node = some out := by
  intro fuel
  induction fuel with
  | zero => intro ra_node out h; simp [get_node_output_fuel] at h
  | succ fuel ih =>
    intro ra_node out h
    rw [get_node_output_fuel] at h ⊢
    cases hn : nodes[ra_node]? with
    | none => rw [hn] at h; simp at h
    | some node =>
      rw [hn] at h
      cases node with
      | scan n => simpa using h
      | project n => simpa using h
      | aggregate n => simpa using h
      | filter n =>
        simp only at h ⊢
        cases hp : get_node_output_fuel nodes fuel n.input with
        | none => rw [hp] at h; simp at h
        | some prev_out =>
          rw [hp] at h
          rw [ih _ _ hp]
          exact h
      | join n =>
        simp only at h ⊢
        cases hl : get_node_output_fuel nodes fuel n.lhs with
        | none => rw [hl] at h; simp at h
        | some lhs_out =>
          rw [hl] at h
          cases hr : get_node_output_fuel nodes fuel n.rhs with
          | none => rw [hr] at h; simp at h
          | some rhs_out =>
            rw [hr] at h
            rw [ih _ _ hl, ih _ _ hr]
            exact h

theorem get_node_output_fuel_mono (nodes : List RelAlgNode) (fuel fuel' ra_node : Nat)
    (out : RANodeOutput) (hle : fuel ≤ fuel')
    (h : get_node_output_fuel nodes fuel ra_node = some out) :
    get_node_output_fuel nodes fuel' ra_node = some out := by
  induction hle with
  | refl => exact h
  | step _ ih => exact get_node_output_fuel_succ nodes _ _ _ ih

/-- On a list with backward edges the resolver returns for every node of the list, with
fuel one more than the position of the node. -/
theorem get_node_output_fuel_total (nodes : List RelAlgNode) (hwf : BackwardEdges nodes) :
    ∀ ra_node, ra_node < nodes.length →
      ∃ out, get_node_output_fuel nodes (ra_node + 1) ra_node = some out := by
  intro ra_node
  induction ra_node using Nat.strong_induction_on with
  | _ k ih =>
    intro hk
    have hget : nodes[k]? = some nodes[k] := List.getElem?_eq_getElem hk
    rw [get_node_output_fuel, hget]
    cases hn : nodes[k] with
    | scan n => exact ⟨_, rfl⟩
    | project n => exact ⟨_, rfl⟩
    | aggregate n => exact ⟨_, rfl⟩
    | filter n =>
      rw [hn] at hget
      have hlt : n.input < k := hwf.lt hget (by simp [RelAlgNode.inputs])
      obtain ⟨prev_out, hp⟩ := ih n.input hlt (by omega)
      have := get_node_output_fuel_mono nodes _ k _ _ (by omega) hp
      simp only [this]
      exact ⟨_, rfl⟩
    | join n =>
      rw [hn] at hget
      have hl : n.lhs < k := hwf.lt hget (by simp [RelAlgNode.inputs])
      have hr : n.rhs < k := hwf.lt hget (by simp [RelAlgNode.inputs])
      obtain ⟨lhs_out, hlo⟩ := ih n.lhs hl (by omega)
      obtain ⟨rhs_out, hro⟩ := ih n.rhs hr (by omega)
      have h1 := get_node_output_fuel_mono nodes _ k _ _ (by omega) hlo
      have h2 := get_node_output_fuel_mono nodes _ k _ _ (by omega) hro
      simp only [h1, h2]
      exact ⟨_, rfl⟩

theorem get_node_output_total (nodes : List RelAlgNode) (hwf : BackwardEdges nodes)
    (ra_node : Nat) (h : ra_node < nodes.length) :
    ∃ out, get_node_output nodes ra_node = some out := by
  obtain ⟨out, ho⟩ := get_node_output_fuel_total nodes hwf ra_node h
  exact ⟨out, get_node_output_fuel_mono nodes _ _ _ _ (by omega) ho⟩

/-- With backward edges, the fuel left for an input of a node of the list is enough: the
recursive call returns what `get_node_output` returns on the input. -/
theorem get_node_output_fuel_input (nodes : List RelAlgNode) (hwf : BackwardEdges nodes)
    (k i : Nat) (hk : k < nodes.length) (hi : i < k) :
    get_node_output_fuel nodes (nodes.length - 1) i = get_node_output nodes i := by
  obtain ⟨out, ho⟩ := get_node_output_fuel_total nodes hwf i (by omega)
  rw [get_node_output, get_node_output_fuel_mono nodes _ (nodes.length - 1) _ _ (by omega) ho,
    get_node_output_fuel_mono nodes _ nodes.length _ _ (by omega) ho]

theorem get_node_output_unfold (nodes : List RelAlgNode) (k : Nat) (hk : k < nodes.length) :
    get_node_output nodes k = get_node_output_fuel nodes (nodes.length - 1 + 1) k := by
  rw [get_node_output]
  congr 1
  omega

/-- Every entry of the resolved output of a node names the node itself or a node before it. -/
theorem get_node_output_fuel_node_le (nodes : List RelAlgNode) (hwf : BackwardEdges nodes) :
    ∀ (fuel ra_node : Nat) (out : RANodeOutput),
      get_node_output_fuel nodes fuel ra_node = some out → ∀ e ∈ out, e.node ≤ ra_node := by
  intro fuel
  induction fuel with
  | zero => intro ra_node out h; simp [get_node_output_fuel] at h
  | succ fuel ih =>
    intro ra_node out h e he
    rw [get_node_output_fuel] at h
    cases hn : nodes[ra_node]? with
    | none => rw [hn] at h; simp at h
    | some node =>
      rw [hn] at h
      cases node with
      | scan n =>
        simp only [Option.some.injEq] at h
        subst h
        exact le_of_eq (n_outputs_node _ _ _ he)
      | project n =>
        simp only [Option.some.injEq] at h
        subst h
        exact le_of_eq (n_outputs_node _ _ _ he)
      | aggregate n =>
        simp only [Option.some.injEq] at h
        subst h
        exact le_of_eq (n_outputs_node _ _ _ he)
      | filter n =>
        simp only at h
        cases hp : get_node_output_fuel nodes fuel n.input with
        | none => rw [hp] at h; simp at h
        | some prev_out =>
          rw [hp] at h
          simp only [Option.some.injEq] at h
          subst h
          exact le_of_eq (n_outputs_node _ _ _ he)
      | join n =>
        simp only at h
        have hl : n.lhs < ra_node := hwf.lt hn (by simp [RelAlgNode.inputs])
        have hr : n.rhs < ra_node := hwf.lt hn (by simp [RelAlgNode.inputs])
        cases hlo : get_node_output_fuel nodes fuel n.lhs with
        | none => rw [hlo] at h; simp at h
        | some lhs_out =>
          rw [hlo] at h
          cases hro : get_node_output_fuel nodes fuel n.rhs with
          | none => rw [hro] at h; simp at h
          | some rhs_out =>
            rw [hro] at h
            simp only [Option.some.injEq] at h
            subst h
            rcases List.mem_append.mp he with h1 | h1
            · have := ih _ _ hlo e h1
              omega
            · have := ih _ _ hro e h1
              omega

/-! ## Facts about the binder -/

theorem disambiguate_operands_getElem? (ra_output : Nat) :
    ∀ (operands bound : List RexScalar),
      disambiguate_operands operands ra_output = some bound →
      bound.length = operands.length ∧
      ∀ (k : Nat) (o : RexScalar), operands[k]? = some o →
        ∃ o2, bound[k]? = some o2 ∧ disambiguate_rex o ra_output = some o2 := by
  intro operands
  induction operands with
  | nil =>
    intro bound h
    rw [disambiguate_operands] at h
    simp only [Option.some.injEq] at h
    subst h
    simp
  | cons e rest ih =>
    intro bound h
    rw [disambiguate_operands] at h
    cases he : disambiguate_rex e ra_output with
    | none => rw [he] at h; simp at h
    | some r =>
      cases hr : disambiguate_operands rest ra_output with
      | none => rw [he, hr] at h; simp at h
      | some rs =>
        rw [he, hr] at h
        simp only [Option.some.injEq] at h
        subst h
        obtain ⟨hlen, hget⟩ := ih rs hr
        refine ⟨by simp [hlen], ?_⟩
        intro k o hk
        cases k with
        | zero =>
          simp only [List.getElem?_cons_zero, Option.some.injEq] at hk
          subst hk
          exact ⟨r, by simp, he⟩
        | succ k =>
          simp only [List.getElem?_cons_succ] at hk ⊢
          exact hget k o hk

theorem disambiguate_operands_eq_mapM' (ra_output : Nat) (operands : List RexScalar) :
    disambiguate_operands operands ra_output =
      operands.mapM' (fun o => disambiguate_rex o ra_output) := by
  induction operands with
  | nil => rw [disambiguate_operands]; rfl
  | cons e rest ih =>
    rw [disambiguate_operands, ih]
    simp only [List.mapM'_cons]
    cases disambiguate_rex e ra_output with
    | none => rfl
    | some r =>
      cases List.mapM' (fun o => disambiguate_rex o ra_output) rest with
      | none => rfl
      | some rs => rfl

/-- An AbstractInput at a path of an expression is, after `disambiguate_rex`, the Input on
the node the expression was rewritten against, with the same index, at the same path. -/
theorem disambiguate_rex_subexpr (ra_output : Nat) :
    ∀ (p : List Nat) (e e2 : RexScalar) (i : Int),
      disambiguate_rex e ra_output = some e2 →
      RexScalar.subexpr p e = some (.abstractInput i) →
      RexScalar.subexpr p e2 = some (.input ⟨ra_output, i⟩) := by
  intro p
  induction p with
  | nil =>
    intro e e2 i hd hs
    simp only [RexScalar.subexpr, Option.some.injEq] at hs
    subst hs
    rw [disambiguate_rex] at hd
    simp only [Option.some.injEq] at hd
    subst hd
    rfl
  | cons k p ih =>
    intro e e2 i hd hs
    cases e with
    | operator op operands =>
      rw [disambiguate_rex] at hd
      cases ho : disambiguate_operands operands ra_output with
      | none => rw [ho] at hd; simp at hd
      | some bound =>
        rw [ho] at hd
        simp only [Option.some.injEq] at hd
        subst hd
        simp only [RexScalar.subexpr] at hs ⊢
        cases hk : operands[k]? with
        | none => rw [hk] at hs; simp at hs
        | some o =>
          rw [hk] at hs
          simp only [Option.some_bind] at hs
          obtain ⟨o2, hb, hdo⟩ := (disambiguate_operands_getElem? ra_output operands bound ho).2 k o hk
          rw [hb]
          simp only [Option.some_bind]
          exact ih o o2 i hdo hs
    | abstractInput _ => simp [RexScalar.subexpr] at hs
    | input _ => simp [RexScalar.subexpr] at hs
    | literal _ => simp [RexScalar.subexpr] at hs
    | agg _ => simp [RexScalar.subexpr] at hs

mutual

/-- The rewriting succeeds on an expression built only from AbstractInput, Operator and
Literal, and the result has the shape of the expression. -/
theorem disambiguate_rex_same_shape (ra_output : Nat) :
    ∀ e : RexScalar, e.unbound_only = true →
      ∃ e2, disambiguate_rex e ra_output = some e2 ∧
        RexScalar.same_shape ra_output e e2 = true
  | .abstractInput i, _ => ⟨.input ⟨ra_output, i⟩, by rw [disambiguate_rex], by
      simp [RexScalar.same_shape]⟩
  | .literal l, _ => ⟨.literal l, by rw [disambiguate_rex], by simp [RexScalar.same_shape]⟩
  | .operator op operands, h => by
    rw [RexScalar.unbound_only] at h
    obtain ⟨bound, hb, hs⟩ := disambiguate_operands_same_shape ra_output operands h
    refine ⟨.operator op bound, ?_, ?_⟩
    · rw [disambiguate_rex, hb]
    · simp [RexScalar.same_shape, hs]
  | .input _, h => by simp [RexScalar.unbound_only] at h
  | .agg _, h => by simp [RexScalar.unbound_only] at h

theorem disambiguate_operands_same_shape (ra_output : Nat) :
    ∀ operands : List RexScalar, RexScalar.all_unbound_only operands = true →
      ∃ bound, disambiguate_operands operands ra_output = some bound ∧
        RexScalar.all_same_shape ra_output operands bound = true
  | [], _ => ⟨[], by rw [disambiguate_operands], by simp [RexScalar.all_same_shape]⟩
  | e :: rest, h => by
    rw [RexScalar.all_unbound_only, Bool.and_eq_true] at h
    obtain ⟨e2, he, hs⟩ := disambiguate_rex_same_shape ra_output e h.1
    obtain ⟨bound, hb, hss⟩ := disambiguate_operands_same_shape ra_output rest h.2
    refine ⟨e2 :: bound, ?_, ?_⟩
    · rw [disambiguate_operands, he, hb]
    · simp [RexScalar.all_same_shape, hs, hss]

end

theorem bind_inputs_getElem? :
    ∀ (nodes bound : List RelAlgNode), bind_inputs nodes = some bound →
      bound.length = nodes.length ∧
      ∀ (k : Nat) (node : RelAlgNode), nodes[k]? = some node →
        ∃ node2, bound[k]? = some node2 ∧ bind_node node = some node2 := by
  intro nodes
  induction nodes with
  | nil =>
    intro bound h
    rw [bind_inputs] at h
    simp only [Option.some.injEq] at h
    subst h
    simp
  | cons e rest ih =>
    intro bound h
    rw [bind_inputs] at h
    cases he : bind_node e with
    | none => rw [he] at h; simp at h
    | some r =>
      cases hr : bind_inputs rest with
      | none => rw [he, hr] at h; simp at h
      | some rs =>
        rw [he, hr] at h
        simp only [Option.some.injEq] at h
        subst h
        obtain ⟨hlen, hget⟩ := ih rs hr
        refine ⟨by simp [hlen], ?_⟩
        intro k node hk
        cases k with
        | zero =>
          simp only [List.getElem?_cons_zero, Option.some.injEq] at hk
          subst hk
          exact ⟨r, by simp, he⟩
        | succ k =>
          simp only [List.getElem?_cons_succ] at hk ⊢
          exact hget k node hk

/-- The output of a node that is not a Join is `n_outputs` on the node itself. -/
theorem get_node_output_not_join (nodes : List RelAlgNode) (n : Nat) (node : RelAlgNode)
    (out : RANodeOutput) (hn : nodes[n]? = some node) (hnj : node.isJoin = false)
    (hout : get_node_output nodes n = some out) : out = n_outputs n out.length := by
  have hlt : n < nodes.length := (List.getElem?_eq_some.mp hn).1
  rw [get_node_output_unfold nodes n hlt, get_node_output_fuel, hn] at hout
  cases node with
  | scan s =>
    simp only [Option.some.injEq] at hout
    rw [← hout, n_outputs_length]
  | project s =>
    simp only [Option.some.injEq] at hout
    rw [← hout, n_outputs_length]
  | aggregate s =>
    simp only [Option.some.injEq] at hout
    rw [← hout, n_outputs_length]
  | filter s =>
    simp only at hout
    cases hp : get_node_output_fuel nodes (nodes.length - 1) s.input with
    | none => rw [hp] at hout; simp at hout
    | some prev_out =>
      rw [hp] at hout
      simp only [Option.some.injEq] at hout
      rw [← hout, n_outputs_length]
  | join s => simp [RelAlgNode.isJoin] at hnj

/-! ## Facts about the builder -/

theorem run_step_some (env : Env) (nodes_ nodes_next : List RelAlgNode) (crt_node : Json)
    (h : run_step env nodes_ crt_node = some nodes_next) :
    node_id crt_node = some nodes_.length ∧ ∃ ra_node, nodes_next = nodes_ ++ [ra_node] := by
  unfold run_step at h
  cases hid : node_id crt_node with
  | none => rw [hid] at h; simp at h
  | some id =>
    rw [hid] at h
    simp only [Option.some_bind] at h
    by_cases hne : id ≠ nodes_.length
    · rw [if_pos hne] at h
      simp at h
    · rw [if_neg hne] at h
      have hid2 : id = nodes_.length := by
        by_contra hc
        exact hne hc
      refine ⟨by rw [hid2], ?_⟩
      split at h
      · simp at h
      · cases hop : ((field crt_node "relOp").bind json_str) with
        | none => rw [hop] at h; simp at h
        | some rel_op =>
          rw [hop] at h
          simp only [Option.some_bind] at h
          cases hd : dispatch env nodes_ rel_op crt_node with
          | none => rw [hd] at h; simp at h
          | some ra_node =>
            rw [hd] at h
            simp only [Option.map_some', Option.some.injEq] at h
            exact ⟨ra_node, h.symm⟩

theorem run_loop_some (env : Env) :
    ∀ (rels : List Json) (nodes_ out : List RelAlgNode),
      run_loop env rels nodes_ = some out →
      out.length = nodes_.length + rels.length ∧
      ∀ i (h : i < rels.length), node_id (rels.get ⟨i, h⟩) = some (nodes_.length + i) := by
  intro rels
  induction rels with
  | nil =>
    intro nodes_ out h
    rw [run_loop] at h
    simp only [Option.some.injEq] at h
    subst h
    refine ⟨by simp, ?_⟩
    intro i hi
    simp at hi
  | cons crt_node rest ih =>
    intro nodes_ out h
    rw [run_loop] at h
    cases hs : run_step env nodes_ crt_node with
    | none => rw [hs] at h; simp at h
    | some nodes_next =>
      rw [hs] at h
      simp only at h
      obtain ⟨hid, ra_node, hnext⟩ := run_step_some env _ _ _ hs
      obtain ⟨hlen, hids⟩ := ih nodes_next out h
      subst hnext
      simp only [List.length_append, List.length_singleton, List.length_cons,
        List.length_nil] at hlen hids ⊢
      refine ⟨by omega, ?_⟩
      intro i hi
      cases i with
      | zero => simpa using hid
      | succ i =>
        have := hids i (by omega)
        simp only [List.get_eq_getElem, List.getElem_cons_succ] at this ⊢
        rw [this]
        congr 1
        omega

theorem coalesce_nodes_some (nodes out : List RelAlgNode)
    (h : coalesce_nodes nodes = some out) : out = nodes := by
  unfold coalesce_nodes at h
  cases hl : coalesce_loop nodes 0 .Initial [] with
  | none => rw [hl] at h; simp at h
  | some st =>
    rw [hl] at h
    simp only [Option.some.injEq] at h
    exact h.symm

/-- What a successful `run` went through: the entries of "rels", the list the factory
built from them, and the bound list, which is the one left in `nodes_`. -/
theorem run_some (env : Env) (query_ast : Json) (r : RunResult)
    (h : run env query_ast = some r) :
    ∃ entries nodes_,
      field query_ast "rels" = some (.arr entries) ∧
      run_loop env entries [] = some nodes_ ∧
      nodes_ ≠ [] ∧
      bind_inputs nodes_ = some r.nodes_ ∧
      coalesce_nodes r.nodes_ = some r.nodes_ ∧
      r.root = r.nodes_.length - 1 := by
  unfold run at h
  cases hb : build_nodes env query_ast with
  | none => rw [hb] at h; simp at h
  | some nodes_ =>
    rw [hb] at h
    simp only [Option.some_bind] at h
    split at h
    · simp at h
    · rename_i hne
      cases hbi : bind_inputs nodes_ with
      | none => rw [hbi] at h; simp at h
      | some bound =>
        rw [hbi] at h
        simp only [Option.some_bind] at h
        cases hc : coalesce_nodes bound with
        | none => rw [hc] at h; simp at h
        | some coalesced =>
          rw [hc] at h
          simp only [Option.map_some', Option.some.injEq] at h
          have hco := coalesce_nodes_some _ _ hc
          subst hco
          subst h
          unfold build_nodes at hb
          cases hf : field query_ast "rels" with
          | none => rw [hf] at hb; simp at hb
          | some rels =>
            rw [hf] at hb
            simp only [Option.some_bind] at hb
            cases rels with
            | arr entries =>
              simp only at hb
              refine ⟨entries, nodes_, rfl, hb, ?_, hbi, hc, rfl⟩
              intro hnil
              apply hne
              rw [hnil]
              rfl
            | _ => simp at hb

theorem prev_lt (nodes_ : List RelAlgNode) (crt_node : Json) (i : Nat)
    (h : prev nodes_ crt_node = some i) : i < nodes_.length := by
  unfold prev at h
  cases hid : node_id crt_node with
  | none => rw [hid] at h; simp at h
  | some id =>
    rw [hid] at h
    simp only [Option.some_bind] at h
    split at h
    · simp at h
    · split at h
      · simp at h
      · simp only [Option.some.injEq] at h
        omega

theorem dispatch_inputs_lt (env : Env) (nodes_ : List RelAlgNode) (rel_op : String)
    (crt_node : Json) (ra_node : RelAlgNode)
    (h : dispatch env nodes_ rel_op crt_node = some ra_node) :
    ∀ i ∈ ra_node.inputs, i < nodes_.length := by
  unfold dispatch at h
  split at h
  · cases hd : dispatchTableScan env crt_node with
    | none => rw [hd] at h; simp at h
    | some n =>
      rw [hd] at h
      simp only [Option.map_some', Option.some.injEq] at h
      subst h
      simp [RelAlgNode.inputs]
  · split at h
    · cases hd : dispatchProject env nodes_ crt_node with
      | none => rw [hd] at h; simp at h
      | some n =>
        rw [hd] at h
        simp only [Option.map_some', Option.some.injEq] at h
        subst h
        unfold dispatchProject at hd
        cases hf : field crt_node "exprs" with
        | none => rw [hf] at hd; simp at hd
        | some exprs_json =>
          rw [hf] at hd
          simp only [Option.some_bind] at hd
          cases exprs_json with
          | arr elems =>
            simp only [Option.bind_eq_some, Option.map_eq_some'] at hd
            obtain ⟨_, _, _, _, _, _, input, hp, hn⟩ := hd
            subst hn
            simpa [RelAlgNode.inputs] using prev_lt _ _ _ hp
          | _ => simp at hd
    · split at h
      · cases hd : dispatchFilter env nodes_ crt_node with
        | none => rw [hd] at h; simp at h
        | some n =>
          rw [hd] at h
          simp only [Option.map_some', Option.some.injEq] at h
          subst h
          unfold dispatchFilter at hd
          simp only [Option.bind_eq_some] at hd
          obtain ⟨id, _, hd⟩ := hd
          split at hd
          · simp at hd
          · simp only [Option.bind_eq_some, Option.map_eq_some'] at hd
            obtain ⟨_, _, input, hp, hn⟩ := hd
            subst hn
            simpa [RelAlgNode.inputs] using prev_lt _ _ _ hp
      · split at h
        · cases hd : dispatchAggregate env nodes_ crt_node with
          | none => rw [hd] at h; simp at h
          | some n =>
            rw [hd] at h
            simp only [Option.map_some', Option.some.injEq] at h
            subst h
            unfold dispatchAggregate at hd
            simp only [Option.bind_eq_some] at hd
            obtain ⟨_, _, _, _, aggs_json_arr, _, hd⟩ := hd
            cases aggs_json_arr with
            | arr elems =>
              simp only [Option.bind_eq_some, Option.map_eq_some'] at hd
              obtain ⟨_, _, input, hp, hn⟩ := hd
              subst hn
              simpa [RelAlgNode.inputs] using prev_lt _ _ _ hp
            | _ => simp at hd
        · split at h
          · cases hd : dispatchJoin env nodes_ crt_node with
            | none => rw [hd] at h; simp at h
            | some n =>
              rw [hd] at h
              simp only [Option.map_some', Option.some.injEq] at h
              subst h
              unfold dispatchJoin at hd
              simp only [Option.bind_eq_some] at hd
              obtain ⟨_, _, _, _, str_input_indices, _, hd⟩ := hd
              split at hd
              · simp only [Option.bind_eq_some] at hd
                obtain ⟨index0, _, index1, _, hd⟩ := hd
                split at hd
                · rename_i hlt
                  simp only [Option.some.injEq] at hd
                  subst hd
                  intro i hi
                  simp only [RelAlgNode.inputs, List.mem_cons, List.mem_singleton,
                    List.not_mem_nil, or_false] at hi
                  rcases hi with hi | hi
                  · rw [hi]; exact hlt.1
                  · rw [hi]; exact hlt.2
                · simp at hd
              · simp at hd
          · simp at h

theorem BackwardEdges.append (nodes_ : List RelAlgNode) (ra_node : RelAlgNode)
    (hwf : BackwardEdges nodes_) (hin : ∀ i ∈ ra_node.inputs, i < nodes_.length) :
    BackwardEdges (nodes_ ++ [ra_node]) := by
  intro k hk i hi
  rw [List.get_eq_getElem] at hi
  by_cases hlt : k < nodes_.length
  · rw [List.getElem_append_left hlt] at hi
    have := hwf k hlt i
    rw [List.get_eq_getElem] at this
    exact this hi
  · have hk2 : k = nodes_.length := by
      simp only [List.length_append, List.length_singleton] at hk
      omega
    have hget : (nodes_ ++ [ra_node])[k] = ra_node := by
      simp [hk2]
    rw [hget] at hi
    have := hin i hi
    omega

theorem run_step_backward_edges (env : Env) (nodes_ nodes_next : List RelAlgNode)
    (crt_node : Json) (hwf : BackwardEdges nodes_)
    (h : run_step env nodes_ crt_node = some nodes_next) : BackwardEdges nodes_next := by
  unfold run_step at h
  simp only [Option.bind_eq_some] at h
  obtain ⟨id, _, h⟩ := h
  split at h
  · simp at h
  · split at h
    · simp at h
    · simp only [Option.bind_eq_some, Option.map_eq_some'] at h
      obtain ⟨rel_op, _, ra_node, hd, hn⟩ := h
      subst hn
      exact hwf.append _ _ (dispatch_inputs_lt env _ _ _ _ hd)

theorem run_loop_backward_edges (env : Env) :
    ∀ (rels : List Json) (nodes_ out : List RelAlgNode), BackwardEdges nodes_ →
      run_loop env rels nodes_ = some out → BackwardEdges out := by
  intro rels
  induction rels with
  | nil =>
    intro nodes_ out hwf h
    rw [run_loop] at h
    simp only [Option.some.injEq] at h
    subst h
    exact hwf
  | cons crt_node rest ih =>
    intro nodes_ out hwf h
    rw [run_loop] at h
    cases hs : run_step env nodes_ crt_node with
    | none => rw [hs] at h; simp at h
    | some nodes_next =>
      rw [hs] at h
      exact ih nodes_next out (run_step_backward_edges env _ _ _ hwf hs) h

theorem bind_node_inputs (node node2 : RelAlgNode) (h : bind_node node = some node2) :
    node2.inputs = node.inputs := by
  cases node with
  | filter f =>
    rw [bind_node] at h
    cases hd : disambiguate_rex f.condition f.input with
    | none => rw [hd] at h; simp at h
    | some c =>
      rw [hd] at h
      simp only [Option.some.injEq] at h
      subst h
      rfl
  | project f =>
    rw [bind_node] at h
    cases hd : disambiguate_operands f.scalar_exprs f.input with
    | none => rw [hd] at h; simp at h
    | some c =>
      rw [hd] at h
      simp only [Option.some.injEq] at h
      subst h
      rfl
  | scan f =>
    have hb : bind_node (.scan f) = some (.scan f) := rfl
    rw [hb] at h
    simp only [Option.some.injEq] at h
    subst h
    rfl
  | aggregate f =>
    have hb : bind_node (.aggregate f) = some (.aggregate f) := rfl
    rw [hb] at h
    simp only [Option.some.injEq] at h
    subst h
    rfl
  | join f =>
    have hb : bind_node (.join f) = some (.join f) := rfl
    rw [hb] at h
    simp only [Option.some.injEq] at h
    subst h
    rfl

theorem bind_inputs_backward_edges (nodes bound : List RelAlgNode)
    (hwf : BackwardEdges nodes) (h : bind_inputs nodes = some bound) :
    BackwardEdges bound := by
  obtain ⟨hlen, hget⟩ := bind_inputs_getElem? nodes bound h
  intro k hk i hi
  have hk2 : k < nodes.length := by omega
  obtain ⟨node2, hb, hbn⟩ := hget k nodes[k] (List.getElem?_eq_getElem hk2)
  rw [List.getElem?_eq_getElem hk, Option.some.injEq] at hb
  rw [List.get_eq_getElem, hb, bind_node_inputs _ _ hbn] at hi
  have := hwf k hk2 i
  rw [List.get_eq_getElem] at this
  exact this hi

/-- The node list a successful `run` leaves has backward edges. -/
theorem run_backward_edges (env : Env) (query_ast : Json) (r : RunResult)
    (h : run env query_ast = some r) : BackwardEdges r.nodes_ := by
  obtain ⟨entries, nodes_, _, hloop, _, hbind, _, _⟩ := run_some env query_ast r h
  have h0 : BackwardEdges ([] : List RelAlgNode) := by
    intro k hk
    simp at hk
  exact bind_inputs_backward_edges nodes_ r.nodes_
    (run_loop_backward_edges env entries [] nodes_ h0 hloop) hbind

/-! ### What each dispatcher has read -/

theorem stoi_range (str : String) (v : Int) (h : stoi str = some v) :
    -2 ^ 31 ≤ v ∧ v < 2 ^ 31 := by
  unfold stoi at h
  dsimp only at h
  split_ifs at h with h1 h2 h3
  all_goals
    cases h
    assumption

theorem to_size_t_nonneg (v : Int) (h0 : 0 ≤ v) (h1 : v < 2 ^ 31) :
    to_size_t v = v.toNat := by
  unfold to_size_t
  rw [Int.emod_eq_of_lt h0 (by omega)]

theorem to_size_t_neg (v : Int) (h0 : v < 0) (h1 : -2 ^ 31 ≤ v) :
    2 ^ 64 - 2 ^ 31 ≤ to_size_t v := by
  unfold to_size_t
  have h2 : v % 2 ^ 64 = v + 2 ^ 64 := by
    rw [← Int.add_mul_emod_self_left v (2 ^ 64) 1, mul_one]
    exact Int.emod_eq_of_lt (by omega) (by omega)
  rw [h2]
  omega

theorem prev_some (nodes_ : List RelAlgNode) (crt_node : Json) (i : Nat)
    (h : prev nodes_ crt_node = some i) :
    node_id crt_node = some nodes_.length ∧ nodes_.length ≠ 0 ∧ i = nodes_.length - 1 := by
  unfold prev at h
  cases hid : node_id crt_node with
  | none => rw [hid] at h; simp at h
  | some id =>
    rw [hid] at h
    simp only [Option.some_bind] at h
    split at h
    · simp at h
    · split at h
      · simp at h
      · rename_i h0 hne
        simp only [Option.some.injEq] at h
        have hid2 : id = nodes_.length := by
          by_contra hc
          exact hne hc
        subst hid2
        exact ⟨rfl, h0, h.symm⟩

theorem dispatchProject_input (env : Env) (nodes_ : List RelAlgNode) (proj_ra : Json)
    (n : RelProject) (h : dispatchProject env nodes_ proj_ra = some n) :
    prev nodes_ proj_ra = some n.input := by
  unfold dispatchProject at h
  cases hf : field proj_ra "exprs" with
  | none => rw [hf] at h; simp at h
  | some exprs_json =>
    rw [hf] at h
    simp only [Option.some_bind] at h
    cases exprs_json with
    | arr elems =>
      simp only [Option.bind_eq_some, Option.map_eq_some'] at h
      obtain ⟨_, _, _, _, _, _, input, hp, hn⟩ := h
      subst hn
      exact hp
    | _ => simp at h

theorem dispatchFilter_input (env : Env) (nodes_ : List RelAlgNode) (filter_ra : Json)
    (n : RelFilter) (h : dispatchFilter env nodes_ filter_ra = some n) :
    prev nodes_ filter_ra = some n.input := by
  unfold dispatchFilter at h
  simp only [Option.bind_eq_some] at h
  obtain ⟨id, _, h⟩ := h
  split at h
  · simp at h
  · simp only [Option.bind_eq_some, Option.map_eq_some'] at h
    obtain ⟨_, _, input, hp, hn⟩ := h
    subst hn
    exact hp

theorem dispatchAggregate_input (env : Env) (nodes_ : List RelAlgNode) (agg_ra : Json)
    (n : RelAggregate) (h : dispatchAggregate env nodes_ agg_ra = some n) :
    prev nodes_ agg_ra = some n.input := by
  unfold dispatchAggregate at h
  simp only [Option.bind_eq_some] at h
  obtain ⟨_, _, _, _, aggs_json_arr, _, h⟩ := h
  cases aggs_json_arr with
  | arr elems =>
    simp only [Option.bind_eq_some, Option.map_eq_some'] at h
    obtain ⟨_, _, input, hp, hn⟩ := h
    subst hn
    exact hp
  | _ => simp at h

/-- What a successful `dispatchJoin` has read: a join type, exactly two input strings,
both decoded by `std::stoi` and, as `size_t`, below the number of nodes built so far. -/
theorem dispatchJoin_some (env : Env) (nodes_ : List RelAlgNode) (join_ra : Json)
    (n : RelJoin) (h : dispatchJoin env nodes_ join_ra = some n) :
    ∃ str_index0 str_index1 index0 index1,
      ((field join_ra "joinType").bind json_str).bind to_join_type = some n.join_type ∧
      (field join_ra "condition").bind (parse_scalar_expr env) = some n.condition ∧
      (field join_ra "inputs").bind strings_from_json_array =
        some [str_index0, str_index1] ∧
      stoi str_index0 = some index0 ∧ stoi str_index1 = some index1 ∧
      to_size_t index0 < nodes_.length ∧ to_size_t index1 < nodes_.length ∧
      n.lhs = to_size_t index0 ∧ n.rhs = to_size_t index1 := by
  unfold dispatchJoin at h
  cases hj : ((field join_ra "joinType").bind json_str).bind to_join_type with
  | none => rw [hj] at h; simp at h
  | some join_type =>
    rw [hj] at h
    simp only [Option.some_bind] at h
    cases hc : (field join_ra "condition").bind (parse_scalar_expr env) with
    | none => rw [hc] at h; simp at h
    | some filter_rex =>
      rw [hc] at h
      simp only [Option.some_bind] at h
      cases hi : (field join_ra "inputs").bind strings_from_json_array with
      | none => rw [hi] at h; simp at h
      | some str_input_indices =>
        rw [hi] at h
        simp only [Option.some_bind] at h
        split at h
        · rename_i str_index0 str_index1
          cases h0 : stoi str_index0 with
          | none => rw [h0] at h; simp at h
          | some index0 =>
            cases h1 : stoi str_index1 with
            | none => rw [h0, h1] at h; simp at h
            | some index1 =>
              rw [h0, h1] at h
              simp only [Option.some_bind] at h
              split at h
              · rename_i hlt
                simp only [Option.some.injEq] at h
                subst h
                exact ⟨str_index0, str_index1, index0, index1, rfl, rfl, rfl, h0, h1,
                  hlt.1, hlt.2, rfl, rfl⟩
              · simp at h
        · simp at h

/-- The branch `dispatch` took, read off the kind of the node it built. -/
theorem dispatch_cases (env : Env) (nodes_ : List RelAlgNode) (rel_op : String)
    (crt_node : Json) (ra_node : RelAlgNode)
    (h : dispatch env nodes_ rel_op crt_node = some ra_node) :
    (rel_op = "LogicalTableScan" ∧
      ∃ n, ra_node = .scan n ∧ dispatchTableScan env crt_node = some n) ∨
    (rel_op = "LogicalProject" ∧
      ∃ n, ra_node = .project n ∧ dispatchProject env nodes_ crt_node = some n) ∨
    (rel_op = "LogicalFilter" ∧
      ∃ n, ra_node = .filter n ∧ dispatchFilter env nodes_ crt_node = some n) ∨
    (rel_op = "LogicalAggregate" ∧
      ∃ n, ra_node = .aggregate n ∧ dispatchAggregate env nodes_ crt_node = some n) ∨
    (rel_op = "LogicalJoin" ∧
      ∃ n, ra_node = .join n ∧ dispatchJoin env nodes_ crt_node = some n) := by
  unfold dispatch at h
  split at h
  · rename_i hop
    simp only [Option.map_eq_some'] at h
    obtain ⟨n, hd, hn⟩ := h
    exact Or.inl ⟨hop, n, hn.symm, hd⟩
  · split at h
    · rename_i hop
      simp only [Option.map_eq_some'] at h
      obtain ⟨n, hd, hn⟩ := h
      exact Or.inr (Or.inl ⟨hop, n, hn.symm, hd⟩)
    · split at h
      · rename_i hop
        simp only [Option.map_eq_some'] at h
        obtain ⟨n, hd, hn⟩ := h
        exact Or.inr (Or.inr (Or.inl ⟨hop, n, hn.symm, hd⟩))
      · split at h
        · rename_i hop
          simp only [Option.map_eq_some'] at h
          obtain ⟨n, hd, hn⟩ := h
          exact Or.inr (Or.inr (Or.inr (Or.inl ⟨hop, n, hn.symm, hd⟩)))
        · split at h
          · rename_i hop
            simp only [Option.map_eq_some'] at h
            obtain ⟨n, hd, hn⟩ := h
            exact Or.inr (Or.inr (Or.inr (Or.inr ⟨hop, n, hn.symm, hd⟩)))
          · simp at h

theorem run_step_dispatch (env : Env) (nodes_ nodes_next : List RelAlgNode)
    (crt_node : Json) (h : run_step env nodes_ crt_node = some nodes_next) :
    ∃ rel_op ra_node,
      node_id crt_node = some nodes_.length ∧
      (field crt_node "relOp").bind json_str = some rel_op ∧
      dispatch env nodes_ rel_op crt_node = some ra_node ∧
      nodes_next = nodes_ ++ [ra_node] := by
  unfold run_step at h
  simp only [Option.bind_eq_some] at h
  obtain ⟨id, hid, h⟩ := h
  split at h
  · simp at h
  · rename_i hne
    split at h
    · simp at h
    · simp only [Option.bind_eq_some, Option.map_eq_some'] at h
      obtain ⟨rel_op, hop, ra_node, hd, hn⟩ := h
      have hid2 : id = nodes_.length := by
        by_contra hc
        exact hne hc
      subst hid2
      refine ⟨rel_op, ra_node, hid, ?_, hd, hn.symm⟩
      simp only [Option.bind_eq_some]
      exact hop

/-! ### The node built from each entry -/

theorem run_loop_prefix (env : Env) :
    ∀ (rels : List Json) (nodes_ out : List RelAlgNode),
      run_loop env rels nodes_ = some out →
      ∃ suffix, out = nodes_ ++ suffix ∧ suffix.length = rels.length := by
  intro rels
  induction rels with
  | nil =>
    intro nodes_ out h
    rw [run_loop] at h
    simp only [Option.some.injEq] at h
    subst h
    exact ⟨[], by simp, rfl⟩
  | cons crt_node rest ih =>
    intro nodes_ out h
    rw [run_loop] at h
    cases hs : run_step env nodes_ crt_node with
    | none => rw [hs] at h; simp at h
    | some nodes_next =>
      rw [hs] at h
      obtain ⟨_, ra_node, hnext⟩ := run_step_some env _ _ _ hs
      obtain ⟨suffix, hout, hlen⟩ := ih nodes_next out h
      subst hnext
      exact ⟨ra_node :: suffix, by simp [hout], by simp [hlen]⟩

/-- The entry at position `i` of "rels" is dispatched on the nodes built from the entries
before it, and the node it yields is the node at position `i` of the list built. -/
theorem run_loop_node (env : Env) :
    ∀ (rels : List Json) (nodes_ out : List RelAlgNode),
      run_loop env rels nodes_ = some out →
      ∀ (i : Nat) (crt_node : Json), rels[i]? = some crt_node →
        ∃ rel_op ra_node,
          node_id crt_node = some (nodes_.length + i) ∧
          (field crt_node "relOp").bind json_str = some rel_op ∧
          dispatch env (out.take (nodes_.length + i)) rel_op crt_node = some ra_node ∧
          out[nodes_.length + i]? = some ra_node := by
  intro rels
  induction rels with
  | nil =>
    intro nodes_ out _ i crt_node hi
    simp at hi
  | cons first rest ih =>
    intro nodes_ out h i crt_node hi
    rw [run_loop] at h
    cases hs : run_step env nodes_ first with
    | none => rw [hs] at h; simp at h
    | some nodes_next =>
      rw [hs] at h
      simp only at h
      obtain ⟨rel_op, ra_node, hid, hop, hd, hnext⟩ := run_step_dispatch env _ _ _ hs
      obtain ⟨suffix, hout, _⟩ := run_loop_prefix env rest nodes_next out h
      cases i with
      | zero =>
        simp only [List.getElem?_cons_zero, Option.some.injEq] at hi
        subst hi
        refine ⟨rel_op, ra_node, by simpa using hid, hop, ?_, ?_⟩
        · rw [hout, hnext]
          simpa using hd
        · rw [hout, hnext]
          simp only [Nat.add_zero, List.append_assoc, List.singleton_append]
          rw [List.getElem?_append_right (le_refl _)]
          simp
      | succ i =>
        simp only [List.getElem?_cons_succ] at hi
        obtain ⟨rel_op2, ra_node2, hid2, hop2, hd2, hget2⟩ := ih nodes_next out h i crt_node hi
        have hlen : nodes_next.length + i = nodes_.length + (i + 1) := by
          rw [hnext]
          simp only [List.length_append, List.length_singleton]
          omega
        rw [hlen] at hid2 hd2 hget2
        exact ⟨rel_op2, ra_node2, hid2, hop2, hd2, hget2⟩

/-! ### What binding keeps of a node -/

theorem bind_node_kind (node node2 : RelAlgNode) (h : bind_node node = some node2) :
    node2.isProject = node.isProject ∧ node2.isFilter = node.isFilter ∧
    node2.isAggregate = node.isAggregate ∧ node2.isJoin = node.isJoin := by
  cases node with
  | filter f =>
    rw [bind_node] at h
    cases hd : disambiguate_rex f.condition f.input with
    | none => rw [hd] at h; simp at h
    | some c =>
      rw [hd] at h
      simp only [Option.some.injEq] at h
      subst h
      exact ⟨rfl, rfl, rfl, rfl⟩
  | project f =>
    rw [bind_node] at h
    cases hd : disambiguate_operands f.scalar_exprs f.input with
    | none => rw [hd] at h; simp at h
    | some c =>
      rw [hd] at h
      simp only [Option.some.injEq] at h
      subst h
      exact ⟨rfl, rfl, rfl, rfl⟩
  | scan f =>
    have hb : bind_node (.scan f) = some (.scan f) := rfl
    rw [hb] at h
    simp only [Option.some.injEq] at h
    subst h
    exact ⟨rfl, rfl, rfl, rfl⟩
  | aggregate f =>
    have hb : bind_node (.aggregate f) = some (.aggregate f) := rfl
    rw [hb] at h
    simp only [Option.some.injEq] at h
    subst h
    exact ⟨rfl, rfl, rfl, rfl⟩
  | join f =>
    have hb : bind_node (.join f) = some (.join f) := rfl
    rw [hb] at h
    simp only [Option.some.injEq] at h
    subst h
    exact ⟨rfl, rfl, rfl, rfl⟩

/-- A Join of the bound list is the Join the factory built. -/
theorem bind_node_join (node : RelAlgNode) (join_node : RelJoin)
    (h : bind_node node = some (.join join_node)) : node = .join join_node := by
  cases node with
  | filter f =>
    rw [bind_node] at h
    cases hd : disambiguate_rex f.condition f.input with
    | none => rw [hd] at h; simp at h
    | some c => rw [hd] at h; simp at h
  | project f =>
    rw [bind_node] at h
    cases hd : disambiguate_operands f.scalar_exprs f.input with
    | none => rw [hd] at h; simp at h
    | some c => rw [hd] at h; simp at h
  | scan f =>
    have hb : bind_node (.scan f) = some (.scan f) := rfl
    rw [hb] at h
    simp at h
  | aggregate f =>
    have hb : bind_node (.aggregate f) = some (.aggregate f) := rfl
    rw [hb] at h
    simp at h
  | join f =>
    have hb : bind_node (.join f) = some (.join f) := rfl
    rw [hb] at h
    simp only [Option.some.injEq, RelAlgNode.join.injEq] at h
    rw [h]

/-- The node at a position of the list a successful `run` leaves is the bound form of the
node that `dispatch` built from the entry at that position, on the nodes before it. -/
theorem run_node (env : Env) (query_ast : Json) (r : RunResult)
    (h : run env query_ast = some r) (k : Nat) (node : RelAlgNode)
    (hk : r.nodes_[k]? = some node) :
    ∃ entries built crt_node rel_op ra_node,
      field query_ast "rels" = some (.arr entries) ∧
      run_loop env entries [] = some built ∧
      entries[k]? = some crt_node ∧
      node_id crt_node = some k ∧
      (field crt_node "relOp").bind json_str = some rel_op ∧
      dispatch env (built.take k) rel_op crt_node = some ra_node ∧
      (built.take k).length = k ∧
      bind_node ra_node = some node := by
  obtain ⟨entries, built, hf, hloop, _, hbind, _, _⟩ := run_some env query_ast r h
  obtain ⟨hblen, hbget⟩ := bind_inputs_getElem? built r.nodes_ hbind
  obtain ⟨hlen, _⟩ := run_loop_some env entries [] built hloop
  have hklt : k < r.nodes_.length := (List.getElem?_eq_some.mp hk).1
  have hkb : k < built.length := by omega
  have hke : k < entries.length := by
    simp only [List.length_nil, Nat.zero_add] at hlen
    omega
  obtain ⟨rel_op, ra_node, hid, hop, hd, hget⟩ :=
    run_loop_node env entries [] built hloop k entries[k] (List.getElem?_eq_getElem hke)
  simp only [List.length_nil, Nat.zero_add] at hid hd hget
  obtain ⟨node2, hn2, hbn⟩ := hbget k ra_node hget
  rw [hk] at hn2
  simp only [Option.some.injEq] at hn2
  subst hn2
  exact ⟨entries, built, entries[k], rel_op, ra_node, hf, hloop,
    List.getElem?_eq_getElem hke, hid, hop, hd, by simp; omega, hbn⟩

/-- Every entry of "rels" of a successful `run` was dispatched, on the nodes built from
the entries before it. -/
theorem run_entry (env : Env) (query_ast : Json) (r : RunResult)
    (h : run env query_ast = some r) (entries : List Json)
    (hrels : field query_ast "rels" = some (.arr entries)) (k : Nat) (crt_node : Json)
    (hk : entries[k]? = some crt_node) :
    ∃ (built : List RelAlgNode) (rel_op : String) (ra_node : RelAlgNode),
      (built.take k).length = k ∧
      (field crt_node "relOp").bind json_str = some rel_op ∧
      dispatch env (built.take k) rel_op crt_node = some ra_node := by
  obtain ⟨entries2, built, hf, hloop, _, _, _, _⟩ := run_some env query_ast r h
  rw [hrels] at hf
  simp only [Option.some.injEq, Json.arr.injEq] at hf
  subst hf
  obtain ⟨hlen, _⟩ := run_loop_some env entries [] built hloop
  have hke : k < entries.length := (List.getElem?_eq_some.mp hk).1
  obtain ⟨rel_op, ra_node, _, hop, hd, _⟩ :=
    run_loop_node env entries [] built hloop k crt_node hk
  simp only [List.length_nil, Nat.zero_add] at hd
  have hlen2 : built.length = entries.length := by simpa using hlen
  exact ⟨built, rel_op, ra_node, by simp; omega, hop, hd⟩

/-- The node a successful `run` leaves at the position of an entry of "rels" is the node
dispatched from that entry, after binding. -/
theorem run_entry_node (env : Env) (query_ast : Json) (r : RunResult)
    (h : run env query_ast = some r) (entries : List Json)
    (hrels : field query_ast "rels" = some (.arr entries)) (k : Nat) (crt_node : Json)
    (hk : entries[k]? = some crt_node) :
    ∃ (built : List RelAlgNode) (rel_op : String) (ra_node node : RelAlgNode),
      (field crt_node "relOp").bind json_str = some rel_op ∧
      dispatch env (built.take k) rel_op crt_node = some ra_node ∧
      r.nodes_[k]? = some node ∧ bind_node ra_node = some node := by
  obtain ⟨entries2, built, hf, hloop, _, hbind, _, _⟩ := run_some env query_ast r h
  rw [hrels] at hf
  simp only [Option.some.injEq, Json.arr.injEq] at hf
  subst hf
  obtain ⟨_, hbget⟩ := bind_inputs_getElem? built r.nodes_ hbind
  obtain ⟨rel_op, ra_node, _, hop, hd, hget⟩ :=
    run_loop_node env entries [] built hloop k crt_node hk
  simp only [List.length_nil, Nat.zero_add] at hd hget
  obtain ⟨node, hn, hbn⟩ := hbget k ra_node hget
  exact ⟨built, rel_op, ra_node, node, hop, hd, hn, hbn⟩

/-! ### The loop of the coalescer -/

theorem coalesce_loop_append :
    ∀ (l1 l2 : List RelAlgNode) (i : Nat) (crt_state : CoalesceState)
      (crt_pattern : List Nat),
      coalesce_loop (l1 ++ l2) i crt_state crt_pattern =
        match coalesce_loop l1 i crt_state crt_pattern with
        | none => none
        | some next => coalesce_loop l2 (i + l1.length) next.1 next.2 := by
  intro l1
  induction l1 with
  | nil =>
    intro l2 i crt_state crt_pattern
    simp [coalesce_loop]
  | cons n l1 ih =>
    intro l2 i crt_state crt_pattern
    simp only [List.cons_append, List.length_cons]
    rw [coalesce_loop, coalesce_loop]
    cases hs : coalesce_step crt_state crt_pattern i n with
    | none => rfl
    | some next =>
      simp only
      rw [ih]
      have : i + 1 + l1.length = i + (l1.length + 1) := by omega
      rw [this]

theorem coalesce_step_initial_empty (crt_state next_state : CoalesceState)
    (crt_pattern next_pattern : List Nat) (i : Nat) (n : RelAlgNode)
    (hinv : crt_state = .Initial → crt_pattern = [])
    (h : coalesce_step crt_state crt_pattern i n = some (next_state, next_pattern)) :
    next_state = .Initial → next_pattern = [] := by
  intro hn
  subst hn
  cases crt_state with
  | Initial =>
    have hp := hinv rfl
    subst hp
    unfold coalesce_step at h
    simp only at h
    split at h
    · simp at h
    · split at h
      · simp at h
      · simp only [Option.some.injEq, Prod.mk.injEq, true_and] at h
        exact h.symm
  | Filter =>
    unfold coalesce_step at h
    simp only at h
    split at h
    · simp at h
    · simp at h
  | FirstProject =>
    unfold coalesce_step at h
    simp only at h
    split at h
    · simp at h
    · simp only [swap_empty, Option.some.injEq, Prod.mk.injEq, true_and] at h
      exact h.symm
  | Aggregate =>
    unfold coalesce_step at h
    simp only [swap_empty, Option.some.injEq, Prod.mk.injEq, true_and] at h
    exact h.symm

/-- Whenever the loop of the coalescer is in state `Initial`, its pattern is empty. -/
theorem coalesce_loop_initial_empty :
    ∀ (l : List RelAlgNode) (i : Nat) (crt_state next_state : CoalesceState)
      (crt_pattern next_pattern : List Nat),
      (crt_state = .Initial → crt_pattern = []) →
      coalesce_loop l i crt_state crt_pattern = some (next_state, next_pattern) →
      next_state = .Initial → next_pattern = [] := by
  intro l
  induction l with
  | nil =>
    intro i crt_state next_state crt_pattern next_pattern hinv h hn
    rw [coalesce_loop] at h
    simp only [Option.some.injEq, Prod.mk.injEq] at h
    obtain ⟨h1, h2⟩ := h
    subst h1
    subst h2
    exact hinv hn
  | cons n l ih =>
    intro i crt_state next_state crt_pattern next_pattern hinv h
    rw [coalesce_loop] at h
    cases hs : coalesce_step crt_state crt_pattern i n with
    | none => rw [hs] at h; simp at h
    | some next =>
      rw [hs] at h
      simp only at h
      exact ih (i + 1) next.1 next_state next.2 next_pattern
        (coalesce_step_initial_empty crt_state next.1 crt_pattern next.2 i n hinv hs) h

/-! ### Paths of input edges -/

theorem InputPath.target_lt {nodes : List RelAlgNode} (hwf : BackwardEdges nodes) {a b : Nat}
    (h : InputPath nodes a b) : b < a := by
  induction h with
  | edge a b node ha hb => exact hwf.lt ha hb
  | step a b c node ha hb _ ih =>
    have := hwf.lt ha hb
    omega

/-! ### What binding keeps of a list -/

theorem bind_node_project (n : RelProject) (node2 : RelAlgNode)
    (h : bind_node (.project n) = some node2) :
    ∃ n2 : RelProject, node2 = .project n2 ∧ n2.scalar_exprs.length = n.scalar_exprs.length ∧
      n2.fields = n.fields ∧ n2.input = n.input ∧
      disambiguate_operands n.scalar_exprs n.input = some n2.scalar_exprs := by
  rw [bind_node] at h
  cases hd : disambiguate_operands n.scalar_exprs n.input with
  | none => rw [hd] at h; simp at h
  | some es =>
    rw [hd] at h
    simp only [Option.some.injEq] at h
    subst h
    exact ⟨_, rfl, (disambiguate_operands_getElem? n.input _ es hd).1, rfl, rfl, rfl⟩

theorem bind_node_filter (n : RelFilter) (node2 : RelAlgNode)
    (h : bind_node (.filter n) = some node2) :
    ∃ n2 : RelFilter, node2 = .filter n2 ∧ n2.input = n.input ∧
      disambiguate_rex n.condition n.input = some n2.condition := by
  rw [bind_node] at h
  cases hd : disambiguate_rex n.condition n.input with
  | none => rw [hd] at h; simp at h
  | some c =>
    rw [hd] at h
    simp only [Option.some.injEq] at h
    subst h
    exact ⟨_, rfl, rfl, rfl⟩

/-! ### Expressions the binder refuses, and what it leaves of the others -/

mutual

theorem disambiguate_rex_none (ra_output : Nat) :
    ∀ e : RexScalar, e.unbound_only = false → disambiguate_rex e ra_output = none
  | .abstractInput _, h => by simp [RexScalar.unbound_only] at h
  | .literal _, h => by simp [RexScalar.unbound_only] at h
  | .operator op operands, h => by
    rw [RexScalar.unbound_only] at h
    rw [disambiguate_rex, disambiguate_operands_none ra_output operands h]
  | .input _, _ => by rw [disambiguate_rex]
  | .agg _, _ => by rw [disambiguate_rex]

theorem disambiguate_operands_none (ra_output : Nat) :
    ∀ operands : List RexScalar, RexScalar.all_unbound_only operands = false →
      disambiguate_operands operands ra_output = none
  | [], h => by simp [RexScalar.all_unbound_only] at h
  | e :: rest, h => by
    rw [RexScalar.all_unbound_only, Bool.and_eq_false_iff] at h
    rw [disambiguate_operands]
    rcases h with h | h
    · rw [disambiguate_rex_none ra_output e h]
    · rw [disambiguate_operands_none ra_output rest h]
      cases disambiguate_rex e ra_output <;> rfl

end

mutual

theorem hasInput_not_unbound_only :
    ∀ e : RexScalar, e.hasInput = true → e.unbound_only = false
  | .abstractInput _, h => by simp [RexScalar.hasInput] at h
  | .literal _, h => by simp [RexScalar.hasInput] at h
  | .operator op operands, h => by
    rw [RexScalar.hasInput] at h
    rw [RexScalar.unbound_only]
    exact anyInput_not_all_unbound_only operands h
  | .input _, _ => by simp [RexScalar.unbound_only]
  | .agg _, _ => by simp [RexScalar.unbound_only]

theorem anyInput_not_all_unbound_only :
    ∀ operands : List RexScalar, RexScalar.anyInput operands = true →
      RexScalar.all_unbound_only operands = false
  | [], h => by simp [RexScalar.anyInput] at h
  | e :: rest, h => by
    rw [RexScalar.anyInput, Bool.or_eq_true] at h
    rw [RexScalar.all_unbound_only, Bool.and_eq_false_iff]
    rcases h with h | h
    · exact Or.inl (hasInput_not_unbound_only e h)
    · exact Or.inr (anyInput_not_all_unbound_only rest h)

end

mutual

theorem disambiguate_rex_counts (ra_output : Nat) :
    ∀ (e e2 : RexScalar), disambiguate_rex e ra_output = some e2 →
      e2.hasAbstractInput = false ∧ e2.countAbstractInput = 0 ∧
      e2.countInput = e.countAbstractInput
  | .abstractInput i, e2, h => by
    rw [disambiguate_rex] at h
    simp only [Option.some.injEq] at h
    subst h
    exact ⟨rfl, rfl, rfl⟩
  | .literal l, e2, h => by
    rw [disambiguate_rex] at h
    simp only [Option.some.injEq] at h
    subst h
    exact ⟨rfl, rfl, rfl⟩
  | .operator op operands, e2, h => by
    rw [disambiguate_rex] at h
    cases hd : disambiguate_operands operands ra_output with
    | none => rw [hd] at h; simp at h
    | some bound =>
      rw [hd] at h
      simp only [Option.some.injEq] at h
      subst h
      obtain ⟨h1, h2, h3⟩ := disambiguate_operands_counts ra_output operands bound hd
      exact ⟨by rw [RexScalar.hasAbstractInput]; exact h1,
        by rw [RexScalar.countAbstractInput]; exact h2,
        by rw [RexScalar.countInput, RexScalar.countAbstractInput]; exact h3⟩
  | .input _, e2, h => by rw [disambiguate_rex] at h; simp at h
  | .agg _, e2, h => by rw [disambiguate_rex] at h; simp at h

theorem disambiguate_operands_counts (ra_output : Nat) :
    ∀ (operands bound : List RexScalar),
      disambiguate_operands operands ra_output = some bound →
      RexScalar.anyAbstractInput bound = false ∧ RexScalar.countAbstractInputs bound = 0 ∧
      RexScalar.countInputs bound = RexScalar.countAbstractInputs operands
  | [], bound, h => by
    rw [disambiguate_operands] at h
    simp only [Option.some.injEq] at h
    subst h
    exact ⟨rfl, rfl, rfl⟩
  | e :: rest, bound, h => by
    rw [disambiguate_operands] at h
    cases he : disambiguate_rex e ra_output with
    | none => rw [he] at h; simp at h
    | some r =>
      cases hr : disambiguate_operands rest ra_output with
      | none => rw [he, hr] at h; simp at h
      | some rs =>
        rw [he, hr] at h
        simp only [Option.some.injEq] at h
        subst h
        obtain ⟨a1, a2, a3⟩ := disambiguate_rex_counts ra_output e r he
        obtain ⟨b1, b2, b3⟩ := disambiguate_operands_counts ra_output rest rs hr
        refine ⟨?_, ?_, ?_⟩
        · rw [RexScalar.anyAbstractInput, a1, b1]
          rfl
        · rw [RexScalar.countAbstractInputs, a2, b2]
        · rw [RexScalar.countInputs, RexScalar.countAbstractInputs, a3, b3]

end

theorem bind_inputs_none_of_node (nodes : List RelAlgNode) (k : Nat) (node : RelAlgNode)
    (hk : nodes[k]? = some node) (hb : bind_node node = none) : bind_inputs nodes = none := by
  cases h : bind_inputs nodes with
  | none => rfl
  | some bound =>
    obtain ⟨_, _, hbn⟩ := (bind_inputs_getElem? nodes bound h).2 k node hk
    rw [hb] at hbn
    simp at hbn

theorem bind_node_total (node : RelAlgNode)
    (h : RexScalar.all_unbound_only node.exprs = true) : ∃ node2, bind_node node = some node2 := by
  cases node with
  | scan n => exact ⟨_, rfl⟩
  | aggregate n => exact ⟨_, rfl⟩
  | join n => exact ⟨_, rfl⟩
  | filter n =>
    simp only [RelAlgNode.exprs, RexScalar.all_unbound_only, Bool.and_true] at h
    obtain ⟨c, hc, _⟩ := disambiguate_rex_same_shape n.input n.condition h
    exact ⟨_, by rw [bind_node, hc]⟩
  | project n =>
    simp only [RelAlgNode.exprs] at h
    obtain ⟨es, hes, _⟩ := disambiguate_operands_same_shape n.input n.scalar_exprs h
    exact ⟨_, by rw [bind_node, hes]⟩

theorem bind_inputs_total :
    ∀ nodes : List RelAlgNode,
      (∀ node ∈ nodes, RexScalar.all_unbound_only node.exprs = true) →
      ∃ bound, bind_inputs nodes = some bound := by
  intro nodes
  induction nodes with
  | nil => intro _; exact ⟨[], by rw [bind_inputs]⟩
  | cons n rest ih =>
    intro h
    obtain ⟨n2, hn2⟩ := bind_node_total n (h n (List.mem_cons_self n rest))
    obtain ⟨bound, hb⟩ := ih (fun node hm => h node (List.mem_cons_of_mem n hm))
    exact ⟨n2 :: bound, by rw [bind_inputs, hn2, hb]⟩

/-! ### The expressions the factory builds -/

theorem parse_operator_with_some (env : Env) (scalar_reader : Json → Option RexScalar)
    (expr : Json) (r : RexScalar) (h : parse_operator_with env scalar_reader expr = some r) :
    ∃ op elems rs,
      ((field expr "op").bind json_str).bind env.to_sql_op = some op ∧
      field expr "operands" = some (.arr elems) ∧
      elems.mapM' scalar_reader = some rs ∧ r = .operator op rs := by
  unfold parse_operator_with at h
  cases hop : ((field expr "op").bind json_str).bind env.to_sql_op with
  | none => rw [hop] at h; simp at h
  | some op =>
    rw [hop] at h
    simp only [Option.some_bind] at h
    cases hf : field expr "operands" with
    | none => rw [hf] at h; simp at h
    | some a =>
      rw [hf] at h
      simp only [Option.some_bind] at h
      cases a with
      | arr elems =>
        simp only [Option.map_eq_some'] at h
        obtain ⟨rs, hrs, hr⟩ := h
        exact ⟨op, elems, rs, rfl, rfl, hrs, hr.symm⟩
      | _ => simp at h

theorem mapM'_unbound_only (f : Json → Option RexScalar)
    (hf : ∀ a r, f a = some r → r.unbound_only = true) :
    ∀ (l : List Json) (rs : List RexScalar), l.mapM' f = some rs →
      RexScalar.all_unbound_only rs = true := by
  intro l
  induction l with
  | nil =>
    intro rs h
    simp only [List.mapM'_nil, Option.pure_def, Option.some.injEq] at h
    subst h
    rfl
  | cons a l ih =>
    intro rs h
    simp only [List.mapM'_cons, Option.pure_def, Option.bind_eq_bind] at h
    cases ha : f a with
    | none => rw [ha] at h; simp at h
    | some b =>
      cases hl : l.mapM' f with
      | none => rw [ha, hl] at h; simp at h
      | some bs =>
        rw [ha, hl] at h
        simp only [Option.some_bind, Option.some.injEq] at h
        subst h
        rw [RexScalar.all_unbound_only, hf a b ha, ih bs hl]
        rfl

theorem parse_scalar_expr_fuel_unbound_only (env : Env) :
    ∀ (n : Nat) (e : Json) (r : RexScalar), parse_scalar_expr_fuel env n e = some r →
      r.unbound_only = true := by
  intro n
  induction n with
  | zero =>
    intro e r h
    simp [parse_scalar_expr_fuel] at h
  | succ k ih =>
    intro e r h
    rw [parse_scalar_expr_fuel] at h
    split at h
    · simp at h
    · split at h
      · unfold parse_abstract_input at h
        simp only [Option.bind_eq_some, Option.map_eq_some'] at h
        obtain ⟨_, _, i, _, hr⟩ := h
        rw [← hr]
        rfl
      · split at h
        · simp only [Option.map_eq_some'] at h
          obtain ⟨l, _, hr⟩ := h
          rw [← hr]
          rfl
        · split at h
          · obtain ⟨op, elems, rs, _, _, hrs, hr⟩ := parse_operator_with_some env _ e r h
            rw [hr, RexScalar.unbound_only]
            exact mapM'_unbound_only _ (ih) elems rs hrs
          · simp at h

theorem parse_scalar_expr_unbound_only (env : Env) (e : Json) (r : RexScalar)
    (h : parse_scalar_expr env e = some r) : r.unbound_only = true :=
  parse_scalar_expr_fuel_unbound_only env _ e r h

theorem parse_operator_unbound_only (env : Env) (e : Json) (r : RexScalar)
    (h : parse_operator env e = some r) : r.unbound_only = true := by
  obtain ⟨op, elems, rs, _, _, hrs, hr⟩ := parse_operator_with_some env _ e r h
  rw [hr, RexScalar.unbound_only]
  exact mapM'_unbound_only _ (parse_scalar_expr_unbound_only env) elems rs hrs

theorem dispatchProject_exprs (env : Env) (nodes_ : List RelAlgNode) (proj_ra : Json)
    (n : RelProject) (h : dispatchProject env nodes_ proj_ra = some n) :
    ∃ elems, field proj_ra "exprs" = some (.arr elems) ∧
      elems.mapM' (parse_scalar_expr env) = some n.scalar_exprs := by
  unfold dispatchProject at h
  cases hf : field proj_ra "exprs" with
  | none => rw [hf] at h; simp at h
  | some exprs_json =>
    rw [hf] at h
    simp only [Option.some_bind] at h
    cases exprs_json with
    | arr elems =>
      simp only [Option.bind_eq_some, Option.map_eq_some'] at h
      obtain ⟨exprs, hexprs, _, _, _, _, input, _, hn⟩ := h
      subst hn
      exact ⟨elems, rfl, hexprs⟩
    | _ => simp at h

theorem dispatchFilter_condition (env : Env) (nodes_ : List RelAlgNode) (filter_ra : Json)
    (n : RelFilter) (h : dispatchFilter env nodes_ filter_ra = some n) :
    ∃ condition, field filter_ra "condition" = some condition ∧
      parse_operator env condition = some n.condition := by
  unfold dispatchFilter at h
  simp only [Option.bind_eq_some] at h
  obtain ⟨id, _, h⟩ := h
  split at h
  · simp at h
  · simp only [Option.bind_eq_some, Option.map_eq_some'] at h
    obtain ⟨c, ⟨cond, hf, hp⟩, input, _, hn⟩ := h
    subst hn
    exact ⟨cond, hf, hp⟩

/-- Every expression of a node that `dispatch` builds is made of AbstractInput, Operator
and Literal only. -/
theorem dispatch_exprs_unbound_only (env : Env) (nodes_ : List RelAlgNode) (rel_op : String)
    (crt_node : Json) (ra_node : RelAlgNode)
    (h : dispatch env nodes_ rel_op crt_node = some ra_node) :
    RexScalar.all_unbound_only ra_node.exprs = true := by
  rcases dispatch_cases env _ _ _ _ h with hc | hc | hc | hc | hc
  · obtain ⟨_, n, hn, _⟩ := hc
    subst hn
    rfl
  · obtain ⟨_, n, hn, hd⟩ := hc
    subst hn
    obtain ⟨elems, _, hm⟩ := dispatchProject_exprs env _ _ n hd
    exact mapM'_unbound_only _ (parse_scalar_expr_unbound_only env) elems _ hm
  · obtain ⟨_, n, hn, hd⟩ := hc
    subst hn
    obtain ⟨cond, _, hp⟩ := dispatchFilter_condition env _ _ n hd
    simp only [RelAlgNode.exprs, RexScalar.all_unbound_only, Bool.and_true]
    exact parse_operator_unbound_only env cond _ hp
  · obtain ⟨_, n, hn, _⟩ := hc
    subst hn
    rfl
  · obtain ⟨_, n, hn, hd⟩ := hc
    subst hn
    obtain ⟨_, _, _, _, _, hcond, _⟩ := dispatchJoin_some env _ _ n hd
    simp only [Option.bind_eq_some] at hcond
    obtain ⟨cond, _, hp⟩ := hcond
    simp only [RelAlgNode.exprs, RexScalar.all_unbound_only, Bool.and_true]
    exact parse_scalar_expr_unbound_only env cond _ hp

theorem run_loop_unbound_only (env : Env) :
    ∀ (rels : List Json) (nodes_ out : List RelAlgNode),
      (∀ node ∈ nodes_, RexScalar.all_unbound_only node.exprs = true) →
      run_loop env rels nodes_ = some out →
      ∀ node ∈ out, RexScalar.all_unbound_only node.exprs = true := by
  intro rels
  induction rels with
  | nil =>
    intro nodes_ out hinv h
    rw [run_loop] at h
    simp only [Option.some.injEq] at h
    subst h
    exact hinv
  | cons crt_node rest ih =>
    intro nodes_ out hinv h
    rw [run_loop] at h
    cases hs : run_step env nodes_ crt_node with
    | none => rw [hs] at h; simp at h
    | some nodes_next =>
      rw [hs] at h
      obtain ⟨rel_op, ra_node, _, _, hd, hnext⟩ := run_step_dispatch env _ _ _ hs
      apply ih nodes_next out _ h
      intro node hm
      rw [hnext] at hm
      rcases List.mem_append.mp hm with h1 | h1
      · exact hinv node h1
      · rw [List.mem_singleton] at h1
        rw [h1]
        exact dispatch_exprs_unbound_only env _ _ _ _ hd

/-- On every node list the factory builds, `bind_inputs` completes. -/
theorem build_nodes_bind_total (env : Env) (query_ast : Json) (nodes : List RelAlgNode)
    (h : build_nodes env query_ast = some nodes) :
    (∀ node ∈ nodes, RexScalar.all_unbound_only node.exprs = true) ∧
    ∃ bound, bind_inputs nodes = some bound := by
  unfold build_nodes at h
  cases hf : field query_ast "rels" with
  | none => rw [hf] at h; simp at h
  | some rels =>
    rw [hf] at h
    simp only [Option.some_bind] at h
    cases rels with
    | arr entries =>
      simp only at h
      have hall := run_loop_unbound_only env entries [] nodes
        (fun node hm => by simp at hm) h
      exact ⟨hall, bind_inputs_total nodes hall⟩
    | _ => simp at h

theorem anyInput_of_mem :
    ∀ (l : List RexScalar) (x : RexScalar), x ∈ l → x.hasInput = true →
      RexScalar.anyInput l = true := by
  intro l
  induction l with
  | nil => intro x hx; simp at hx
  | cons e rest ih =>
    intro x hx hin
    rw [RexScalar.anyInput, Bool.or_eq_true]
    rcases List.mem_cons.mp hx with h | h
    · subst h
      exact Or.inl hin
    · exact Or.inr (ih x h hin)

/-- A Filter or Project that holds an Input in one of its expressions is refused by the
binder. -/
theorem bind_node_none_of_input (node : RelAlgNode) (x : RexScalar)
    (hkind : node.isFilter = true ∨ node.isProject = true)
    (hx : x ∈ node.exprs) (hin : x.hasInput = true) : bind_node node = none := by
  have hall : RexScalar.all_unbound_only node.exprs = false :=
    anyInput_not_all_unbound_only _ (anyInput_of_mem _ x hx hin)
  cases node with
  | filter n =>
    simp only [RelAlgNode.exprs, RexScalar.all_unbound_only, Bool.and_true] at hall
    rw [bind_node, disambiguate_rex_none n.input n.condition hall]
  | project n =>
    simp only [RelAlgNode.exprs] at hall
    rw [bind_node, disambiguate_operands_none n.input n.scalar_exprs hall]
  | scan n => simp [RelAlgNode.isFilter, RelAlgNode.isProject] at hkind
  | aggregate n => simp [RelAlgNode.isFilter, RelAlgNode.isProject] at hkind
  | join n => simp [RelAlgNode.isFilter, RelAlgNode.isProject] at hkind

/-- Binding a Filter or Project turns the AbstractInput at a path of one of its
expressions into the Input on the direct input of the node, with the same index. -/
theorem bind_node_subexpr (node node2 : RelAlgNode) (n : Nat)
    (hb : bind_node node = some node2)
    (hkind : node.isFilter = true ∨ node.isProject = true)
    (hin : node.inputs = [n]) (j : Nat) (e : RexScalar) (p : List Nat) (i : Int)
    (he : node.exprs[j]? = some e)
    (hp : RexScalar.subexpr p e = some (.abstractInput i)) :
    ∃ e2, node2.exprs[j]? = some e2 ∧
      RexScalar.subexpr p e2 = some (.input ⟨n, i⟩) := by
  cases node with
  | filter f =>
    simp only [RelAlgNode.inputs, List.cons.injEq, and_true] at hin
    obtain ⟨f2, hf2, _, hd⟩ := bind_node_filter f node2 hb
    subst hf2
    cases j with
    | zero =>
      simp only [RelAlgNode.exprs, List.getElem?_cons_zero, Option.some.injEq] at he
      subst he
      rw [hin] at hd
      exact ⟨f2.condition, by simp [RelAlgNode.exprs],
        disambiguate_rex_subexpr n p _ _ i hd hp⟩
    | succ j => simp [RelAlgNode.exprs] at he
  | project f =>
    simp only [RelAlgNode.inputs, List.cons.injEq, and_true] at hin
    obtain ⟨f2, hf2, _, _, _, hd⟩ := bind_node_project f node2 hb
    subst hf2
    simp only [RelAlgNode.exprs] at he
    obtain ⟨e2, he2, hde⟩ := (disambiguate_operands_getElem? f.input _ _ hd).2 j e he
    rw [hin] at hde
    exact ⟨e2, by simpa [RelAlgNode.exprs] using he2,
      disambiguate_rex_subexpr n p e e2 i hde hp⟩
  | scan f => simp [RelAlgNode.isFilter, RelAlgNode.isProject] at hkind
  | aggregate f => simp [RelAlgNode.isFilter, RelAlgNode.isProject] at hkind
  | join f => simp [RelAlgNode.isFilter, RelAlgNode.isProject] at hkind

theorem field_some_has_member (obj : Json) (name : String) (v : Json)
    (h : field obj name = some v) : obj.IsObject = true ∧ obj.HasMember name = true := by
  unfold field at h
  split at h
  · rename_i ho
    exact ⟨ho, by rw [Json.HasMember, h]; rfl⟩
  · simp at h

theorem parse_operator_no_op (env : Env) (expr : Json) (h : field expr "op" = none) :
    parse_operator env expr = none := by
  rw [parse_operator, parse_operator_with, h]
  rfl

/-! ## The claims -/

/-- C1: for a Join node `j` of a node list with backward edges, with left input `l` and
right input `r`, `get_node_output` returns on `l`, on `r` and on `j`, and the output of
`j` is the output of `l` followed by the output of `r`, entry by entry; no entry of it
names the Join (every entry names a node before it). -/
theorem C1_join_output_is_concatenation (nodes : List RelAlgNode)
    (hwf : BackwardEdges nodes) (j : Nat) (join_node : RelJoin)
    (hj : nodes[j]? = some (.join join_node)) :
    ∃ lhs_out rhs_out,
      get_node_output nodes join_node.lhs = some lhs_out ∧
      get_node_output nodes join_node.rhs = some rhs_out ∧
      get_node_output nodes j = some (lhs_out ++ rhs_out) ∧
      ∀ e ∈ lhs_out ++ rhs_out, e.node < j := by
  have hjlt : j < nodes.length := (List.getElem?_eq_some.mp hj).1
  have hl : join_node.lhs < j := hwf.lt hj (by simp [RelAlgNode.inputs])
  have hr : join_node.rhs < j := hwf.lt hj (by simp [RelAlgNode.inputs])
  obtain ⟨lhs_out, hlo⟩ := get_node_output_total nodes hwf join_node.lhs (by omega)
  obtain ⟨rhs_out, hro⟩ := get_node_output_total nodes hwf join_node.rhs (by omega)
  refine ⟨lhs_out, rhs_out, hlo, hro, ?_, ?_⟩
  · rw [get_node_output_unfold nodes j hjlt, get_node_output_fuel, hj]
    simp only
    rw [get_node_output_fuel_input nodes hwf j _ hjlt hl,
      get_node_output_fuel_input nodes hwf j _ hjlt hr, hlo, hro]
  · intro e he
    rcases List.mem_append.mp he with h1 | h1
    · have := get_node_output_fuel_node_le nodes hwf _ _ _ hlo e h1
      omega
    · have := get_node_output_fuel_node_le nodes hwf _ _ _ hro e h1
      omega

/-- Witness of C1 on the built list Scan, Scan, Join(0, 1). -/
theorem C1_join_output_is_concatenation_witness :
    BackwardEdges nodes_scan_scan_join ∧
    ∃ lhs_out rhs_out,
      get_node_output nodes_scan_scan_join 0 = some lhs_out ∧
      get_node_output nodes_scan_scan_join 1 = some rhs_out ∧
      get_node_output nodes_scan_scan_join 2 = some (lhs_out ++ rhs_out) ∧
      ∀ e ∈ lhs_out ++ rhs_out, e.node < 2 :=
  ⟨by decide,
    C1_join_output_is_concatenation nodes_scan_scan_join (by decide) 2
      ⟨0, 1, .operator .kEQ [.abstractInput 0, .abstractInput 2], .INNER⟩ rfl⟩

/-- C2, as stated, fails: on the list built from Scan(0), Filter(1) the output of the
Filter is `[(1, 0), (1, 1)]`, every entry naming the Filter itself, while the output of
its input is `[(0, 0), (0, 1)]`. -/
theorem C2_filter_output_counterexample :
    run sample_env plan_scan_filter = some ⟨nodes_scan_filter, 1⟩ ∧
    nodes_scan_filter[1]? =
      some (.filter ⟨.operator .kEQ [.input ⟨0, 0⟩, .input ⟨0, 1⟩], 0⟩) ∧
    get_node_output nodes_scan_filter 1 = some [⟨1, 0⟩, ⟨1, 1⟩] ∧
    get_node_output nodes_scan_filter 0 = some [⟨0, 0⟩, ⟨0, 1⟩] ∧
    get_node_output nodes_scan_filter 1 ≠ get_node_output nodes_scan_filter 0 :=
  ⟨rfl, rfl, rfl, rfl, by decide⟩

/-- C2, amended: for a Filter node `f` of a node list with backward edges, with input `n`,
`get_node_output` returns on `n` and on `f`, the output of `f` has the length of the
output of `n`, and its `i`-th entry is `(f, i)`. -/
theorem C2_filter_output_same_length (nodes : List RelAlgNode)
    (hwf : BackwardEdges nodes) (f : Nat) (filter_node : RelFilter)
    (hf : nodes[f]? = some (.filter filter_node)) :
    ∃ prev_out out,
      get_node_output nodes filter_node.input = some prev_out ∧
      get_node_output nodes f = some out ∧
      out.length = prev_out.length ∧
      ∀ i, i < prev_out.length → out[i]? = some ⟨f, (i : Int)⟩ := by
  have hflt : f < nodes.length := (List.getElem?_eq_some.mp hf).1
  have hn : filter_node.input < f := hwf.lt hf (by simp [RelAlgNode.inputs])
  obtain ⟨prev_out, hp⟩ := get_node_output_total nodes hwf filter_node.input (by omega)
  refine ⟨prev_out, n_outputs f prev_out.length, hp, ?_, n_outputs_length _ _, ?_⟩
  · rw [get_node_output_unfold nodes f hflt, get_node_output_fuel, hf]
    simp only
    rw [get_node_output_fuel_input nodes hwf f _ hflt hn, hp]
  · intro i hi
    exact n_outputs_getElem? f _ i hi

/-- Witness of the amended C2 on the built list Scan, Filter. -/
theorem C2_filter_output_same_length_witness :
    BackwardEdges nodes_scan_filter ∧
    ∃ prev_out out,
      get_node_output nodes_scan_filter 0 = some prev_out ∧
      get_node_output nodes_scan_filter 1 = some out ∧
      out.length = prev_out.length ∧
      ∀ i, i < prev_out.length → out[i]? = some ⟨1, (i : Int)⟩ :=
  ⟨by decide,
    C2_filter_output_same_length nodes_scan_filter (by decide) 1
      ⟨.operator .kEQ [.input ⟨0, 0⟩, .input ⟨0, 1⟩], 0⟩ rfl⟩

/-- C3: for a Scan, Project or Aggregate node at position `s` of a node list, of arity
`N`, `get_node_output` returns a list of length `N` whose `i`-th entry is `(s, i)`; it is
the same in every node list that has this node at position `s`. -/
theorem C3_fresh_schema_output (nodes : List RelAlgNode) (s N : Nat) (node : RelAlgNode)
    (hs : nodes[s]? = some node) (hN : node.fresh_size = some N) :
    ∃ out,
      get_node_output nodes s = some out ∧
      out.length = N ∧
      (∀ i, i < N → out[i]? = some ⟨s, (i : Int)⟩) ∧
      ∀ nodes2 : List RelAlgNode, nodes2[s]? = some node →
        get_node_output nodes2 s = some out := by
  have key : ∀ l : List RelAlgNode, l[s]? = some node →
      get_node_output l s = some (n_outputs s N) := by
    intro l hl
    have hlt : s < l.length := (List.getElem?_eq_some.mp hl).1
    rw [get_node_output_unfold l s hlt, get_node_output_fuel, hl]
    cases node with
    | scan n => simp only [RelAlgNode.fresh_size, Option.some.injEq] at hN; simp [hN]
    | project n => simp only [RelAlgNode.fresh_size, Option.some.injEq] at hN; simp [hN]
    | aggregate n => simp only [RelAlgNode.fresh_size, Option.some.injEq] at hN; simp [hN]
    | filter n => simp [RelAlgNode.fresh_size] at hN
    | join n => simp [RelAlgNode.fresh_size] at hN
  exact ⟨n_outputs s N, key nodes hs, n_outputs_length _ _,
    fun i hi => n_outputs_getElem? s N i hi, key⟩

/-- Witness of C3 on the Scan of the built list Scan, Filter. -/
theorem C3_fresh_schema_output_witness :
    ∃ out,
      get_node_output nodes_scan_filter 0 = some out ∧
      out.length = 2 ∧
      (∀ i, i < 2 → out[i]? = some ⟨0, (i : Int)⟩) ∧
      ∀ nodes2 : List RelAlgNode, nodes2[0]? = some test_scan →
        get_node_output nodes2 0 = some out :=
  C3_fresh_schema_output nodes_scan_filter 0 2 test_scan rfl rfl

/-- C4, evaluated at the failing input: the plan Scan(0), Scan(1), Join(2) on `$0 = $2`
builds, `bind_inputs` completes on it, and the condition of the Join still holds its two
AbstractInputs afterwards. -/
theorem C4_abstract_input_survives_in_join :
    run sample_env plan_scan_scan_join = some ⟨nodes_scan_scan_join, 2⟩ ∧
    nodes_scan_scan_join[2]? =
      some (.join ⟨0, 1, .operator .kEQ [.abstractInput 0, .abstractInput 2], .INNER⟩) ∧
    nodes_scan_scan_join.any RelAlgNode.hasAbstractInput = true :=
  ⟨rfl, rfl, rfl⟩

/-- C5, as stated, fails for an input that is a Join: on the plan Scan(0), Join(1) of the
Scan with itself, Project(2) of `$0`, the Project's expression is bound to `(1, 0)`, the
Join itself, while entry 0 of the output of the Join is `(0, 0)`. -/
theorem C5_project_over_join_counterexample :
    run sample_env plan_join_project = some ⟨nodes_join_project, 2⟩ ∧
    nodes_join_project[2]? = some (.project ⟨[.input ⟨1, 0⟩], ["x"], 1⟩) ∧
    get_node_output nodes_join_project 1 = some [⟨0, 0⟩, ⟨0, 1⟩, ⟨0, 0⟩, ⟨0, 1⟩] ∧
    (⟨1, 0⟩ : RexInput) ≠ ⟨0, 0⟩ :=
  ⟨rfl, rfl, rfl, by decide⟩

/-- C5, amended: when `bind_inputs` completes on a node list, for a Filter or Project node
at position `k` whose input `n` is not a Join, every `AbstractInput(i)` at a path of one
of its expressions, with `0 ≤ i < length of get_node_output(n)`, is in the bound list the
Input at the same path of the same expression that equals the `i`-th entry of
`get_node_output(n)`; this entry is `(n, i)`. -/
theorem C5_bind_resolves_against_input (nodes bound : List RelAlgNode)
    (hb : bind_inputs nodes = some bound) (k n : Nat) (node input_node : RelAlgNode)
    (hk : nodes[k]? = some node)
    (hkind : node.isFilter = true ∨ node.isProject = true)
    (hin : node.inputs = [n])
    (hn : nodes[n]? = some input_node) (hnj : input_node.isJoin = false)
    (out : RANodeOutput) (hout : get_node_output nodes n = some out)
    (j : Nat) (e : RexScalar) (he : node.exprs[j]? = some e)
    (p : List Nat) (i : Int) (hp : RexScalar.subexpr p e = some (.abstractInput i))
    (h0 : 0 ≤ i) (hi : i.toNat < out.length) :
    ∃ node2 e2 r,
      bound[k]? = some node2 ∧ node2.exprs[j]? = some e2 ∧
      RexScalar.subexpr p e2 = some (.input r) ∧
      out[i.toNat]? = some r ∧ r = ⟨n, i⟩ := by
  obtain ⟨node2, hb2, hbn⟩ := (bind_inputs_getElem? nodes bound hb).2 k node hk
  have hentry : out[i.toNat]? = some ⟨n, i⟩ := by
    rw [get_node_output_not_join nodes n input_node out hn hnj hout,
      n_outputs_getElem? n _ _ hi, Int.toNat_of_nonneg h0]
  cases node with
  | filter f =>
    simp only [RelAlgNode.inputs, List.cons.injEq, and_true] at hin
    rw [bind_node] at hbn
    cases hd : disambiguate_rex f.condition f.input with
    | none => rw [hd] at hbn; simp at hbn
    | some c =>
      rw [hd] at hbn
      simp only [Option.some.injEq] at hbn
      subst hbn
      cases j with
      | zero =>
        simp only [RelAlgNode.exprs, List.getElem?_cons_zero, Option.some.injEq] at he
        subst he
        rw [hin] at hd
        exact ⟨_, c, ⟨n, i⟩, hb2, by simp [RelAlgNode.exprs],
          disambiguate_rex_subexpr n p _ c i hd hp, hentry, rfl⟩
      | succ j => simp [RelAlgNode.exprs] at he
  | project f =>
    simp only [RelAlgNode.inputs, List.cons.injEq, and_true] at hin
    rw [bind_node] at hbn
    cases hd : disambiguate_operands f.scalar_exprs f.input with
    | none => rw [hd] at hbn; simp at hbn
    | some es =>
      rw [hd] at hbn
      simp only [Option.some.injEq] at hbn
      subst hbn
      simp only [RelAlgNode.exprs] at he
      obtain ⟨e2, he2, hde⟩ := (disambiguate_operands_getElem? f.input _ es hd).2 j e he
      rw [hin] at hde
      exact ⟨_, e2, ⟨n, i⟩, hb2, by simpa [RelAlgNode.exprs] using he2,
        disambiguate_rex_subexpr n p e e2 i hde hp, hentry, rfl⟩
  | scan f => simp [RelAlgNode.isFilter, RelAlgNode.isProject] at hkind
  | aggregate f => simp [RelAlgNode.isFilter, RelAlgNode.isProject] at hkind
  | join f => simp [RelAlgNode.isFilter, RelAlgNode.isProject] at hkind

/-- Witness of the amended C5: in Scan(0), Project(1) of `$1`, Filter(2) on `$0 = $0`, the
second operand of the Filter's predicate is bound to entry 0 of the output of the
Project, `(1, 0)`. -/
theorem C5_bind_resolves_against_input_witness :
    bind_inputs nodes_scan_project_filter = some bound_scan_project_filter ∧
    get_node_output nodes_scan_project_filter 1 = some [⟨1, 0⟩] ∧
    ∃ node2 e2 r,
      bound_scan_project_filter[2]? = some node2 ∧ node2.exprs[0]? = some e2 ∧
      RexScalar.subexpr [1] e2 = some (.input r) ∧
      ([⟨1, 0⟩] : RANodeOutput)[(0 : Int).toNat]? = some r ∧ r = ⟨1, 0⟩ :=
  ⟨rfl, rfl,
    C5_bind_resolves_against_input nodes_scan_project_filter bound_scan_project_filter rfl
      2 1 (.filter ⟨.operator .kEQ [.abstractInput 0, .abstractInput 0], 1⟩)
      (.project ⟨[.abstractInput 1], ["x"], 0⟩) rfl (Or.inl rfl) rfl rfl rfl
      [⟨1, 0⟩] rfl 0 (.operator .kEQ [.abstractInput 0, .abstractInput 0]) rfl
      [1] 0 rfl (by decide) (by decide)⟩

/-- C6, evaluated at the failing input: `bind_inputs` has no case for a Join, so every
Join node is left as it was built; on the plan Scan(0), Join(1) of the Scan with itself on
the bare condition `$0` the condition is still `AbstractInput(0)` after the build, where
entry 0 of the concatenated outputs of the two inputs is `(0, 0)`. -/
theorem C6_join_condition_not_bound :
    (∀ join_node : RelJoin, bind_node (.join join_node) = some (.join join_node)) ∧
    run sample_env plan_self_join = some ⟨nodes_self_join, 1⟩ ∧
    nodes_self_join[1]? = some (.join ⟨0, 0, .abstractInput 0, .INNER⟩) ∧
    get_node_output nodes_self_join 0 = some [⟨0, 0⟩, ⟨0, 1⟩] :=
  ⟨fun _ => rfl, rfl, rfl, rfl⟩

/-- C7: on an expression built only from AbstractInput, Operator and Literal,
`disambiguate_rex` returns an expression of the same shape: a Literal is returned equal
(type, payload, scale and precision), an Operator is returned with the same tag and as
many operands, the operand at each place being `disambiguate_rex` of the operand at that
place, and so on recursively. -/
theorem C7_disambiguate_rex_keeps_shape (e : RexScalar) (ra_output : Nat)
    (h : e.unbound_only = true) :
    ∃ e2, disambiguate_rex e ra_output = some e2 ∧
      RexScalar.same_shape ra_output e e2 = true ∧
      (∀ l, e = .literal l → e2 = .literal l) ∧
      (∀ op operands, e = .operator op operands →
        ∃ bound, e2 = .operator op bound ∧ bound.length = operands.length ∧
          ∀ (k : Nat) (o : RexScalar), operands[k]? = some o →
            ∃ o2, bound[k]? = some o2 ∧ disambiguate_rex o ra_output = some o2) := by
  obtain ⟨e2, he, hs⟩ := disambiguate_rex_same_shape ra_output e h
  refine ⟨e2, he, hs, ?_, ?_⟩
  · intro l hl
    subst hl
    rw [disambiguate_rex] at he
    simp only [Option.some.injEq] at he
    exact he.symm
  · intro op operands hop
    subst hop
    rw [disambiguate_rex] at he
    cases hd : disambiguate_operands operands ra_output with
    | none => rw [hd] at he; simp at he
    | some bound =>
      rw [hd] at he
      simp only [Option.some.injEq] at he
      obtain ⟨hlen, hget⟩ := disambiguate_operands_getElem? ra_output operands bound hd
      exact ⟨bound, he.symm, hlen, hget⟩

/-- Witness of C7 on `$0 = 42`, rewritten against node 3. -/
theorem C7_disambiguate_rex_keeps_shape_witness :
    ∃ e2,
      disambiguate_rex
        (.operator .kEQ [.abstractInput 0, .literal ⟨.i64 42, .kDECIMAL, 0, 10, 0, 10⟩]) 3 =
        some e2 ∧
      RexScalar.same_shape 3
        (.operator .kEQ [.abstractInput 0, .literal ⟨.i64 42, .kDECIMAL, 0, 10, 0, 10⟩])
        e2 = true ∧
      (∀ l, RexScalar.operator .kEQ
          [.abstractInput 0, .literal ⟨.i64 42, .kDECIMAL, 0, 10, 0, 10⟩] = .literal l →
        e2 = .literal l) ∧
      (∀ op operands, RexScalar.operator .kEQ
          [.abstractInput 0, .literal ⟨.i64 42, .kDECIMAL, 0, 10, 0, 10⟩] =
            .operator op operands →
        ∃ bound, e2 = .operator op bound ∧ bound.length = operands.length ∧
          ∀ (k : Nat) (o : RexScalar), operands[k]? = some o →
            ∃ o2, bound[k]? = some o2 ∧ disambiguate_rex o 3 = some o2) :=
  C7_disambiguate_rex_keeps_shape
    (.operator .kEQ [.abstractInput 0, .literal ⟨.i64 42, .kDECIMAL, 0, 10, 0, 10⟩]) 3 rfl

/-- C8: for a plan whose "rels" is the array `entries`, if `run` succeeds then the node
list it leaves has one node per entry and the declared id of the entry at every position
`i` decodes to `i`; and if the declared id of some entry does not decode to its position,
`run` fails. -/
theorem C8_node_ids_are_positions (env : Env) (query_ast : Json) (entries : List Json)
    (hrels : field query_ast "rels" = some (.arr entries)) :
    (∀ r, run env query_ast = some r →
      r.nodes_.length = entries.length ∧
      ∀ i (h : i < entries.length), node_id (entries.get ⟨i, h⟩) = some i) ∧
    ((∃ i, ∃ h : i < entries.length, node_id (entries.get ⟨i, h⟩) ≠ some i) →
      run env query_ast = none) := by
  have key : ∀ r, run env query_ast = some r →
      r.nodes_.length = entries.length ∧
      ∀ i (h : i < entries.length), node_id (entries.get ⟨i, h⟩) = some i := by
    intro r hr
    obtain ⟨entries2, nodes_, hf, hloop, _, hbind, _, _⟩ := run_some env query_ast r hr
    rw [hrels] at hf
    simp only [Option.some.injEq, Json.arr.injEq] at hf
    subst hf
    obtain ⟨hlen, hids⟩ := run_loop_some env entries [] nodes_ hloop
    have hblen := (bind_inputs_getElem? nodes_ r.nodes_ hbind).1
    refine ⟨by simpa [hblen] using hlen, ?_⟩
    intro i hi
    simpa using hids i hi
  refine ⟨key, ?_⟩
  rintro ⟨i, hi, hne⟩
  cases hr : run env query_ast with
  | none => rfl
  | some r => exact absurd ((key r hr).2 i hi) hne

/-- Witness of C8: the plan Scan("0"), Filter("1") builds, into two nodes, and a plan
whose first entry declares the id "1" fails. -/
theorem C8_node_ids_are_positions_witness :
    run sample_env plan_scan_filter = some ⟨nodes_scan_filter, 1⟩ ∧
    (nodes_scan_filter.length = 2 ∧
      ∀ i (h : i < 2),
        node_id ([scan_json "0", filter_json "1" (eq_json 0 1)].get ⟨i, h⟩) = some i) ∧
    node_id (scan_json "1") ≠ some 0 ∧
    run sample_env plan_wrong_id = none :=
  ⟨rfl,
    (C8_node_ids_are_positions sample_env plan_scan_filter
      [scan_json "0", filter_json "1" (eq_json 0 1)] rfl).1 ⟨nodes_scan_filter, 1⟩ rfl,
    by decide,
    (C8_node_ids_are_positions sample_env plan_wrong_id [scan_json "1"] rfl).2
      ⟨0, by decide, by decide⟩⟩

/-- C9: `parse_scalar_expr` dispatches on the presence of "input", then "literal", then
"op". An object with "input" is read by `parse_abstract_input` whatever else it has (an
int64 index `i` gives `AbstractInput(i)`); one without "input" but with "literal" is read
by `parse_literal` and any result is a Literal; one with neither but with "op" gives
`Operator(op, operands)`, the operands being the elements of "operands" read by
`parse_scalar_expr` in array order; a value that is not an object, or an object with none
of the three fields, fails. -/
theorem C9_parse_scalar_expr_dispatch (env : Env) (expr : Json) :
    (expr.IsObject = true → expr.HasMember "input" = true →
      parse_scalar_expr env expr = parse_abstract_input expr ∧
      ∀ i : Int, field expr "input" = some (.int i) → -2 ^ 63 ≤ i → i < 2 ^ 63 →
        parse_scalar_expr env expr = some (.abstractInput i)) ∧
    (expr.IsObject = true → expr.HasMember "input" = false →
      expr.HasMember "literal" = true →
      parse_scalar_expr env expr = (parse_literal env expr).map RexScalar.literal ∧
      ∀ r, parse_scalar_expr env expr = some r → ∃ l, r = .literal l) ∧
    (expr.IsObject = true → expr.HasMember "input" = false →
      expr.HasMember "literal" = false → expr.HasMember "op" = true →
      parse_scalar_expr env expr = parse_operator env expr ∧
      ∀ op elems, ((field expr "op").bind json_str).bind env.to_sql_op = some op →
        field expr "operands" = some (.arr elems) →
        parse_scalar_expr env expr =
          (elems.mapM' (parse_scalar_expr env)).map (RexScalar.operator op)) ∧
    (expr.IsObject = false → parse_scalar_expr env expr = none) ∧
    (expr.HasMember "input" = false → expr.HasMember "literal" = false →
      expr.HasMember "op" = false → parse_scalar_expr env expr = none) := by
  refine ⟨?_, ?_, ?_, ?_, ?_⟩
  · intro ho hi
    have h1 : parse_scalar_expr env expr = parse_abstract_input expr := by
      rw [parse_scalar_expr_eq]
      simp [ho, hi]
    refine ⟨h1, ?_⟩
    intro i hf hlo hhi
    rw [h1, parse_abstract_input, hf]
    simp only [Option.some_bind, json_i64]
    rw [if_pos ⟨hlo, hhi⟩]
    rfl
  · intro ho hi hl
    have h1 : parse_scalar_expr env expr = (parse_literal env expr).map RexScalar.literal := by
      rw [parse_scalar_expr_eq]
      simp [ho, hi, hl]
    refine ⟨h1, ?_⟩
    intro r hr
    rw [h1] at hr
    cases hp : parse_literal env expr with
    | none => rw [hp] at hr; simp at hr
    | some l =>
      rw [hp] at hr
      simp only [Option.map_some', Option.some.injEq] at hr
      exact ⟨l, hr.symm⟩
  · intro ho hi hl hop
    have h1 : parse_scalar_expr env expr = parse_operator env expr := by
      rw [parse_scalar_expr_eq]
      simp [ho, hi, hl, hop]
    refine ⟨h1, ?_⟩
    intro op elems hdec hf
    rw [h1, parse_operator, parse_operator_with, hdec, hf]
    rfl
  · intro ho
    rw [parse_scalar_expr_eq]
    simp [ho]
  · intro hi hl hop
    rw [parse_scalar_expr_eq]
    simp [hi, hl, hop]

/-- Witness of C9: the object with all three fields reads as `AbstractInput(1)`; the
comparison `$0 = $1` reads as an Operator over its two operands in order; a string is
refused. -/
theorem C9_parse_scalar_expr_dispatch_witness :
    parse_scalar_expr sample_env all_three_json = some (.abstractInput 1) ∧
    parse_scalar_expr sample_env (eq_json 0 1) =
      ([input_json 0, input_json 1].mapM' (parse_scalar_expr sample_env)).map
        (RexScalar.operator .kEQ) ∧
    parse_scalar_expr sample_env (eq_json 0 1) =
      some (.operator .kEQ [.abstractInput 0, .abstractInput 1]) ∧
    parse_scalar_expr sample_env (.str "x") = none :=
  ⟨((C9_parse_scalar_expr_dispatch sample_env all_three_json).1 rfl rfl).2 1 rfl
      (by decide) (by decide),
    ((C9_parse_scalar_expr_dispatch sample_env (eq_json 0 1)).2.2.1 rfl rfl rfl rfl).2
      .kEQ [input_json 0, input_json 1] rfl rfl,
    rfl,
    (C9_parse_scalar_expr_dispatch sample_env (.str "x")).2.2.2.1 rfl⟩

/-- C10, as stated, fails: a literal declared BIGINT is refused, although the same
object declared DECIMAL reads as the int64 literal 42. -/
theorem C10_bigint_literal_counterexample :
    sample_env.to_sql_type "BIGINT" = some .kBIGINT ∧
    parse_literal sample_env (literal_42_json "BIGINT") = none ∧
    parse_literal sample_env (literal_42_json "DECIMAL") =
      some ⟨.i64 42, .kDECIMAL, 0, 10, 0, 10⟩ :=
  ⟨rfl, rfl, rfl⟩

/-- C10, amended: on an object whose "type" decodes to `t` and whose "scale",
"precision", "type_scale" and "type_precision" are int64, `parse_literal` chooses the
payload by `t`: DECIMAL reads "literal" as an int64, DOUBLE as a double, TEXT as a string,
BOOLEAN as a bool, and fails when "literal" is not of that kind; NULLT gives the untyped
null; every other type, BIGINT included, fails. -/
theorem C10_parse_literal_by_type (env : Env) (expr literal : Json) (t : SQLTypes)
    (scale precision type_scale type_precision : Int)
    (hobj : expr.IsObject = true)
    (hl : field expr "literal" = some literal)
    (ht : ((field expr "type").bind json_str).bind env.to_sql_type = some t)
    (hs : (field expr "scale").bind json_i64 = some scale)
    (hp : (field expr "precision").bind json_i64 = some precision)
    (hts : (field expr "type_scale").bind json_i64 = some type_scale)
    (htp : (field expr "type_precision").bind json_i64 = some type_precision) :
    (t = .kDECIMAL → parse_literal env expr =
      (json_i64 literal).map fun v =>
        ⟨.i64 v, .kDECIMAL, scale, precision, type_scale, type_precision⟩) ∧
    (t = .kDOUBLE → parse_literal env expr =
      (json_double literal).map fun v =>
        ⟨.dbl v, .kDOUBLE, scale, precision, type_scale, type_precision⟩) ∧
    (t = .kTEXT → parse_literal env expr =
      (json_str literal).map fun v =>
        ⟨.str v, .kTEXT, scale, precision, type_scale, type_precision⟩) ∧
    (t = .kBOOLEAN → parse_literal env expr =
      (json_bool literal).map fun v =>
        ⟨.bool v, .kBOOLEAN, scale, precision, type_scale, type_precision⟩) ∧
    (t = .kNULLT → parse_literal env expr = some RexLiteral.untyped_null) ∧
    (t ≠ .kDECIMAL → t ≠ .kDOUBLE → t ≠ .kTEXT → t ≠ .kBOOLEAN → t ≠ .kNULLT →
      parse_literal env expr = none) := by
  refine ⟨?_, ?_, ?_, ?_, ?_, ?_⟩
  · intro h
    subst h
    simp [parse_literal, hobj, hl, ht, hs, hp, hts, htp]
  · intro h
    subst h
    simp [parse_literal, hobj, hl, ht, hs, hp, hts, htp]
  · intro h
    subst h
    simp [parse_literal, hobj, hl, ht, hs, hp, hts, htp]
  · intro h
    subst h
    simp [parse_literal, hobj, hl, ht, hs, hp, hts, htp]
  · intro h
    subst h
    simp [parse_literal, hobj, hl, ht, hs, hp, hts, htp]
  · intro h1 h2 h3 h4 h5
    simp only [parse_literal, hobj, hl, ht, hs, hp, hts, htp]
    cases t <;> simp_all

/-- Witness of the amended C10 on the literal 42 declared DECIMAL. -/
theorem C10_parse_literal_by_type_witness :
    parse_literal sample_env (literal_42_json "DECIMAL") =
      (json_i64 (.int 42)).map fun v => ⟨.i64 v, .kDECIMAL, 0, 10, 0, 10⟩ :=
  (C10_parse_literal_by_type sample_env (literal_42_json "DECIMAL") (.int 42) .kDECIMAL
    0 10 0 10 rfl rfl rfl rfl rfl rfl rfl).1 rfl

/-- C11, as stated, fails: the object of exactly the four fields "literal", "type",
"scale", "precision" has no "type_scale", and both readers refuse it. -/
theorem C11_four_field_decimal_counterexample :
    field literal_four_fields_json "type_scale" = none ∧
    parse_literal sample_env literal_four_fields_json = none ∧
    parse_scalar_expr sample_env literal_four_fields_json = none :=
  ⟨rfl, rfl, rfl⟩

/-- C11, amended: with a decoder that reads "DECIMAL" as the decimal type, the object
`{"literal": 42, "type": "DECIMAL", "scale": 0, "precision": 10}` extended by an int64
"type_scale" and an int64 "type_precision" reads as the Literal of int64 payload 42, scale
0 and precision 10 (and the given type scale and type precision), through `parse_literal`
and through `parse_scalar_expr`; the object of the four fields alone is refused. -/
theorem C11_decimal_literal_needs_six_fields (env : Env) (type_scale type_precision : Int)
    (hdec : env.to_sql_type "DECIMAL" = some .kDECIMAL)
    (hts : -2 ^ 63 ≤ type_scale ∧ type_scale < 2 ^ 63)
    (htp : -2 ^ 63 ≤ type_precision ∧ type_precision < 2 ^ 63) :
    parse_literal env (decimal_42_json type_scale type_precision) =
      some ⟨.i64 42, .kDECIMAL, 0, 10, type_scale, type_precision⟩ ∧
    parse_scalar_expr env (decimal_42_json type_scale type_precision) =
      some (.literal ⟨.i64 42, .kDECIMAL, 0, 10, type_scale, type_precision⟩) ∧
    parse_literal env literal_four_fields_json = none ∧
    parse_scalar_expr env literal_four_fields_json = none := by
  have h1 : parse_literal env (decimal_42_json type_scale type_precision) =
      some ⟨.i64 42, .kDECIMAL, 0, 10, type_scale, type_precision⟩ := by
    rw [parse_literal_decimal env (decimal_42_json type_scale type_precision) (.int 42)
      0 10 type_scale type_precision rfl rfl hdec rfl rfl
      (json_i64_int type_scale hts.1 hts.2) (json_i64_int type_precision htp.1 htp.2)]
    rfl
  have h2 : parse_literal env literal_four_fields_json = none :=
    parse_literal_missing env literal_four_fields_json (Or.inr (Or.inr (Or.inl rfl)))
  refine ⟨h1, ?_, h2, ?_⟩
  · rw [parse_scalar_expr_eq, h1]
    rfl
  · rw [parse_scalar_expr_eq, h2]
    rfl

/-- Witness of the amended C11 in `sample_env`, with type scale 0 and type precision 10. -/
theorem C11_decimal_literal_needs_six_fields_witness :
    parse_literal sample_env (decimal_42_json 0 10) =
      some ⟨.i64 42, .kDECIMAL, 0, 10, 0, 10⟩ ∧
    parse_scalar_expr sample_env (decimal_42_json 0 10) =
      some (.literal ⟨.i64 42, .kDECIMAL, 0, 10, 0, 10⟩) ∧
    parse_literal sample_env literal_four_fields_json = none ∧
    parse_scalar_expr sample_env literal_four_fields_json = none :=
  C11_decimal_literal_needs_six_fields sample_env 0 10 rfl
    ⟨by decide, by decide⟩ ⟨by decide, by decide⟩

/-- C12, as stated, fails: `{"literal": null, "type": "NULL"}` has no "scale", and both
readers refuse it, although "NULL" decodes to the null type. -/
theorem C12_null_literal_counterexample :
    sample_env.to_sql_type "NULL" = some .kNULLT ∧
    field null_literal_json "scale" = none ∧
    parse_literal sample_env null_literal_json = none ∧
    parse_scalar_expr sample_env null_literal_json = none :=
  ⟨rfl, rfl, rfl, rfl⟩

/-- C12, amended: on an object whose "type" decodes to the null type and which has a
"literal" field, of whatever JSON kind, `parse_literal` gives the untyped-null Literal
when "scale", "precision", "type_scale" and "type_precision" are all present and int64, and
fails when one of them is missing or not an int64; the value of "literal" is not decoded. -/
theorem C12_null_literal (env : Env) (expr literal : Json)
    (hobj : expr.IsObject = true)
    (hl : field expr "literal" = some literal)
    (ht : ((field expr "type").bind json_str).bind env.to_sql_type = some .kNULLT) :
    ((∃ scale precision type_scale type_precision,
        (field expr "scale").bind json_i64 = some scale ∧
        (field expr "precision").bind json_i64 = some precision ∧
        (field expr "type_scale").bind json_i64 = some type_scale ∧
        (field expr "type_precision").bind json_i64 = some type_precision) →
      parse_literal env expr = some RexLiteral.untyped_null) ∧
    (((field expr "scale").bind json_i64 = none ∨
        (field expr "precision").bind json_i64 = none ∨
        (field expr "type_scale").bind json_i64 = none ∨
        (field expr "type_precision").bind json_i64 = none) →
      parse_literal env expr = none) := by
  refine ⟨?_, parse_literal_missing env expr⟩
  rintro ⟨scale, precision, type_scale, type_precision, hs, hp, hts, htp⟩
  exact parse_literal_nullt env expr literal scale precision type_scale type_precision
    hobj hl ht hs hp hts htp

/-- Witness of the amended C12: with the four int64 fields the null literal reads as the
untyped null, be its "literal" `null` or a string; without them it is refused. -/
theorem C12_null_literal_witness :
    parse_literal sample_env (null_literal_full_json .null) = some RexLiteral.untyped_null ∧
    parse_literal sample_env (null_literal_full_json (.str "x")) =
      some RexLiteral.untyped_null ∧
    parse_literal sample_env null_literal_json = none :=
  ⟨(C12_null_literal sample_env (null_literal_full_json .null) .null rfl rfl rfl).1
      ⟨0, 0, 0, 0, rfl, rfl, rfl, rfl⟩,
    (C12_null_literal sample_env (null_literal_full_json (.str "x")) (.str "x")
      rfl rfl rfl).1 ⟨0, 0, 0, 0, rfl, rfl, rfl, rfl⟩,
    (C12_null_literal sample_env null_literal_json .null rfl rfl rfl).2 (Or.inl rfl)⟩

/-- C13: when `parse_aggregate_expr` succeeds, "type" is an object of exactly two members
and the Agg carries the decoded "agg", the boolean "distinct", the decoded "type" and the
boolean "nullable" of that object, and one index per element of "operands", in array
order, each element being a non-negative integer (an `int`) equal to its index; it fails
when "type" is not an object of exactly two members, when "distinct" or "nullable" is not
a boolean, and when some operand is not a non-negative integer, an operand that is an
expression object included. -/
theorem C13_parse_aggregate_expr_fixed_shape (env : Env) (expr : Json) :
    (∀ a, parse_aggregate_expr env expr = some a →
      ∃ type_json elems,
        field expr "type" = some type_json ∧
        type_json.IsObject = true ∧ type_json.MemberCount = 2 ∧
        ((field expr "agg").bind json_str).bind env.to_agg_kind = some a.agg ∧
        field expr "distinct" = some (.bool a.distinct) ∧
        ((field type_json "type").bind json_str).bind env.to_sql_type = some a.type ∧
        field type_json "nullable" = some (.bool a.nullable) ∧
        field expr "operands" = some (.arr elems) ∧
        a.operands.length = elems.length ∧
        ∀ (k : Nat) (e : Json), elems[k]? = some e →
          ∃ i : Nat, e = .int (i : Int) ∧ (i : Int) < 2 ^ 31 ∧ a.operands[k]? = some i) ∧
    (∀ type_json, field expr "type" = some type_json →
      (type_json.IsObject = false ∨ type_json.MemberCount ≠ 2) →
      parse_aggregate_expr env expr = none) ∧
    (∀ v, field expr "distinct" = some v → (∀ b, v ≠ .bool b) →
      parse_aggregate_expr env expr = none) ∧
    (∀ type_json v, field expr "type" = some type_json →
      field type_json "nullable" = some v → (∀ b, v ≠ .bool b) →
      parse_aggregate_expr env expr = none) ∧
    (∀ elems e, field expr "operands" = some (.arr elems) → e ∈ elems →
      (∀ i : Nat, e ≠ .int (i : Int)) → parse_aggregate_expr env expr = none) := by
  refine ⟨parse_aggregate_expr_some env expr, ?_, ?_, ?_, ?_⟩
  · intro type_json ht hbad
    cases h : parse_aggregate_expr env expr with
    | none => rfl
    | some a =>
      obtain ⟨tj, _, ht2, hobj, hcount, _⟩ := parse_aggregate_expr_some env expr a h
      rw [ht] at ht2
      simp only [Option.some.injEq] at ht2
      subst ht2
      rcases hbad with hb | hb
      · rw [hobj] at hb
        simp at hb
      · exact absurd hcount hb
  · intro v hv hbad
    cases h : parse_aggregate_expr env expr with
    | none => rfl
    | some a =>
      obtain ⟨_, _, _, _, _, _, hd, _⟩ := parse_aggregate_expr_some env expr a h
      rw [hv] at hd
      simp only [Option.some.injEq] at hd
      exact absurd hd (hbad a.distinct)
  · intro type_json v ht hv hbad
    cases h : parse_aggregate_expr env expr with
    | none => rfl
    | some a =>
      obtain ⟨tj, _, ht2, _, _, _, _, _, hn, _⟩ := parse_aggregate_expr_some env expr a h
      rw [ht] at ht2
      simp only [Option.some.injEq] at ht2
      subst ht2
      rw [hv] at hn
      simp only [Option.some.injEq] at hn
      exact absurd hn (hbad a.nullable)
  · intro elems e ho he hbad
    cases h : parse_aggregate_expr env expr with
    | none => rfl
    | some a =>
      obtain ⟨_, elems2, _, _, _, _, _, _, _, ho2, _, hall⟩ :=
        parse_aggregate_expr_some env expr a h
      rw [ho] at ho2
      simp only [Option.some.injEq, Json.arr.injEq] at ho2
      subst ho2
      obtain ⟨k, hk, hke⟩ := List.getElem_of_mem he
      obtain ⟨i, hi, _⟩ := hall k e (by rw [List.getElem?_eq_getElem hk, hke])
      exact absurd hi (hbad i)

/-- Witness of C13: `COUNT` over the operands `[0, 2]` reads as the Agg with the operand
indices `[0, 2]`; over the operand `{"input": 0}`, and over `-1`, it is refused. -/
theorem C13_parse_aggregate_expr_fixed_shape_witness :
    parse_aggregate_expr sample_env (count_json [.int 0, .int 2]) =
      some ⟨.kCOUNT, false, .kBIGINT, false, [0, 2]⟩ ∧
    (∃ type_json elems,
      field (count_json [.int 0, .int 2]) "type" = some type_json ∧
      type_json.IsObject = true ∧ type_json.MemberCount = 2 ∧
      ((field (count_json [.int 0, .int 2]) "agg").bind json_str).bind
        sample_env.to_agg_kind = some .kCOUNT ∧
      field (count_json [.int 0, .int 2]) "distinct" = some (.bool false) ∧
      ((field type_json "type").bind json_str).bind sample_env.to_sql_type =
        some .kBIGINT ∧
      field type_json "nullable" = some (.bool false) ∧
      field (count_json [.int 0, .int 2]) "operands" = some (.arr elems) ∧
      [0, 2].length = elems.length ∧
      ∀ (k : Nat) (e : Json), elems[k]? = some e →
        ∃ i : Nat, e = .int (i : Int) ∧ (i : Int) < 2 ^ 31 ∧ [0, 2][k]? = some i) ∧
    parse_aggregate_expr sample_env (count_json [input_json 0]) = none ∧
    parse_aggregate_expr sample_env (count_json [.int (-1)]) = none :=
  ⟨rfl,
    (C13_parse_aggregate_expr_fixed_shape sample_env (count_json [.int 0, .int 2])).1
      ⟨.kCOUNT, false, .kBIGINT, false, [0, 2]⟩ rfl,
    (C13_parse_aggregate_expr_fixed_shape sample_env (count_json [input_json 0])).2.2.2.2
      [input_json 0] (input_json 0) rfl (List.mem_singleton.mpr rfl)
      (fun i h => by simp [input_json] at h),
    (C13_parse_aggregate_expr_fixed_shape sample_env (count_json [.int (-1)])).2.2.2.2
      [.int (-1)] (.int (-1)) rfl (List.mem_singleton.mpr rfl)
      (fun i h => by
        simp only [Json.int.injEq] at h
        omega)⟩

/-- C14: for a Join object dispatched on the `nodes_` built so far (as many as its own
position, fewer than the node list can hold), if `dispatchJoin` succeeds then "inputs"
holds exactly two strings, `std::stoi` decodes them to two indices that are not negative
and strictly less than the number of nodes built, and the left and right inputs of the
Join are the nodes at these two positions, in this order; it fails if "inputs" does not
hold exactly two strings, if one is not decoded, and if an index is negative or not less
than the number of nodes built. -/
theorem C14_join_inputs (env : Env) (nodes_ : List RelAlgNode) (join_ra : Json)
    (hsize : nodes_.length < 2 ^ 60) :
    (∀ n, dispatchJoin env nodes_ join_ra = some n →
      ∃ (str_index0 str_index1 : String) (index0 index1 : Int),
        (field join_ra "inputs").bind strings_from_json_array =
          some [str_index0, str_index1] ∧
        stoi str_index0 = some index0 ∧ stoi str_index1 = some index1 ∧
        0 ≤ index0 ∧ index0 < nodes_.length ∧ 0 ≤ index1 ∧ index1 < nodes_.length ∧
        n.lhs = index0.toNat ∧ n.rhs = index1.toNat) ∧
    (∀ strs, (field join_ra "inputs").bind strings_from_json_array = some strs →
      strs.length ≠ 2 → dispatchJoin env nodes_ join_ra = none) ∧
    (∀ str_index0 str_index1,
      (field join_ra "inputs").bind strings_from_json_array =
        some [str_index0, str_index1] →
      (stoi str_index0 = none ∨ stoi str_index1 = none) →
      dispatchJoin env nodes_ join_ra = none) ∧
    (∀ (str_index0 str_index1 : String) (index0 index1 : Int),
      (field join_ra "inputs").bind strings_from_json_array =
        some [str_index0, str_index1] →
      stoi str_index0 = some index0 → stoi str_index1 = some index1 →
      (index0 < 0 ∨ (nodes_.length : Int) ≤ index0 ∨
        index1 < 0 ∨ (nodes_.length : Int) ≤ index1) →
      dispatchJoin env nodes_ join_ra = none) := by
  have key : ∀ n, dispatchJoin env nodes_ join_ra = some n →
      ∃ (str_index0 str_index1 : String) (index0 index1 : Int),
        (field join_ra "inputs").bind strings_from_json_array =
          some [str_index0, str_index1] ∧
        stoi str_index0 = some index0 ∧ stoi str_index1 = some index1 ∧
        0 ≤ index0 ∧ index0 < nodes_.length ∧ 0 ≤ index1 ∧ index1 < nodes_.length ∧
        n.lhs = index0.toNat ∧ n.rhs = index1.toNat := by
    intro n hn
    obtain ⟨s0, s1, i0, i1, _, _, hin, h0, h1, hlt0, hlt1, hl, hr⟩ :=
      dispatchJoin_some env nodes_ join_ra n hn
    obtain ⟨hr0a, hr0b⟩ := stoi_range s0 i0 h0
    obtain ⟨hr1a, hr1b⟩ := stoi_range s1 i1 h1
    have hn0 : 0 ≤ i0 := by
      by_contra hc
      have := to_size_t_neg i0 (by omega) hr0a
      omega
    have hn1 : 0 ≤ i1 := by
      by_contra hc
      have := to_size_t_neg i1 (by omega) hr1a
      omega
    rw [to_size_t_nonneg i0 hn0 hr0b] at hlt0 hl
    rw [to_size_t_nonneg i1 hn1 hr1b] at hlt1 hr
    exact ⟨s0, s1, i0, i1, hin, h0, h1, hn0, by omega, hn1, by omega, hl, hr⟩
  refine ⟨key, ?_, ?_, ?_⟩
  · intro strs hin hlen
    cases h : dispatchJoin env nodes_ join_ra with
    | none => rfl
    | some n =>
      obtain ⟨s0, s1, _, _, hin2, _⟩ := key n h
      rw [hin] at hin2
      simp only [Option.some.injEq] at hin2
      subst hin2
      simp at hlen
  · intro str_index0 str_index1 hin hbad
    cases h : dispatchJoin env nodes_ join_ra with
    | none => rfl
    | some n =>
      obtain ⟨s0, s1, i0, i1, hin2, h0, h1, _⟩ := key n h
      rw [hin] at hin2
      simp only [Option.some.injEq, List.cons.injEq, and_true] at hin2
      obtain ⟨e0, e1⟩ := hin2
      subst e0
      subst e1
      rcases hbad with hb | hb
      · rw [hb] at h0
        simp at h0
      · rw [hb] at h1
        simp at h1
  · intro str_index0 str_index1 index0 index1 hin hs0 hs1 hbad
    cases h : dispatchJoin env nodes_ join_ra with
    | none => rfl
    | some n =>
      obtain ⟨s0, s1, i0, i1, hin2, h0, h1, hn0, hlt0, hn1, hlt1, _⟩ := key n h
      rw [hin] at hin2
      simp only [Option.some.injEq, List.cons.injEq, and_true] at hin2
      obtain ⟨e0, e1⟩ := hin2
      subst e0
      subst e1
      rw [hs0] at h0
      rw [hs1] at h1
      simp only [Option.some.injEq] at h0 h1
      subst h0
      subst h1
      omega

/-- Witness of C14 on one Scan built so far: the inputs "0", "0" give the Join of the
Scan with itself, the inputs "0", "1" and "-1", "0" and the three inputs "0", "0", "0" are
refused. -/
theorem C14_join_inputs_witness :
    dispatchJoin sample_env [test_scan] (join_json_of "1" "inner" ["0", "0"]) =
      some ⟨0, 0, .abstractInput 0, .INNER⟩ ∧
    (∃ (str_index0 str_index1 : String) (index0 index1 : Int),
      (field (join_json_of "1" "inner" ["0", "0"]) "inputs").bind strings_from_json_array =
        some [str_index0, str_index1] ∧
      stoi str_index0 = some index0 ∧ stoi str_index1 = some index1 ∧
      0 ≤ index0 ∧ index0 < [test_scan].length ∧ 0 ≤ index1 ∧
      index1 < [test_scan].length ∧
      (0 : Nat) = index0.toNat ∧ (0 : Nat) = index1.toNat) ∧
    dispatchJoin sample_env [test_scan] (join_json_of "1" "inner" ["0", "0", "0"]) = none ∧
    dispatchJoin sample_env [test_scan] (join_json_of "1" "inner" ["0", "1"]) = none ∧
    dispatchJoin sample_env [test_scan] (join_json_of "1" "inner" ["-1", "0"]) = none :=
  ⟨rfl,
    (C14_join_inputs sample_env [test_scan] (join_json_of "1" "inner" ["0", "0"])
      (by norm_num)).1 ⟨0, 0, .abstractInput 0, .INNER⟩ rfl,
    (C14_join_inputs sample_env [test_scan] (join_json_of "1" "inner" ["0", "0", "0"])
      (by norm_num)).2.1 ["0", "0", "0"] rfl (by decide),
    (C14_join_inputs sample_env [test_scan] (join_json_of "1" "inner" ["0", "1"])
      (by norm_num)).2.2.2 "0" "1" 0 1 rfl rfl rfl (by decide),
    (C14_join_inputs sample_env [test_scan] (join_json_of "1" "inner" ["-1", "0"])
      (by norm_num)).2.2.2 "-1" "0" (-1) 0 rfl rfl rfl (by decide)⟩

/-- C15, counterexample: the "joinType" made of "inner", a NUL character and "OUTER" is
neither "inner" nor "left", and `to_join_type` refuses that string; yet `json_str` hands
`to_join_type` only the characters before the NUL, so the plan Scan, Join with this
"joinType" builds, as an INNER join. In the same way "left" followed by a NUL builds a LEFT
join. -/
theorem C15_join_type_counterexample :
    "inner\x00OUTER" ≠ "inner" ∧ "inner\x00OUTER" ≠ "left" ∧
    to_join_type "inner\x00OUTER" = none ∧
    field (join_json_of "1" "inner\x00OUTER" ["0", "0"]) "joinType" =
      some (.str "inner\x00OUTER") ∧
    (field (join_json_of "1" "inner\x00OUTER" ["0", "0"]) "joinType").bind json_str =
      some "inner" ∧
    run sample_env plan_join_inner_nul =
      some ⟨[test_scan, .join ⟨0, 0, .abstractInput 0, .INNER⟩], 1⟩ ∧
    "left\x00" ≠ "left" ∧ to_join_type "left\x00" = none ∧
    run sample_env plan_join_left_nul =
      some ⟨[test_scan, .join ⟨0, 0, .abstractInput 0, .LEFT⟩], 1⟩ :=
  ⟨by decide, by decide, rfl, rfl, rfl, rfl, by decide, rfl, rfl⟩

/-- C15, amended: `to_join_type` returns INNER for "inner" and LEFT for "left" and fails
for every other string, "INNER" in capitals included. Of an entry read as a `LogicalJoin`,
the join kind is decided by the characters of its "joinType" before the first NUL: when
these are neither "inner" nor "left" the plan does not build; so a "joinType" without a NUL
that is neither "inner" nor "left" makes the build fail, and so does an entry with no
string "joinType". When the plan builds, the node at the position of the entry is a Join,
INNER when the characters before the first NUL are "inner" and LEFT when they are
"left". -/
theorem C15_join_type_reads_c_str (env : Env) (query_ast : Json) (entries : List Json)
    (k : Nat) (join_ra : Json)
    (hrels : field query_ast "rels" = some (.arr entries))
    (hk : entries[k]? = some join_ra)
    (hop : (field join_ra "relOp").bind json_str = some "LogicalJoin") :
    to_join_type "inner" = some .INNER ∧ to_join_type "left" = some .LEFT ∧
    to_join_type "INNER" = none ∧
    (∀ s : String, s ≠ "inner" → s ≠ "left" → to_join_type s = none) ∧
    (∀ raw : String, field join_ra "joinType" = some (.str raw) →
      c_str raw ≠ "inner" → c_str raw ≠ "left" → run env query_ast = none) ∧
    (∀ raw : String, field join_ra "joinType" = some (.str raw) →
      Char.ofNat 0 ∉ raw.data → raw ≠ "inner" → raw ≠ "left" → run env query_ast = none) ∧
    ((∀ raw : String, field join_ra "joinType" ≠ some (.str raw)) →
      run env query_ast = none) ∧
    (∀ r : RunResult, run env query_ast = some r →
      ∃ (raw : String) (n : RelJoin),
        field join_ra "joinType" = some (.str raw) ∧
        r.nodes_[k]? = some (.join n) ∧
        ((c_str raw = "inner" ∧ n.join_type = .INNER) ∨
          (c_str raw = "left" ∧ n.join_type = .LEFT))) := by
  have hfun : ∀ s : String, s ≠ "inner" → s ≠ "left" → to_join_type s = none := by
    intro s h1 h2
    rw [to_join_type, if_neg h1, if_neg h2]
  have hsome : ∀ r : RunResult, run env query_ast = some r →
      ∃ (raw : String) (n : RelJoin),
        field join_ra "joinType" = some (.str raw) ∧
        r.nodes_[k]? = some (.join n) ∧
        ((c_str raw = "inner" ∧ n.join_type = .INNER) ∨
          (c_str raw = "left" ∧ n.join_type = .LEFT)) := by
    intro r hr
    obtain ⟨built, rel_op, ra_node, node, hop2, hd, hn, hbn⟩ :=
      run_entry_node env query_ast r hr entries hrels k join_ra hk
    rw [hop] at hop2
    simp only [Option.some.injEq] at hop2
    subst hop2
    rcases dispatch_cases env _ _ _ _ hd with h | h | h | h | h
    · exact absurd h.1 (by decide)
    · exact absurd h.1 (by decide)
    · exact absurd h.1 (by decide)
    · exact absurd h.1 (by decide)
    · obtain ⟨_, n, hra, hdj⟩ := h
      subst hra
      have hb : bind_node (.join n) = some (.join n) := rfl
      rw [hb] at hbn
      simp only [Option.some.injEq] at hbn
      subst hbn
      obtain ⟨_, _, _, _, hty, _⟩ := dispatchJoin_some env _ _ n hdj
      cases hf : field join_ra "joinType" with
      | none => rw [hf] at hty; simp at hty
      | some v =>
        rw [hf] at hty
        cases v with
        | str raw =>
          refine ⟨raw, n, rfl, hn, ?_⟩
          simp only [Option.some_bind, json_str] at hty
          by_cases h1 : c_str raw = "inner"
          · rw [h1] at hty
            have hi : to_join_type "inner" = some .INNER := rfl
            rw [hi] at hty
            simp only [Option.some.injEq] at hty
            exact Or.inl ⟨h1, hty.symm⟩
          · by_cases h2 : c_str raw = "left"
            · rw [h2] at hty
              have hl : to_join_type "left" = some .LEFT := rfl
              rw [hl] at hty
              simp only [Option.some.injEq] at hty
              exact Or.inr ⟨h2, hty.symm⟩
            · rw [hfun (c_str raw) h1 h2] at hty
              simp at hty
        | null => simp [json_str] at hty
        | bool b => simp [json_str] at hty
        | int i => simp [json_str] at hty
        | double d => simp [json_str] at hty
        | arr a => simp [json_str] at hty
        | obj o => simp [json_str] at hty
  have hcut : ∀ raw : String, field join_ra "joinType" = some (.str raw) →
      c_str raw ≠ "inner" → c_str raw ≠ "left" → run env query_ast = none := by
    intro raw hraw h1 h2
    cases hr : run env query_ast with
    | none => rfl
    | some r =>
      obtain ⟨raw2, n, hraw2, _, hcase⟩ := hsome r hr
      rw [hraw] at hraw2
      simp only [Option.some.injEq, Json.str.injEq] at hraw2
      subst hraw2
      rcases hcase with h | h
      · exact absurd h.1 h1
      · exact absurd h.1 h2
  refine ⟨rfl, rfl, rfl, hfun, hcut, ?_, ?_, hsome⟩
  · intro raw hraw hnul h1 h2
    have hc := c_str_of_no_nul raw hnul
    exact hcut raw hraw (by rw [hc]; exact h1) (by rw [hc]; exact h2)
  · intro hno
    cases hr : run env query_ast with
    | none => rfl
    | some r =>
      obtain ⟨raw, _, hraw, _⟩ := hsome r hr
      exact absurd hraw (hno raw)

/-- Witness of C15: the plan Scan, Join of join type "INNER" in capitals does not build;
the plan Scan, Join whose "joinType" is "inner", NUL, "OUTER" builds, and its node 1 is an
INNER Join. -/
theorem C15_join_type_reads_c_str_witness :
    run sample_env plan_join_capitals = none ∧
    ∃ (raw : String) (n : RelJoin),
      field (join_json_of "1" "inner\x00OUTER" ["0", "0"]) "joinType" = some (.str raw) ∧
      [test_scan, RelAlgNode.join ⟨0, 0, .abstractInput 0, .INNER⟩][1]? = some (.join n) ∧
      ((c_str raw = "inner" ∧ n.join_type = .INNER) ∨
        (c_str raw = "left" ∧ n.join_type = .LEFT)) :=
  ⟨(C15_join_type_reads_c_str sample_env plan_join_capitals
      [scan_json "0", join_json_of "1" "INNER" ["0", "0"]] 1
      (join_json_of "1" "INNER" ["0", "0"]) rfl rfl rfl).2.2.2.2.2.1
      "INNER" rfl (by decide) (by decide) (by decide),
    (C15_join_type_reads_c_str sample_env plan_join_inner_nul
      [scan_json "0", join_json_of "1" "inner\x00OUTER" ["0", "0"]] 1
      (join_json_of "1" "inner\x00OUTER" ["0", "0"]) rfl rfl rfl).2.2.2.2.2.2.2
      ⟨[test_scan, .join ⟨0, 0, .abstractInput 0, .INNER⟩], 1⟩ rfl⟩

/-- C16: in the node list a successful `run` leaves, a Project, Filter or Aggregate node
at position `k` has `k ≥ 1` and exactly one input, the node at position `k - 1`, whatever
that node is. -/
theorem C16_single_input_is_previous (env : Env) (query_ast : Json) (r : RunResult)
    (h : run env query_ast = some r) (k : Nat) (node : RelAlgNode)
    (hk : r.nodes_[k]? = some node)
    (hkind : node.isProject = true ∨ node.isFilter = true ∨ node.isAggregate = true) :
    1 ≤ k ∧ node.inputs = [k - 1] ∧ ∃ input_node, r.nodes_[k - 1]? = some input_node := by
  obtain ⟨entries, built, crt_node, rel_op, ra_node, _, _, _, _, _, hd, hlen, hbn⟩ :=
    run_node env query_ast r h k node hk
  obtain ⟨hp, hf, ha, _⟩ := bind_node_kind ra_node node hbn
  have hin := bind_node_inputs ra_node node hbn
  have hklt : k < r.nodes_.length := (List.getElem?_eq_some.mp hk).1
  have key : ∀ i, prev (built.take k) crt_node = some i → ra_node.inputs = [i] →
      1 ≤ k ∧ node.inputs = [k - 1] ∧ ∃ input_node, r.nodes_[k - 1]? = some input_node := by
    intro i hpv hri
    obtain ⟨_, hne, hi⟩ := prev_some _ _ _ hpv
    rw [hlen] at hne hi
    subst hi
    have hlt : k - 1 < r.nodes_.length := by omega
    exact ⟨by omega, by rw [hin, hri], r.nodes_[k - 1], List.getElem?_eq_getElem hlt⟩
  rcases dispatch_cases env _ _ _ _ hd with hc | hc | hc | hc | hc
  · obtain ⟨_, n, hn, _⟩ := hc
    subst hn
    rw [hp, hf, ha] at hkind
    simp [RelAlgNode.isProject, RelAlgNode.isFilter, RelAlgNode.isAggregate] at hkind
  · obtain ⟨_, n, hn, hdp⟩ := hc
    subst hn
    exact key n.input (dispatchProject_input env _ _ n hdp) rfl
  · obtain ⟨_, n, hn, hdp⟩ := hc
    subst hn
    exact key n.input (dispatchFilter_input env _ _ n hdp) rfl
  · obtain ⟨_, n, hn, hdp⟩ := hc
    subst hn
    exact key n.input (dispatchAggregate_input env _ _ n hdp) rfl
  · obtain ⟨_, n, hn, _⟩ := hc
    subst hn
    rw [hp, hf, ha] at hkind
    simp [RelAlgNode.isProject, RelAlgNode.isFilter, RelAlgNode.isAggregate] at hkind

/-- Witness of C16 on the Filter, at position 2, of the built plan Scan, Project, Filter. -/
theorem C16_single_input_is_previous_witness :
    run sample_env plan_scan_project_filter = some ⟨bound_scan_project_filter, 2⟩ ∧
    (1 ≤ 2 ∧
      (RelAlgNode.filter ⟨.operator .kEQ [.input ⟨1, 0⟩, .input ⟨1, 0⟩], 1⟩).inputs =
        [2 - 1] ∧
      ∃ input_node, bound_scan_project_filter[2 - 1]? = some input_node) :=
  ⟨rfl,
    C16_single_input_is_previous sample_env plan_scan_project_filter
      ⟨bound_scan_project_filter, 2⟩ rfl 2
      (.filter ⟨.operator .kEQ [.input ⟨1, 0⟩, .input ⟨1, 0⟩], 1⟩) rfl (Or.inr (Or.inl rfl))⟩

/-- C17: a plan whose first entry is read as a `LogicalProject`, a `LogicalFilter` or a
`LogicalAggregate` does not build: neither the factory nor `run` returns anything. -/
theorem C17_first_entry_needs_no_input (env : Env) (query_ast first : Json)
    (rest : List Json) (rel_op : String)
    (hrels : field query_ast "rels" = some (.arr (first :: rest)))
    (hop : (field first "relOp").bind json_str = some rel_op)
    (hkind : rel_op = "LogicalProject" ∨ rel_op = "LogicalFilter" ∨
      rel_op = "LogicalAggregate") :
    build_nodes env query_ast = none ∧ run env query_ast = none := by
  have hstep : run_step env [] first = none := by
    cases hs : run_step env [] first with
    | none => rfl
    | some nodes_next =>
      obtain ⟨rel_op2, ra_node, _, hop2, hd, _⟩ := run_step_dispatch env _ _ _ hs
      rw [hop] at hop2
      simp only [Option.some.injEq] at hop2
      subst hop2
      have hno : ∀ i, prev [] first = some i → False := by
        intro i hp
        have := prev_lt _ _ _ hp
        simp at this
      rcases dispatch_cases env _ _ _ _ hd with hc | hc | hc | hc | hc
      · obtain ⟨hc1, _⟩ := hc
        rcases hkind with hk | hk | hk <;> rw [hk] at hc1 <;> exact absurd hc1 (by decide)
      · obtain ⟨_, n, _, hdp⟩ := hc
        exact (hno _ (dispatchProject_input env _ _ n hdp)).elim
      · obtain ⟨_, n, _, hdp⟩ := hc
        exact (hno _ (dispatchFilter_input env _ _ n hdp)).elim
      · obtain ⟨_, n, _, hdp⟩ := hc
        exact (hno _ (dispatchAggregate_input env _ _ n hdp)).elim
      · obtain ⟨hc1, _⟩ := hc
        rcases hkind with hk | hk | hk <;> rw [hk] at hc1 <;> exact absurd hc1 (by decide)
  have hbuild : build_nodes env query_ast = none := by
    rw [build_nodes, hrels]
    simp only [Option.some_bind]
    rw [run_loop, hstep]
  refine ⟨hbuild, ?_⟩
  rw [run, hbuild]
  rfl

/-- Witness of C17 on the plan whose only entry is a Project. -/
theorem C17_first_entry_needs_no_input_witness :
    build_nodes sample_env plan_project_first = none ∧
    run sample_env plan_project_first = none :=
  C17_first_entry_needs_no_input sample_env plan_project_first (project_json "0" [] []) []
    "LogicalProject" rfl rfl (Or.inl rfl)

/-- C18: for every int64 `k`, the plan Scan(0), Project(1) of `$k`, Filter(2) on
`$0 = $0`, Aggregate(3) counting, builds in `sample_env`, whose catalog knows the table,
through factory, binder and coalescer; the node list has exactly 4 nodes; the input of the
Aggregate is position 2, the Filter; the first operand of the Filter's predicate is the
Input `(1, 0)` on the Project, and expression 0 of the Project is the Input `(0, k)` on
the Scan. -/
theorem C18_scan_project_filter_aggregate (k : Int) (hlo : -2 ^ 63 ≤ k) (hhi : k < 2 ^ 63) :
    build_nodes sample_env (plan_scan_project_filter_aggregate k) =
      some (built_scan_project_filter_aggregate k) ∧
    bind_inputs (built_scan_project_filter_aggregate k) =
      some (nodes_scan_project_filter_aggregate k) ∧
    coalesce_nodes (nodes_scan_project_filter_aggregate k) =
      some (nodes_scan_project_filter_aggregate k) ∧
    run sample_env (plan_scan_project_filter_aggregate k) =
      some ⟨nodes_scan_project_filter_aggregate k, 3⟩ ∧
    (nodes_scan_project_filter_aggregate k).length = 4 ∧
    (∃ aggregate_node filter_node project_node,
      (nodes_scan_project_filter_aggregate k)[3]? = some (.aggregate aggregate_node) ∧
      aggregate_node.input = 2 ∧
      (nodes_scan_project_filter_aggregate k)[2]? = some (.filter filter_node) ∧
      RexScalar.subexpr [0] filter_node.condition = some (.input ⟨1, 0⟩) ∧
      (nodes_scan_project_filter_aggregate k)[1]? = some (.project project_node) ∧
      project_node.scalar_exprs[0]? = some (.input ⟨0, k⟩) ∧
      (nodes_scan_project_filter_aggregate k)[0]? = some test_scan) := by
  have hparse : parse_scalar_expr sample_env (input_json k) = some (.abstractInput k) := by
    rw [parse_scalar_expr_eq]
    have h1 : (input_json k).IsObject = true := rfl
    have h2 : (input_json k).HasMember "input" = true := rfl
    have h3 : field (input_json k) "input" = some (.int k) := rfl
    rw [h1, h2]
    simp only [Bool.true_eq_false, if_false, Bool.and_self, if_true]
    rw [parse_abstract_input, h3]
    simp only [Option.some_bind]
    rw [json_i64_int k hlo hhi]
    rfl
  have hproj : dispatchProject sample_env [test_scan]
      (project_json "1" [input_json k] ["x"]) = some ⟨[.abstractInput k], ["x"], 0⟩ := by
    unfold dispatchProject
    have hf : field (project_json "1" [input_json k] ["x"]) "exprs" =
        some (.arr [input_json k]) := rfl
    rw [hf]
    simp only [Option.some_bind, List.mapM'_cons, List.mapM'_nil, hparse]
    rfl
  have hstep : run_step sample_env [test_scan] (project_json "1" [input_json k] ["x"]) =
      some [test_scan, .project ⟨[.abstractInput k], ["x"], 0⟩] := by
    unfold run_step
    have hid : node_id (project_json "1" [input_json k] ["x"]) = some 1 := rfl
    have hop : (field (project_json "1" [input_json k] ["x"]) "relOp").bind json_str =
        some "LogicalProject" := rfl
    have hd : dispatch sample_env [test_scan] "LogicalProject"
        (project_json "1" [input_json k] ["x"]) =
        (dispatchProject sample_env [test_scan]
          (project_json "1" [input_json k] ["x"])).map RelAlgNode.project := rfl
    rw [hid, hop]
    simp only [Option.some_bind]
    rw [hd, hproj]
    rfl
  have hbuild : build_nodes sample_env (plan_scan_project_filter_aggregate k) =
      some (built_scan_project_filter_aggregate k) := by
    have h0 : build_nodes sample_env (plan_scan_project_filter_aggregate k) =
        run_loop sample_env [scan_json "0", project_json "1" [input_json k] ["x"],
          filter_json "2" (eq_json 0 0), count_aggregate_json "3"] [] := rfl
    have h1 : run_step sample_env [] (scan_json "0") = some [test_scan] := rfl
    rw [h0, run_loop, h1]
    simp only
    rw [run_loop, hstep]
    rfl
  refine ⟨hbuild, rfl, rfl, ?_, rfl, ?_⟩
  · rw [run, hbuild]
    rfl
  · exact ⟨_, _, _, rfl, rfl, rfl, rfl, rfl, rfl, rfl⟩

/-- Witness of C18 with `k = 1`. -/
theorem C18_scan_project_filter_aggregate_witness :
    run sample_env (plan_scan_project_filter_aggregate 1) =
      some ⟨nodes_scan_project_filter_aggregate 1, 3⟩ ∧
    (nodes_scan_project_filter_aggregate 1).length = 4 :=
  have h := C18_scan_project_filter_aggregate 1 (by decide) (by decide)
  ⟨h.2.2.2.1, h.2.2.2.2.1⟩

/-- C19, as stated, fails: on the list Filter, Project, Aggregate, simple Project,
`coalesce_nodes` completes and leaves the four nodes as they are, and the plan Scan,
Filter, Project, Aggregate, Project builds into five standalone nodes; no node stands for
a group of others. -/
theorem C19_no_compound_node_counterexample :
    (sample_project 2).isSimple = true ∧
    coalesce_nodes nodes_fpap = some nodes_fpap ∧ nodes_fpap.length = 4 ∧
    run sample_env plan_scan_fpap = some ⟨nodes_scan_fpap, 4⟩ ∧ nodes_scan_fpap.length = 5 :=
  ⟨rfl, rfl, rfl, rfl, rfl⟩

/-- C19, amended: on every list Filter, Project, Aggregate, Project (the last Project
simple or not) `coalesce_nodes` completes and returns the same four nodes; the loop has
matched the first three as a pattern (state `Aggregate`, pattern the positions 0, 1, 2)
and at the fourth node drops the pattern and is back in `Initial`: nothing is emitted. -/
theorem C19_coalesce_leaves_four_nodes (filter_node : RelFilter)
    (project_node last_project : RelProject) (aggregate_node : RelAggregate) :
    coalesce_nodes [.filter filter_node, .project project_node, .aggregate aggregate_node,
        .project last_project] =
      some [.filter filter_node, .project project_node, .aggregate aggregate_node,
        .project last_project] ∧
    coalesce_loop [.filter filter_node, .project project_node, .aggregate aggregate_node]
      0 .Initial [] = some (.Aggregate, [0, 1, 2]) ∧
    coalesce_loop [.filter filter_node, .project project_node, .aggregate aggregate_node,
      .project last_project] 0 .Initial [] = some (.Initial, []) :=
  ⟨rfl, rfl, rfl⟩

/-- C20, as stated, fails: in state `FirstProject` a Project gives `Initial` with the
empty pattern, where from `Initial` it gives `FirstProject` with itself as pattern; in
state `Aggregate` a Filter gives `Initial`, where from `Initial` it gives `Filter`; and on
Project, Project, Aggregate the loop ends in `Initial` with the empty pattern, not in
`Aggregate` with the pattern `[1, 2]`. -/
theorem C20_no_reevaluation_counterexample :
    coalesce_step .FirstProject [0] 1 (.project (sample_project 0)) = some (.Initial, []) ∧
    coalesce_step .Initial [] 1 (.project (sample_project 0)) = some (.FirstProject, [1]) ∧
    RelAlgNode.isSimpleProject (.filter (sample_filter 0)) = false ∧
    coalesce_step .Aggregate [0, 1] 2 (.filter (sample_filter 0)) = some (.Initial, []) ∧
    coalesce_step .Initial [] 2 (.filter (sample_filter 0)) = some (.Filter, [2]) ∧
    coalesce_loop nodes_ppa 0 .Initial [] = some (.Initial, []) :=
  ⟨rfl, rfl, rfl, rfl, rfl, rfl⟩

/-- C20, amended: a pattern-ending node is consumed, not evaluated again. For every node
`n` that is not an Aggregate, the step from `FirstProject` gives `Initial` with the empty
pattern, and so does the step from `Aggregate` for every node; this is the step from
`Initial` with the empty pattern exactly when `n` is neither a Filter nor a Project. So on
every list Project, Project, Aggregate the loop ends in `Initial` with the empty pattern. -/
theorem C20_pattern_end_consumes_node (crt_pattern : List Nat) (i : Nat) (n : RelAlgNode)
    (hna : n.isAggregate = false) :
    coalesce_step .FirstProject crt_pattern i n = some (.Initial, []) ∧
    (∀ m : RelAlgNode, coalesce_step .Aggregate crt_pattern i m = some (.Initial, [])) ∧
    (coalesce_step .FirstProject crt_pattern i n = coalesce_step .Initial [] i n ↔
      (n.isFilter = false ∧ n.isProject = false)) ∧
    (∀ m : RelAlgNode, coalesce_step .Aggregate crt_pattern i m =
        coalesce_step .Initial [] i m ↔ (m.isFilter = false ∧ m.isProject = false)) ∧
    (∀ (p1 p2 : RelProject) (a : RelAggregate),
      coalesce_loop [.project p1, .project p2, .aggregate a] 0 .Initial [] =
        some (.Initial, [])) := by
  have h1 : coalesce_step .FirstProject crt_pattern i n = some (.Initial, []) := by
    simp [coalesce_step, hna, swap_empty]
  have h2 : ∀ m : RelAlgNode, coalesce_step .Aggregate crt_pattern i m =
      some (.Initial, []) := by
    intro m
    simp [coalesce_step, swap_empty]
  have h3 : ∀ m : RelAlgNode, (some (CoalesceState.Initial, ([] : List Nat)) =
      coalesce_step .Initial [] i m ↔ (m.isFilter = false ∧ m.isProject = false)) := by
    intro m
    cases m <;> simp [coalesce_step, RelAlgNode.isFilter, RelAlgNode.isProject]
  refine ⟨h1, h2, ?_, ?_, ?_⟩
  · rw [h1]
    exact h3 n
  · intro m
    rw [h2 m]
    exact h3 m
  · intro p1 p2 a
    rfl

/-- Witness of the amended C20 on a Scan in state `FirstProject`. -/
theorem C20_pattern_end_consumes_node_witness :
    coalesce_step .FirstProject [0] 1 test_scan = some (.Initial, []) ∧
    (coalesce_step .FirstProject [0] 1 test_scan = coalesce_step .Initial [] 1 test_scan ↔
      (test_scan.isFilter = false ∧ test_scan.isProject = false)) :=
  have h := C20_pattern_end_consumes_node [0] 1 test_scan rfl
  ⟨h.1, h.2.2.1⟩

/-- C21, as stated, fails: in the bound list Scan, Project, Filter, Aggregate the Filter
is immediately followed by an Aggregate, and `coalesce_nodes` completes on it; so does the
whole build of the plan. -/
theorem C21_filter_after_project_counterexample :
    nodes_spfa[2]? = some (.filter ⟨.operator .kEQ [.input ⟨1, 0⟩, .input ⟨1, 0⟩], 1⟩) ∧
    nodes_spfa[3]? =
      some (.aggregate ⟨[], [⟨.kCOUNT, false, .kBIGINT, false, []⟩], ["n"], 2⟩) ∧
    coalesce_nodes nodes_spfa = some nodes_spfa ∧
    run sample_env (plan_scan_project_filter_aggregate 1) = some ⟨nodes_spfa, 3⟩ :=
  ⟨rfl, rfl, rfl, rfl⟩

/-- C21, amended: when the loop of `coalesce_nodes` is in state `Initial` after the nodes
`before`, a Filter that comes next and is immediately followed by a node that is not a
Project makes `coalesce_nodes` fail; a Filter met in state `FirstProject` or `Aggregate`
only ends the pattern, and the node after it, whatever it is, is accepted. -/
theorem C21_filter_check_in_state_initial (before after : List RelAlgNode)
    (filter_node : RelFilter) (next : RelAlgNode) (crt_pattern : List Nat)
    (hbefore : coalesce_loop before 0 .Initial [] = some (.Initial, crt_pattern))
    (hnext : next.isProject = false) :
    coalesce_nodes (before ++ .filter filter_node :: next :: after) = none ∧
    (∀ (pattern : List Nat) (i : Nat) (n : RelAlgNode),
      (coalesce_loop [.filter filter_node, n] i .FirstProject pattern).isSome = true ∧
      (coalesce_loop [.filter filter_node, n] i .Aggregate pattern).isSome = true) := by
  constructor
  · unfold coalesce_nodes
    rw [coalesce_loop_append, hbefore]
    simp only
    rw [coalesce_loop]
    have h1 : coalesce_step .Initial crt_pattern (0 + before.length) (.filter filter_node) =
        some (.Filter, crt_pattern ++ [0 + before.length]) := rfl
    rw [h1]
    simp only
    rw [coalesce_loop]
    have h2 : coalesce_step .Filter (crt_pattern ++ [0 + before.length])
        (0 + before.length + 1) next = none := by
      simp [coalesce_step, hnext]
    rw [h2]
  · intro pattern i n
    constructor
    · cases n <;> rfl
    · cases n <;> rfl

/-- Witness of the amended C21: Scan, Filter, Aggregate, where the Filter is met in state
`Initial`, is refused. -/
theorem C21_filter_check_in_state_initial_witness :
    coalesce_loop [test_scan] 0 .Initial [] = some (.Initial, []) ∧
    coalesce_nodes nodes_sfa = none :=
  ⟨rfl,
    (C21_filter_check_in_state_initial [test_scan] [] (sample_filter 0)
      (.aggregate (sample_aggregate 1)) [] rfl rfl).1⟩

/-- C22: in the node list a successful `run` leaves, every input of the node at position
`k` is a position strictly less than `k`; so along every path of input edges the position
strictly decreases, no node reaches itself, and the order of the list is a topological
order. -/
theorem C22_edges_point_backward (env : Env) (query_ast : Json) (r : RunResult)
    (h : run env query_ast = some r) :
    (∀ (k : Nat) (node : RelAlgNode), r.nodes_[k]? = some node →
      ∀ i ∈ node.inputs, i < k) ∧
    (∀ a b, InputPath r.nodes_ a b → b < a) ∧
    (∀ a, ¬ InputPath r.nodes_ a a) := by
  have hwf := run_backward_edges env query_ast r h
  refine ⟨fun k node hk i hi => hwf.lt hk hi, fun a b hp => hp.target_lt hwf, ?_⟩
  intro a hp
  exact absurd (hp.target_lt hwf) (lt_irrefl a)

/-- Witness of C22 on the built plan Scan, Scan, Join(0, 1). -/
theorem C22_edges_point_backward_witness :
    (∀ (k : Nat) (node : RelAlgNode), nodes_scan_scan_join[k]? = some node →
      ∀ i ∈ node.inputs, i < k) ∧
    (∀ a b, InputPath nodes_scan_scan_join a b → b < a) ∧
    (∀ a, ¬ InputPath nodes_scan_scan_join a a) :=
  C22_edges_point_backward sample_env plan_scan_scan_join ⟨nodes_scan_scan_join, 2⟩ rfl

/-- C23: `disambiguate_rex` fails on every expression that is not built of AbstractInput,
Operator and Literal only, that is, that holds at some depth an already-resolved Input or
an Agg; so `bind_inputs` fails on every node list in which a Filter or a Project holds an
Input in one of its expressions, a list it has bound before in particular. -/
theorem C23_disambiguate_rex_refuses_other_shapes (e : RexScalar) (ra_output : Nat)
    (h : e.unbound_only = false) :
    disambiguate_rex e ra_output = none ∧
    (∀ i : RexInput, disambiguate_rex (.input i) ra_output = none) ∧
    (∀ a : RexAgg, disambiguate_rex (.agg a) ra_output = none) ∧
    (∀ x : RexScalar, x.hasInput = true → disambiguate_rex x ra_output = none) ∧
    (∀ (nodes : List RelAlgNode) (k : Nat) (node : RelAlgNode) (x : RexScalar),
      nodes[k]? = some node → (node.isFilter = true ∨ node.isProject = true) →
      x ∈ node.exprs → x.hasInput = true → bind_inputs nodes = none) := by
  refine ⟨disambiguate_rex_none ra_output e h, fun _ => rfl, fun _ => rfl, ?_, ?_⟩
  · intro x hx
    exact disambiguate_rex_none ra_output x (hasInput_not_unbound_only x hx)
  · intro nodes k node x hk hkind hx hin
    exact bind_inputs_none_of_node nodes k node hk (bind_node_none_of_input node x hkind hx hin)

/-- Witness of C23: `Input(0, 0) = $1` is refused, and so is a second binding of the bound
list Scan, Project, Filter. -/
theorem C23_disambiguate_rex_refuses_other_shapes_witness :
    disambiguate_rex (.operator .kEQ [.input ⟨0, 0⟩, .abstractInput 1]) 0 = none ∧
    bind_inputs nodes_scan_project_filter = some bound_scan_project_filter ∧
    bind_inputs bound_scan_project_filter = none :=
  have h := C23_disambiguate_rex_refuses_other_shapes
    (.operator .kEQ [.input ⟨0, 0⟩, .abstractInput 1]) 0 rfl
  ⟨h.1, rfl,
    h.2.2.2.2 bound_scan_project_filter 1 (.project ⟨[.input ⟨0, 1⟩], ["x"], 0⟩)
      (.input ⟨0, 1⟩) rfl (Or.inr rfl) (List.mem_singleton.mpr rfl) rfl⟩

/-- C24: the forward transitions of the coalescer on the node at position `i`. From
`Initial` with the empty pattern, a Filter gives state `Filter` and a Project gives state
`FirstProject`, both with pattern `[i]`, and any other node leaves `Initial` with the
empty pattern; from `Filter` a Project gives `FirstProject` with `i` appended; from
`FirstProject` an Aggregate gives `Aggregate` with `i` appended; from `Aggregate` any node
gives `Initial` with the empty pattern. The pattern is empty whenever the loop is in state
`Initial`. -/
theorem C24_coalesce_transitions (crt_pattern : List Nat) (i : Nat) (n : RelAlgNode)
    (hother : n.isFilter = false ∧ n.isProject = false) :
    (∀ f : RelFilter, coalesce_step .Initial [] i (.filter f) = some (.Filter, [i])) ∧
    (∀ p : RelProject,
      coalesce_step .Initial [] i (.project p) = some (.FirstProject, [i])) ∧
    coalesce_step .Initial [] i n = some (.Initial, []) ∧
    (∀ p : RelProject, coalesce_step .Filter crt_pattern i (.project p) =
      some (.FirstProject, crt_pattern ++ [i])) ∧
    (∀ a : RelAggregate, coalesce_step .FirstProject crt_pattern i (.aggregate a) =
      some (.Aggregate, crt_pattern ++ [i])) ∧
    (∀ m : RelAlgNode, coalesce_step .Aggregate crt_pattern i m = some (.Initial, [])) ∧
    (∀ (before : List RelAlgNode) (pattern : List Nat),
      coalesce_loop before 0 .Initial [] = some (.Initial, pattern) → pattern = []) := by
  refine ⟨fun _ => rfl, fun _ => rfl, ?_, fun _ => rfl, fun _ => rfl, ?_, ?_⟩
  · simp [coalesce_step, hother.1, hother.2]
  · intro m
    simp [coalesce_step, swap_empty]
  · intro before pattern hb
    exact coalesce_loop_initial_empty before 0 .Initial .Initial [] pattern (fun _ => rfl)
      hb rfl

/-- Witness of C24, the node that is neither a Filter nor a Project being a Scan. -/
theorem C24_coalesce_transitions_witness :
    coalesce_step .Initial [] 3 test_scan = some (.Initial, []) ∧
    coalesce_step .Filter [0] 1 (.project (sample_project 0)) =
      some (.FirstProject, [0] ++ [1]) :=
  have h := C24_coalesce_transitions [0] 1 test_scan ⟨rfl, rfl⟩
  ⟨(C24_coalesce_transitions [] 3 test_scan ⟨rfl, rfl⟩).2.2.1,
    h.2.2.2.1 (sample_project 0)⟩

/-- C25: when `coalesce_nodes` completes on a node list it returns this very list: the
same length, the same node at every position, hence the same input edges; and the root a
successful `run` returns is the last position of the bound list, which is the list `run`
leaves. -/
theorem C25_coalesce_nodes_changes_nothing (nodes out : List RelAlgNode)
    (h : coalesce_nodes nodes = some out) :
    out = nodes ∧ out.length = nodes.length ∧
    (∀ k : Nat, out[k]? = nodes[k]?) ∧
    (∀ (k : Nat) (n1 n2 : RelAlgNode), nodes[k]? = some n1 → out[k]? = some n2 →
      n2.inputs = n1.inputs) ∧
    (∀ (env : Env) (query_ast : Json) (r : RunResult), run env query_ast = some r →
      ∃ built, build_nodes env query_ast = some built ∧
        bind_inputs built = some r.nodes_ ∧ r.nodes_ ≠ [] ∧
        r.root = r.nodes_.length - 1) := by
  have heq := coalesce_nodes_some nodes out h
  subst heq
  refine ⟨rfl, rfl, fun _ => rfl, ?_, ?_⟩
  · intro k n1 n2 h1 h2
    rw [h1] at h2
    simp only [Option.some.injEq] at h2
    rw [h2]
  · intro env query_ast r hr
    obtain ⟨entries, built, hf, hloop, hne, hbind, _, hroot⟩ := run_some env query_ast r hr
    refine ⟨built, ?_, hbind, ?_, hroot⟩
    · rw [build_nodes, hf]
      exact hloop
    · intro hnil
      have hlen := (bind_inputs_getElem? built r.nodes_ hbind).1
      rw [hnil] at hlen
      apply hne
      exact List.length_eq_zero.mp hlen.symm

/-- Witness of C25 on the list Filter, Project, Aggregate, Project. -/
theorem C25_coalesce_nodes_changes_nothing_witness :
    nodes_fpap = nodes_fpap ∧ nodes_fpap.length = nodes_fpap.length ∧
    (∀ k : Nat, nodes_fpap[k]? = nodes_fpap[k]?) :=
  have h := C25_coalesce_nodes_changes_nothing nodes_fpap nodes_fpap rfl
  ⟨h.1, h.2.1, h.2.2.1⟩

/-- C26: when `bind_inputs` completes, the bound list has as many nodes, and the node at
every position keeps its kind and its inputs; a Scan, an Aggregate (and a Join) is
unchanged in full; a Project keeps its expression count, its output names and its input,
its expressions being the rewritten ones; a Filter keeps its input, its predicate being
the rewritten one. -/
theorem C26_bind_inputs_frame (nodes bound : List RelAlgNode)
    (h : bind_inputs nodes = some bound) :
    bound.length = nodes.length ∧
    ∀ (k : Nat) (node : RelAlgNode), nodes[k]? = some node →
      ∃ node2, bound[k]? = some node2 ∧
        node2.isProject = node.isProject ∧ node2.isFilter = node.isFilter ∧
        node2.isAggregate = node.isAggregate ∧ node2.isJoin = node.isJoin ∧
        node2.inputs = node.inputs ∧
        (∀ n : RelScan, node = .scan n → node2 = node) ∧
        (∀ n : RelAggregate, node = .aggregate n → node2 = node) ∧
        (∀ n : RelJoin, node = .join n → node2 = node) ∧
        (∀ n : RelProject, node = .project n →
          ∃ n2 : RelProject, node2 = .project n2 ∧
            n2.scalar_exprs.length = n.scalar_exprs.length ∧ n2.fields = n.fields ∧
            n2.input = n.input ∧
            disambiguate_operands n.scalar_exprs n.input = some n2.scalar_exprs) ∧
        (∀ n : RelFilter, node = .filter n →
          ∃ n2 : RelFilter, node2 = .filter n2 ∧ n2.input = n.input ∧
            disambiguate_rex n.condition n.input = some n2.condition) := by
  obtain ⟨hlen, hget⟩ := bind_inputs_getElem? nodes bound h
  refine ⟨hlen, ?_⟩
  intro k node hk
  obtain ⟨node2, hb, hbn⟩ := hget k node hk
  obtain ⟨hp, hf, ha, hj⟩ := bind_node_kind node node2 hbn
  refine ⟨node2, hb, hp, hf, ha, hj, bind_node_inputs node node2 hbn, ?_, ?_, ?_, ?_, ?_⟩
  · intro n hn
    subst hn
    have hs : bind_node (.scan n) = some (.scan n) := rfl
    rw [hs] at hbn
    simp only [Option.some.injEq] at hbn
    exact hbn.symm
  · intro n hn
    subst hn
    have hs : bind_node (.aggregate n) = some (.aggregate n) := rfl
    rw [hs] at hbn
    simp only [Option.some.injEq] at hbn
    exact hbn.symm
  · intro n hn
    subst hn
    have hs : bind_node (.join n) = some (.join n) := rfl
    rw [hs] at hbn
    simp only [Option.some.injEq] at hbn
    exact hbn.symm
  · intro n hn
    subst hn
    exact bind_node_project n node2 hbn
  · intro n hn
    subst hn
    exact bind_node_filter n node2 hbn

/-- Witness of C26 on the plan Scan, Project, Filter. -/
theorem C26_bind_inputs_frame_witness :
    bound_scan_project_filter.length = nodes_scan_project_filter.length ∧
    ∃ node2, bound_scan_project_filter[1]? = some node2 ∧
      node2.inputs = (RelAlgNode.project ⟨[.abstractInput 1], ["x"], 0⟩).inputs :=
  have h := C26_bind_inputs_frame nodes_scan_project_filter bound_scan_project_filter rfl
  ⟨h.1,
    match h.2 1 (.project ⟨[.abstractInput 1], ["x"], 0⟩) rfl with
    | ⟨node2, hb, _, _, _, _, hin, _⟩ => ⟨node2, hb, hin⟩⟩

/-- C27: when `disambiguate_rex` succeeds, its result holds no AbstractInput at any depth,
and as many Input leaves as the expression held AbstractInput leaves. -/
theorem C27_disambiguate_rex_leaves_no_abstract_input (e e2 : RexScalar) (ra_output : Nat)
    (h : disambiguate_rex e ra_output = some e2) :
    e2.hasAbstractInput = false ∧ e2.countAbstractInput = 0 ∧
    e2.countInput = e.countAbstractInput :=
  disambiguate_rex_counts ra_output e e2 h

/-- Witness of C27 on `$0 AND ($3 = NULL)`, rewritten against node 7: two AbstractInputs
became two Inputs. -/
theorem C27_disambiguate_rex_leaves_no_abstract_input_witness :
    (RexScalar.operator .kAND
      [.input ⟨7, 0⟩, .operator .kEQ [.input ⟨7, 3⟩, .literal RexLiteral.untyped_null]]
      ).hasAbstractInput = false ∧
    (RexScalar.operator .kAND
      [.input ⟨7, 0⟩, .operator .kEQ [.input ⟨7, 3⟩, .literal RexLiteral.untyped_null]]
      ).countAbstractInput = 0 ∧
    (RexScalar.operator .kAND
      [.input ⟨7, 0⟩, .operator .kEQ [.input ⟨7, 3⟩, .literal RexLiteral.untyped_null]]
      ).countInput =
    (RexScalar.operator .kAND
      [.abstractInput 0,
        .operator .kEQ [.abstractInput 3, .literal RexLiteral.untyped_null]]
      ).countAbstractInput :=
  C27_disambiguate_rex_leaves_no_abstract_input
    (.operator .kAND
      [.abstractInput 0, .operator .kEQ [.abstractInput 3, .literal RexLiteral.untyped_null]])
    (.operator .kAND
      [.input ⟨7, 0⟩, .operator .kEQ [.input ⟨7, 3⟩, .literal RexLiteral.untyped_null]])
    7 rfl

/-- C28: on the node list a successful `run` leaves, `get_node_output` returns for the
node at every position `k`: every input of the node is a position strictly less than `k`,
so a recursion depth of `k + 1` is enough, any larger bound gives the same list, and the
node is of one of the five kinds, for each of which `get_node_output` has a branch. -/
theorem C28_get_node_output_total (env : Env) (query_ast : Json) (r : RunResult)
    (h : run env query_ast = some r) (k : Nat) (hk : k < r.nodes_.length) :
    ∃ node out,
      r.nodes_[k]? = some node ∧
      (∀ i ∈ node.inputs, i < k) ∧
      ((∃ n, node = .scan n) ∨ (∃ n, node = .project n) ∨ (∃ n, node = .filter n) ∨
        (∃ n, node = .aggregate n) ∨ (∃ n, node = .join n)) ∧
      get_node_output_fuel r.nodes_ (k + 1) k = some out ∧
      (∀ fuel, k + 1 ≤ fuel → get_node_output_fuel r.nodes_ fuel k = some out) ∧
      get_node_output r.nodes_ k = some out := by
  have hwf := run_backward_edges env query_ast r h
  have hget : r.nodes_[k]? = some r.nodes_[k] := List.getElem?_eq_getElem hk
  obtain ⟨out, ho⟩ := get_node_output_fuel_total r.nodes_ hwf k hk
  refine ⟨r.nodes_[k], out, hget, fun i hi => hwf.lt hget hi, ?_, ho, ?_, ?_⟩
  · cases r.nodes_[k] with
    | scan n => exact Or.inl ⟨n, rfl⟩
    | project n => exact Or.inr (Or.inl ⟨n, rfl⟩)
    | filter n => exact Or.inr (Or.inr (Or.inl ⟨n, rfl⟩))
    | aggregate n => exact Or.inr (Or.inr (Or.inr (Or.inl ⟨n, rfl⟩)))
    | join n => exact Or.inr (Or.inr (Or.inr (Or.inr ⟨n, rfl⟩)))
  · intro fuel hf
    exact get_node_output_fuel_mono r.nodes_ _ fuel k out hf ho
  · exact get_node_output_fuel_mono r.nodes_ _ _ k out (by omega) ho

/-- Witness of C28 on the Join, at position 2, of the built plan Scan, Scan, Join. -/
theorem C28_get_node_output_total_witness :
    ∃ node out,
      nodes_scan_scan_join[2]? = some node ∧
      (∀ i ∈ node.inputs, i < 2) ∧
      ((∃ n, node = .scan n) ∨ (∃ n, node = .project n) ∨ (∃ n, node = .filter n) ∨
        (∃ n, node = .aggregate n) ∨ (∃ n, node = .join n)) ∧
      get_node_output_fuel nodes_scan_scan_join (2 + 1) 2 = some out ∧
      (∀ fuel, 2 + 1 ≤ fuel → get_node_output_fuel nodes_scan_scan_join fuel 2 = some out) ∧
      get_node_output nodes_scan_scan_join 2 = some out :=
  C28_get_node_output_total sample_env plan_scan_scan_join ⟨nodes_scan_scan_join, 2⟩ rfl 2
    (by decide)

/-- C29: on every node list the factory builds, `bind_inputs` completes, and for every
Filter or Project node with direct input `n` and every `AbstractInput(i)` at a path of one
of its expressions, the bound node has at this path the Input `(n, i)`: the source is the
direct input and the index is `i`, whatever `i` is, no bound on it being checked. -/
theorem C29_binding_checks_no_range (env : Env) (query_ast : Json) (nodes : List RelAlgNode)
    (hbuilt : build_nodes env query_ast = some nodes) :
    ∃ bound, bind_inputs nodes = some bound ∧
      ∀ (k n : Nat) (node : RelAlgNode), nodes[k]? = some node →
        (node.isFilter = true ∨ node.isProject = true) → node.inputs = [n] →
        ∀ (j : Nat) (e : RexScalar) (p : List Nat) (i : Int),
          node.exprs[j]? = some e → RexScalar.subexpr p e = some (.abstractInput i) →
          ∃ node2 e2, bound[k]? = some node2 ∧ node2.exprs[j]? = some e2 ∧
            RexScalar.subexpr p e2 = some (.input ⟨n, i⟩) := by
  obtain ⟨_, bound, hb⟩ := build_nodes_bind_total env query_ast nodes hbuilt
  refine ⟨bound, hb, ?_⟩
  intro k n node hk hkind hin j e p i he hp
  obtain ⟨node2, hb2, hbn⟩ := (bind_inputs_getElem? nodes bound hb).2 k node hk
  obtain ⟨e2, he2, hs⟩ := bind_node_subexpr node node2 n hbn hkind hin j e p i he hp
  exact ⟨node2, e2, hb2, he2, hs⟩

/-- Witness of C29: the Project of `$5` over the Scan of two columns is bound to the Input
`(0, 5)`, although the output of the Scan has only the entries 0 and 1. -/
theorem C29_binding_checks_no_range_witness :
    build_nodes sample_env plan_project_out_of_range = some built_project_out_of_range ∧
    get_node_output built_project_out_of_range 0 = some [⟨0, 0⟩, ⟨0, 1⟩] ∧
    run sample_env plan_project_out_of_range = some ⟨nodes_project_out_of_range, 1⟩ ∧
    ∃ bound, bind_inputs built_project_out_of_range = some bound ∧
      ∃ node2 e2, bound[1]? = some node2 ∧ node2.exprs[0]? = some e2 ∧
        RexScalar.subexpr [] e2 = some (.input ⟨0, 5⟩) :=
  ⟨rfl, rfl, rfl,
    match C29_binding_checks_no_range sample_env plan_project_out_of_range
      built_project_out_of_range rfl with
    | ⟨bound, hb, hall⟩ =>
      ⟨bound, hb,
        hall 1 0 (.project ⟨[.abstractInput 5], ["x"], 0⟩) rfl (Or.inr rfl) rfl
          0 (.abstractInput 5) [] 5 rfl rfl⟩⟩

/-- C30: the condition of a Filter is read by `parse_operator`, that of a Join by
`parse_scalar_expr`. A condition without an "op" field, such as a bare `{"input": i}` or a
bare literal, is refused by `parse_operator` and by `dispatchFilter`, and a plan with such
a Filter does not build. A condition with both an int64 "input" `i` and a decodable "op"
with operands reads as the Operator through `parse_operator` and in the Filter that
`dispatchFilter` builds, and as `AbstractInput(i)` through `parse_scalar_expr` and in the
Join that `dispatchJoin` builds. -/
theorem C30_filter_reads_operator_only (env : Env) (cond : Json) :
    (field cond "op" = none →
      parse_operator env cond = none ∧
      (∀ (nodes_ : List RelAlgNode) (filter_ra : Json),
        field filter_ra "condition" = some cond →
        dispatchFilter env nodes_ filter_ra = none) ∧
      (∀ (query_ast : Json) (entries : List Json) (k : Nat) (filter_ra : Json),
        field query_ast "rels" = some (.arr entries) → entries[k]? = some filter_ra →
        (field filter_ra "relOp").bind json_str = some "LogicalFilter" →
        field filter_ra "condition" = some cond → run env query_ast = none)) ∧
    (∀ (i : Int) (op : SQLOps) (elems : List Json) (rs : List RexScalar),
      field cond "input" = some (.int i) → -2 ^ 63 ≤ i → i < 2 ^ 63 →
      ((field cond "op").bind json_str).bind env.to_sql_op = some op →
      field cond "operands" = some (.arr elems) →
      elems.mapM' (parse_scalar_expr env) = some rs →
      parse_operator env cond = some (.operator op rs) ∧
      parse_scalar_expr env cond = some (.abstractInput i) ∧
      (∀ (nodes_ : List RelAlgNode) (filter_ra : Json) (n : RelFilter),
        field filter_ra "condition" = some cond →
        dispatchFilter env nodes_ filter_ra = some n → n.condition = .operator op rs) ∧
      (∀ (nodes_ : List RelAlgNode) (join_ra : Json) (n : RelJoin),
        field join_ra "condition" = some cond →
        dispatchJoin env nodes_ join_ra = some n → n.condition = .abstractInput i)) := by
  constructor
  · intro hno
    have hp := parse_operator_no_op env cond hno
    have hdf : ∀ (nodes_ : List RelAlgNode) (filter_ra : Json),
        field filter_ra "condition" = some cond →
        dispatchFilter env nodes_ filter_ra = none := by
      intro nodes_ filter_ra hc
      cases hd : dispatchFilter env nodes_ filter_ra with
      | none => rfl
      | some n =>
        obtain ⟨c, hc2, hpo⟩ := dispatchFilter_condition env nodes_ filter_ra n hd
        rw [hc] at hc2
        simp only [Option.some.injEq] at hc2
        subst hc2
        rw [hp] at hpo
        simp at hpo
    refine ⟨hp, hdf, ?_⟩
    intro query_ast entries k filter_ra hrels hk hop hc
    cases hr : run env query_ast with
    | none => rfl
    | some r =>
      obtain ⟨built, rel_op, ra_node, _, hop2, hd⟩ :=
        run_entry env query_ast r hr entries hrels k filter_ra hk
      rw [hop] at hop2
      simp only [Option.some.injEq] at hop2
      subst hop2
      rcases dispatch_cases env _ _ _ _ hd with h | h | h | h | h
      · exact absurd h.1 (by decide)
      · exact absurd h.1 (by decide)
      · obtain ⟨_, n, _, hdf2⟩ := h
        rw [hdf _ filter_ra hc] at hdf2
        simp at hdf2
      · exact absurd h.1 (by decide)
      · exact absurd h.1 (by decide)
  · intro i op elems rs hin hlo hhi hop hops hrs
    have hpo : parse_operator env cond = some (.operator op rs) := by
      rw [parse_operator, parse_operator_with, hop, hops]
      simp only [Option.some_bind]
      rw [hrs]
      rfl
    have hps : parse_scalar_expr env cond = some (.abstractInput i) := by
      obtain ⟨ho, hm⟩ := field_some_has_member cond "input" _ hin
      rw [parse_scalar_expr_eq, ho, hm]
      simp only [Bool.true_eq_false, if_false, Bool.and_self, if_true]
      rw [parse_abstract_input, hin]
      simp only [Option.some_bind]
      rw [json_i64_int i hlo hhi]
      rfl
    refine ⟨hpo, hps, ?_, ?_⟩
    · intro nodes_ filter_ra n hc hd
      obtain ⟨c, hc2, hpo2⟩ := dispatchFilter_condition env nodes_ filter_ra n hd
      rw [hc] at hc2
      simp only [Option.some.injEq] at hc2
      subst hc2
      rw [hpo] at hpo2
      simp only [Option.some.injEq] at hpo2
      exact hpo2.symm
    · intro nodes_ join_ra n hc hd
      obtain ⟨_, _, _, _, _, hcond, _⟩ := dispatchJoin_some env nodes_ join_ra n hd
      rw [hc] at hcond
      simp only [Option.some_bind] at hcond
      rw [hps] at hcond
      simp only [Option.some.injEq] at hcond
      exact hcond.symm

/-- Witness of C30: the plan Scan, Filter on the bare `{"input": 0}` does not build; on the
condition with both "input" and "op", the Filter built holds the comparison `$0 = $1` and
the Join built holds `AbstractInput(1)`. -/
theorem C30_filter_reads_operator_only_witness :
    run sample_env plan_filter_bare_input = none ∧
    dispatchFilter sample_env [test_scan] (filter_json "1" input_and_op_json) =
      some ⟨.operator .kEQ [.abstractInput 0, .abstractInput 1], 0⟩ ∧
    dispatchJoin sample_env [test_scan] (join_json "1" input_and_op_json "0" "0") =
      some ⟨0, 0, .abstractInput 1, .INNER⟩ ∧
    (RelFilter.mk (.operator .kEQ [.abstractInput 0, .abstractInput 1]) 0).condition =
      .operator .kEQ [.abstractInput 0, .abstractInput 1] ∧
    (RelJoin.mk 0 0 (.abstractInput 1) .INNER).condition = .abstractInput 1 :=
  have h1 := (C30_filter_reads_operator_only sample_env (input_json 0)).1 rfl
  have h2 := (C30_filter_reads_operator_only sample_env input_and_op_json).2 1 .kEQ
    [input_json 0, input_json 1] [.abstractInput 0, .abstractInput 1] rfl (by decide)
    (by decide) rfl rfl rfl
  ⟨h1.2.2 plan_filter_bare_input [scan_json "0", filter_json "1" (input_json 0)] 1
      (filter_json "1" (input_json 0)) rfl rfl rfl rfl,
    rfl, rfl,
    h2.2.2.1 [test_scan] (filter_json "1" input_and_op_json) _ rfl rfl,
    h2.2.2.2 [test_scan] (join_json "1" input_and_op_json "0" "0") _ rfl rfl⟩

end RelAlg
